import Mathlib

/-!
# GemRB text area (`gemrb/core/GUI/TextArea.cpp`)

A shallow embedding of the styled-content part of the text area widget:
the inline markup reader of `TextArea::AppendText`, the drop-cap branch,
`SetText` / `QueryText`, the option selection layer
(`SetSelectOptions`, `UpdateState`, `OnKeyPress`), the mouse handlers
(`OnMouseOver`, `OnMouseLeave`, `OnMouseUp`, `OnMouseWheelScroll`), and the
scrolling layer (`ScrollToY`, `SetRow`, `UpdateScrollbar`, `SetupScroll`,
`NeedsDraw`, `DrawInternal`).

Conventions of the embedding

* a `String` of the source (a `std::wstring`) is a `List Char`;
* a pointer to a font or to an option container is a natural number (its
  address); pointer comparison is comparison of addresses, `NULL` is `none`;
* a palette is described by its two colours; a `Palette*` is an
  `Option Palette`;
* the body container is the list of the spans it owns, in insertion order;
* `assert` aborts the call: the outcome `assertFailed`;
* the layout engine and the scroll bar are not part of the sources at hand:
  their queries and methods are fields of `Env`, a scroll bar method giving
  the new state of the bar and the position it calls the widget back with;
* a function that ends by updating the scroll position is given in two
  layers: the part on the containers under the name of the source, and the
  whole function under the same name in the namespace `Full`.
-/

namespace GemRB

/-! ## Data model -/

/-- An RGBA colour; every channel is one byte in the source. -/
structure Color where
  r : Nat
  g : Nat
  b : Nat
  a : Nat
  deriving DecidableEq, Repr

/-- Modelled from the spec: the palette class is not part of the sources at hand.
A palette is built by `new Palette(front, back)` and read through `->back`. -/
structure Palette where
  front : Color
  back : Color
  deriving DecidableEq, Repr

/-- A width and a height; `Size()` is `(0, 0)`. -/
structure Size where
  w : Int
  h : Int
  deriving DecidableEq, Repr

/-- The part of a font object the widget reads: its address, its line height,
the palette handed out by `GetPalette()` and the size of `GetGlyph(c)`. -/
structure Font where
  addr : Nat
  LineHeight : Int
  palette : Palette
  glyphSize : Char → Size

/-- A styled run, `TextSpan(text, font, palette, frame)`: a `none` font or
palette means that the owning container supplies its default; a `none` frame
means that no frame hint was passed. -/
structure TextSpan where
  text : List Char
  font : Option Nat
  palette : Option Palette
  frame : Option Size
  deriving DecidableEq, Repr

/-- The contents of a text container holding spans only (the body container). -/
abbrev Contents := List TextSpan

/-- Modelled from the spec: `TextContainer::AppendText(s)` is not part of the
sources at hand; it appends `s` as one run that uses the container defaults. -/
def Contents.AppendText (c : Contents) (s : List Char) : Contents :=
  c ++ [{ text := s, font := none, palette := none, frame := none }]

/-- `TextContainer::AppendContent(span)`: the span becomes the last child. -/
def Contents.AppendContent (c : Contents) (t : TextSpan) : Contents :=
  c ++ [t]

/-- Modelled from the spec: `TextContainer::Text()` is not part of the sources
at hand; it is the concatenated text of the runs, in order. -/
def Contents.Text (c : Contents) : List Char :=
  (c.map TextSpan.text).flatten

/-- What a call does: it returns a value, it is stopped by a failed `assert`,
or the step budget of the embedding was too small (never the case, see
`AppendText_ne_outOfFuel`). -/
inductive Outcome (α : Type) where
  | done : α → Outcome α
  | assertFailed : Outcome α
  | outOfFuel : Outcome α
  deriving DecidableEq, Repr

/-! ## The markup reader of `AppendText` -/

/-- The four states of the reader (`enum ParseState`). -/
inductive ParseState where
  | TEXT
  | OPEN_TAG
  | CLOSE_TAG
  | COLOR
  deriving DecidableEq, Repr

/-- Value of a hexadecimal digit, as read by the `X` conversion. -/
def hexVal (c : Char) : Option Nat :=
  if '0' ≤ c ∧ c ≤ '9' then some (c.toNat - '0'.toNat)
  else if 'a' ≤ c ∧ c ≤ 'f' then some (c.toNat - 'a'.toNat + 10)
  else if 'A' ≤ c ∧ c ≤ 'F' then some (c.toNat - 'A'.toNat + 10)
  else none

/-- One `%02X` conversion: at most two hexadecimal digits, at least one.
Returns the value and the unread input. -/
def scanHex2 : List Char → Option (Nat × List Char)
  | [] => none
  | c :: cs =>
    match hexVal c with
    | none => none
    | some hi =>
      match cs with
      | [] => some (hi, [])
      | d :: ds =>
        match hexVal d with
        | none => some (hi, d :: ds)
        | some lo => some (hi * 16 + lo, ds)

/-- The call `swscanf(token, L"%02X%02X%02X", &palCol.r, &palCol.g, &palCol.b)`:
three conversions in a row; the first one that finds no digit ends the scan.
The conversion `X` stores an `unsigned int` of four bytes through its pointer,
and the pointers handed over are those of the one-byte channels of `palCol`
(`r`, `g`, `b`, `a` in this order): in little-endian byte order each store puts
the value, which is at most 255, into its channel and zero into the three bytes
behind it. So the first store also clears `g`, `b` and `a`, and after three
conversions the alpha channel is zero. Without any conversion `palCol` keeps
what it held. The bytes the second and third store write behind `palCol` are
not part of the model, nor is what the C library also accepts in front of a
number (white space, a sign, `0x`). -/
def swscanf (token : List Char) (palCol : Color) : Color :=
  match scanHex2 token with
  | none => palCol
  | some (r, t1) =>
    match scanHex2 t1 with
    | none => { r := r, g := 0, b := 0, a := 0 }
    | some (g, t2) =>
      match scanHex2 t2 with
      | none => { r := r, g := g, b := 0, a := 0 }
      | some (b, _) => { r := r, g := g, b := b, a := 0 }

/-- The local variables of the parse loop together with the iterator (`rest`
is the input from `*it` on) and the body container the spans go to. -/
structure ParseCfg where
  state : ParseState
  token : List Char
  pal : Option Palette
  fnt : Nat
  frame : Size
  palCol : Color
  rest : List Char
  out : Contents
  deriving DecidableEq, Repr

/-- The span created in state `TEXT` when a `[` is met: a `NULL` palette is
replaced by the palette of the initials font when the current font is the
initials font. -/
def tokenSpan (finit : Font) (c : ParseCfg) : TextSpan :=
  { text := c.token
    font := some c.fnt
    palette := if c.fnt = finit.addr ∧ c.pal = none then some finit.palette else c.pal
    frame := some c.frame }

/-- One iteration of the `for` loop of the reader: the `switch` on the state,
`token += *it` when the case ends in `break`, and the `it++` of the loop
header. `back` is `palette->back` of the widget palette.

Iterator moves: the case `OPEN_TAG` on `[` steps back (`it--`) and the loop
header steps forward again, so `rest` is unchanged and the same `[` is read
next in state `TEXT`; the case `TEXT` on `[` looks at the following character
(`*++it`) and keeps it consumed only when it is `/`. At the end of the string
`*++it` reads the terminating zero, which is not `/`.
The `default` label of the source is not reachable: the state is always one
of the four enumerators. The call `gamedata->FreePalette(pal)` of the case
`CLOSE_TAG` releases the palette and leaves `pal` null (its code is not part
of the sources at hand; the assertion behind the loop relies on it). -/
def step (ftext finit : Font) (back : Color) (c : ParseCfg) : ParseCfg :=
  match c.rest with
  | [] => c
  | ch :: r =>
    match c.state with
    | .OPEN_TAG =>
      if ch = '=' then
        if c.token = "color".toList then
          { c with state := .COLOR, token := [], rest := r }
        else
          { c with rest := r }
      else if ch = ']' then
        { c with
          fnt := if c.token = "cap".toList then finit.addr else c.fnt
          frame := if c.token = "cap".toList then c.frame
                   else if c.token = "p".toList then { c.frame with w := -1 }
                   else c.frame
          state := .TEXT, token := [], rest := r }
      else if ch = '[' then
        { c with state := .TEXT, token := '[' :: c.token }
      else
        { c with token := c.token ++ [ch], rest := r }
    | .CLOSE_TAG =>
      if ch = ']' then
        { c with
          pal := if c.token = "color".toList then none else c.pal
          fnt := if c.token = "color".toList then c.fnt
                 else if c.token = "cap".toList then ftext.addr else c.fnt
          frame := if c.token = "color".toList then c.frame
                   else if c.token = "cap".toList then c.frame
                   else if c.token = "p".toList then { c.frame with w := 0 }
                   else c.frame
          state := .TEXT, token := [], rest := r }
      else
        { c with token := c.token ++ [ch], rest := r }
    | .TEXT =>
      if ch = '[' then
        let out :=
          if c.token ≠ [] ∧ c.token ≠ ['\n'] then c.out.AppendContent (tokenSpan finit c)
          else c.out
        match r with
        | [] => { c with out := out, token := [], state := .OPEN_TAG, rest := [] }
        | d :: r' =>
          if d = '/' then
            { c with out := out, token := [], state := .CLOSE_TAG, rest := r' }
          else
            { c with out := out, token := [], state := .OPEN_TAG, rest := d :: r' }
      else
        { c with token := c.token ++ [ch], rest := r }
    | .COLOR =>
      if ch = ']' then
        { c with
          palCol := swscanf c.token c.palCol
          pal := some { front := swscanf c.token c.palCol, back := back }
          state := .TEXT, token := [], rest := r }
      else
        { c with token := c.token ++ [ch], rest := r }

/-- The `for` loop: iterate `step` until the iterator reaches the end of the
text. `none` when the budget of iterations runs out first. -/
def parseLoop (ftext finit : Font) (back : Color) : Nat → ParseCfg → Option ParseCfg
  | 0, c => if c.rest = [] then some c else none
  | n + 1, c => if c.rest = [] then some c else parseLoop ftext finit back n (step ftext finit back c)

/-! ## Widget state -/

/-- The flag bits of the widget. -/
structure TextAreaFlags where
  editable : Bool
  history : Bool
  autoscroll : Bool
  smoothscroll : Bool
  deriving DecidableEq, Repr

/-- The palette slots (`enum PALETTE_TYPE`). -/
inductive PALETTE_TYPE where
  | NORMAL
  | INITIALS
  | OPTIONS
  | HOVER
  | SELECTED
  deriving DecidableEq, Repr

/-- A rectangle. -/
structure Region where
  x : Int
  y : Int
  w : Int
  h : Int
  deriving DecidableEq, Repr

/-- The container built for one option by `SetSelectOptions`: its address, its
palette and the spans it owns. -/
structure OptionBox where
  addr : Nat
  palette : Option Palette
  contents : List TextSpan
  deriving DecidableEq, Repr

/-- A child of the options container: a run of text or the container of one
option. -/
inductive OptNode where
  | text : TextSpan → OptNode
  | option : OptionBox → OptNode
  deriving DecidableEq, Repr

/-- The handlers the widget can run. -/
inductive ControlEvent where
  | TextAreaOnChange
  | TextAreaOnSelect
  deriving DecidableEq, Repr

/-- Modelled from the spec: the scroll bar class is not part of the sources at
hand; it is a slider with a position `Pos` and a maximum, which the source
reads as `bar->Value`. -/
structure ScrollBar where
  Pos : Nat
  Value : Nat
  deriving DecidableEq, Repr

/-- What the widget takes from its surroundings: the layout queries of the
text container (not part of the sources at hand), the set `WHITESPACE_STRING`,
the value the uninitialised local `palCol` happens to hold, whether the
video driver reports touch input, the constant `ColorBlack`, and what the
six-character buffer `optNum` holds after a `swprintf` that did not fit.

Further layout queries: `WrapperFrame` is `contentWrapper.ContentFrame()` for
the given body and options container, `OptionsFrame` is
`selectOptions->ContentFrame()`, `BoundingBoxForContent` is the query of that
name on the body container, and `ContentAtPoint` is the hit test
`dynamic_cast<TextContainer*>(selectOptions->ContentAtPoint(p))`, giving the
address of the option container found.

The scroll bar methods `SetMax`, `SetPos` and `SetPosForY` give the new state
of the scroll bar and, when the scroll bar calls `ScrollToY(y, sb)` back on
the widget, that `y`. `SetPosForY` is handed the `y` and the line height from
which the source computes its argument `y * (step / (double) LineHeight)` in
floating point. -/
structure Env where
  ContentFrame : Contents → Size
  DeleteContentsInRect : Contents → Region → Contents
  WHITESPACE_STRING : List Char
  stackColor : Color
  TouchInputEnabled : Bool
  ColorBlack : Color
  optNumOverflow : Nat → List Char
  WrapperFrame : Contents → Option (List OptNode) → Size
  OptionsFrame : List OptNode → Size
  BoundingBoxForContent : Contents → TextSpan → Region
  ContentAtPoint : List OptNode → Int → Int → Option Nat
  SetMax : ScrollBar → Nat → ScrollBar × Option Int
  SetPos : ScrollBar → Nat → ScrollBar × Option Int
  SetPosForY : ScrollBar → Int → Int → ScrollBar × Option Int

/-- The state of a text area, with the two process-wide objects it writes to:
the dictionary (as the list of `SetAt` calls, latest first) and the handlers
run so far (in order). `Height` is the height of the widget, `AnimPicture` the
width of the portrait if there is one, `sb` the state of the attached scroll
bar, and `dialogBeginNode` the body child the weak pointer of that name refers
to. The dirty mark is not carried. -/
structure TextArea where
  Flags : TextAreaFlags
  VarName : List Char
  Value : Int
  ftext : Font
  finit : Font
  palette : Palette
  palettes : PALETTE_TYPE → Option Palette
  textContainer : Contents
  selectOptions : Option (List OptNode)
  OptSpans : List (Int × Nat)
  hoverSpan : Option Nat
  selectedSpan : Option Nat
  nextAddr : Nat
  dictionary : List (List Char × Int)
  events : List ControlEvent
  Height : Nat
  AnimPicture : Option Int
  TextYPos : Int
  rows : Int
  ticks : Int
  starttime : Nat
  sb : Option ScrollBar
  dialogBeginNode : Option TextSpan

/-- `EDGE_PADDING`. -/
def EDGE_PADDING : Int := 3

/-- `text.find_first_of(c)`: index of the first occurrence, `none` for `npos`. -/
def find_first_of (c : Char) : List Char → Option Nat
  | [] => none
  | x :: xs => if x = c then some 0 else (find_first_of c xs).map (· + 1)

/-- `text.find_first_not_of(set)`: index of the first character that is not
in `set`, `none` for `npos`. -/
def find_first_not_of (set : List Char) : List Char → Option Nat
  | [] => none
  | x :: xs => if x ∈ set then (find_first_not_of set xs).map (· + 1) else some 0

/-- The history trim at the head of `AppendText`: with the history flag, a
body higher than one hundred lines loses what lies in the top rectangle. -/
def historyTrim (E : Env) (s : TextArea) : Contents :=
  if s.Flags.history then
    let heightLimit := s.ftext.LineHeight * 100
    let frame := E.ContentFrame s.textContainer
    let currHeight := frame.h
    if currHeight > heightLimit then
      E.DeleteContentsInRect s.textContainer
        { x := 0, y := 0, w := frame.w, h := currHeight - heightLimit }
    else s.textContainer
  else s.textContainer

/-- The configuration in which the parse loop starts: `it = text.begin() +
tagPos`, state `TEXT`, no palette, the body font, an empty frame. -/
def parseStart (E : Env) (s : TextArea) (body : Contents) (input : List Char) : ParseCfg :=
  { state := .TEXT, token := [], pal := none, fnt := s.ftext.addr,
    frame := { w := 0, h := 0 }, palCol := E.stackColor, rest := input, out := body }

/-- The markup branch of `AppendText` (a `[` was found at `tagPos`), acting on
the body container. -/
def appendMarkup (E : Env) (s : TextArea) (body : Contents) (text : List Char)
    (tagPos : Nat) : Outcome Contents :=
  let body1 := if tagPos ≠ 0 then body.AppendText (text.take tagPos) else body
  match parseLoop s.ftext s.finit s.palette.back (2 * text.length + 1)
      (parseStart E s body1 (text.drop tagPos)) with
  | none => .outOfFuel
  | some c =>
    if c.pal = none ∧ c.state = .TEXT then
      .done (if c.token ≠ [] then c.out.AppendText c.token else c.out)
    else .assertFailed

/-- The branch of `AppendText` for a non-empty text without `[`: with a
distinct initials font the first character that is not white space becomes a
span of its own and what precedes it is not appended. -/
def appendPlain (E : Env) (s : TextArea) (body : Contents) (text : List Char) : Contents :=
  if s.finit.addr ≠ s.ftext.addr then
    match find_first_not_of E.WHITESPACE_STRING text with
    | some textpos =>
      let g := s.finit.glyphSize (text.getD textpos ' ')
      let sz : Size := if g.h > s.ftext.LineHeight then { g with w := g.w + EDGE_PADDING } else g
      let dc : TextSpan :=
        { text := (text.drop textpos).take 1, font := some s.finit.addr,
          palette := s.palettes .INITIALS, frame := some sz }
      (body.AppendContent dc).AppendText (text.drop (textpos + 1))
    | none => body.AppendText (text.drop 0)
  else body.AppendText text

/-- `TextArea::AppendText(const String&)` up to the scroll bar refresh at its
end (that part is `afterAppend`). -/
def AppendText (E : Env) (s : TextArea) (text : List Char) : Outcome TextArea :=
  let body := historyTrim E s
  match find_first_of '[' text with
  | some tagPos =>
    match appendMarkup E s body text tagPos with
    | .done b => .done { s with textContainer := b }
    | .assertFailed => .assertFailed
    | .outOfFuel => .outOfFuel
  | none =>
    if text ≠ [] then .done { s with textContainer := appendPlain E s body text }
    else .done { s with textContainer := body }

/-! ## Text of the widget -/

/-- `SetPalette` of the option container at address `a`: the container takes
the palette; the other children are left alone. -/
def setBoxPalette (a : Nat) (p : Option Palette) : List OptNode → List OptNode
  | [] => []
  | .text t :: ns => .text t :: setBoxPalette a p ns
  | .option b :: ns =>
    (if b.addr = a then .option { b with palette := p } else .option b) :: setBoxPalette a p ns

/-- The option container at address `a`, if the options container owns one. -/
def findBox (a : Nat) : List OptNode → Option OptionBox
  | [] => none
  | .text _ :: ns => findBox a ns
  | .option b :: ns => if b.addr = a then some b else findBox a ns

/-- The call `span->SetPalette(p)` for a span pointer held by the widget. -/
def TextArea.spanSetPalette (s : TextArea) (a : Nat) (p : Option Palette) : TextArea :=
  { s with selectOptions := s.selectOptions.map (setBoxPalette a p) }

/-- The palette of the option container at address `a`. -/
def TextArea.spanPalette (s : TextArea) (a : Nat) : Option (Option Palette) :=
  match s.selectOptions with
  | none => none
  | some ns => (findBox a ns).map OptionBox.palette

/-- `TextArea::ClearHover`. -/
def ClearHover (s : TextArea) : TextArea :=
  match s.hoverSpan with
  | some h =>
    if s.hoverSpan = s.selectedSpan then
      { s.spanSetPalette h (s.palettes .SELECTED) with hoverSpan := none }
    else
      { s.spanSetPalette h (s.palettes .OPTIONS) with hoverSpan := none }
  | none => s

/-- `TextArea::ClearText` up to its closing `ScrollToY(0)` and
`UpdateScrollbar()`: the hover is cleared and the body container is replaced
by an empty one. -/
def ClearText (s : TextArea) : TextArea :=
  { ClearHover s with textContainer := [] }

/-- `TextArea::SetText`, made of `ClearText` and `AppendText` as above. -/
def SetText (E : Env) (s : TextArea) (text : List Char) : Outcome TextArea :=
  AppendText E (ClearText s) text

/-- `TextArea::QueryText`: the text of the selected option if there is one,
else the text of the body. -/
def QueryText (s : TextArea) : List Char :=
  match s.selectedSpan with
  | some a =>
    match s.selectOptions.bind (findBox a) with
    | some b => Contents.Text b.contents
    | none => []
  | none => Contents.Text s.textContainer

/-! ## Selection layer -/

/-- `TextArea::SetPalette(color, idx)`. -/
def SetPalette (E : Env) (s : TextArea) (color : Option Color) (idx : PALETTE_TYPE) : TextArea :=
  match color with
  | some col =>
    { s with palettes := fun i => if i = idx then some { front := col, back := E.ColorBlack }
                                  else s.palettes i }
  | none =>
    if idx ≠ .NORMAL then
      { s with palettes := fun i => if i = idx then s.palettes .NORMAL else s.palettes i }
    else s

/-- `TextArea::ClearSelectOptions`, up to its closing `UpdateScrollbar()`. -/
def ClearSelectOptions (s : TextArea) : TextArea :=
  { s with OptSpans := [], selectOptions := none, dialogBeginNode := none,
           selectedSpan := none, hoverSpan := none, Value := -1 }

/-- The text `swprintf(optNum, 6, L"%d. - ", n)` leaves in the buffer: the
number and `". - "` when that and the terminating zero fit in six characters. -/
def optNumText (E : Env) (n : Nat) : List Char :=
  let t := (Nat.repr n).toList ++ ". - ".toList
  if t.length < 6 then t else E.optNumOverflow n

/-- The container built for option `i` (counted from zero) at address `a`. -/
def makeOption (E : Env) (s : TextArea) (numbered : Bool) (a i : Nat) (text : List Char) :
    OptionBox :=
  { addr := a
    palette := s.palettes .OPTIONS
    contents :=
      (if numbered then
        [{ text := optNumText E (i + 1), font := none, palette := s.palettes .SELECTED,
           frame := none }]
       else []) ++
      [{ text := text, font := none, palette := none, frame := some { w := -1, h := 0 } }] }

/-- The loop of `SetSelectOptions` over the options from index `i` on: the
children added to the options container and the entries pushed on `OptSpans`.
Option `i` is allocated at address `a`, the next one at `a + 1`, and so on. -/
def buildOptions (E : Env) (s : TextArea) (numbered : Bool) :
    Nat → Nat → List (Int × List Char) → List OptNode × List (Int × Nat)
  | _, _, [] => ([], [])
  | a, i, o :: os =>
    let rest := buildOptions E s numbered (a + 1) (i + 1) os
    let nl : List OptNode :=
      if E.TouchInputEnabled then
        [.text { text := ['\n'], font := none, palette := none, frame := none }]
      else []
    (.option (makeOption E s numbered a i o.2) :: (nl ++ rest.1), (o.1, a) :: rest.2)

/-- The part of `SetSelectOptions` behind its call of `ClearSelectOptions`:
the last child of the body, if there is one, becomes `dialogBeginNode`, and
the options container is built. -/
def installOptions (E : Env) (s4 : TextArea) (opts : List (Int × List Char)) (numbered : Bool) :
    TextArea :=
  let gap : List OptNode :=
    if s4.textContainer ≠ [] then
      [.text { text := ['\n'], font := none, palette := none, frame := none }]
    else []
  let built := buildOptions E s4 numbered s4.nextAddr 0 opts
  { s4 with selectOptions := some (gap ++ built.1), OptSpans := built.2,
            nextAddr := s4.nextAddr + opts.length,
            dialogBeginNode :=
              if s4.textContainer ≠ [] then s4.textContainer.getLast? else s4.dialogBeginNode }

/-- `TextArea::SetSelectOptions`, without the two calls of `UpdateScrollbar()`
(the one that ends `ClearSelectOptions` and the one at its own end). -/
def SetSelectOptions (E : Env) (s : TextArea) (opts : List (Int × List Char)) (numbered : Bool)
    (color hiColor selColor : Option Color) : TextArea :=
  let s1 := SetPalette E s color .OPTIONS
  let s2 := SetPalette E s1 hiColor .HOVER
  let s3 := SetPalette E s2 selColor .SELECTED
  installOptions E (ClearSelectOptions s3) opts numbered

/-- `TextArea::UpdateState(VariableName, optIdx)`. The dictionary is written
under the member `VarName`. -/
def UpdateState (s : TextArea) (VariableName : List Char) (optIdx : Nat) : TextArea :=
  if VariableName = [] ∨ optIdx ≥ s.OptSpans.length then s
  else if s.selectOptions = none then ClearSelectOptions s
  else
    let value := (s.OptSpans.getD optIdx (0, 0)).1
    let optspan := (s.OptSpans.getD optIdx (0, 0)).2
    let s1 : TextArea :=
      match s.selectedSpan with
      | some sel => if sel ≠ optspan then s.spanSetPalette sel (s.palettes .OPTIONS) else s
      | none => s
    let s2 := s1.spanSetPalette optspan (s.palettes .SELECTED)
    { s2 with Value := value, selectedSpan := some optspan,
              dictionary := (s.VarName, value) :: s.dictionary,
              events := s.events ++ [.TextAreaOnSelect] }

/-- Modelled from the spec: the dictionary class is not part of the sources at
hand; the entry under a key is the value of the latest `SetAt` on that key. -/
def dictLookup (d : List (List Char × Int)) (key : List Char) : Option Int :=
  (d.find? (fun e => e.1 = key)).map Prod.snd

/-- `TextArea::OnKeyPress(Key, Mod)`: the returned flag and the new state.
`Key` is an `unsigned char`; `'1'` is 49 and `'9'` is 57. -/
def OnKeyPress (s : TextArea) (Key : Nat) : Bool × TextArea :=
  if s.Flags.editable then
    if Key ≥ 0x20 then (true, { s with events := s.events ++ [.TextAreaOnChange] })
    else (true, s)
  else if Key < 49 ∨ Key > 57 then (false, s)
  else
    let lookupIdx := Key - 49
    if lookupIdx < s.OptSpans.length then (true, UpdateState s s.VarName lookupIdx)
    else (true, s)

/-! ## Scrolling

The functions `AppendText`, `ClearText`, `SetText`, `ClearSelectOptions`,
`SetSelectOptions`, `UpdateState` and `OnKeyPress` above stop short of the
calls of `ScrollToY` and `UpdateScrollbar` the source makes; the functions of
the same names in `Full` are the whole source functions. -/

/-- Conversion to `ieWord`, an unsigned 16 bit number. -/
def toWord (v : Int) : Nat := (v % 65536).toNat

/-- `TextArea::GetRowHeight`. -/
def GetRowHeight (s : TextArea) : Int := s.ftext.LineHeight

/-- `TextArea::SetRow`. -/
def SetRow (s : TextArea) (row : Int) : TextArea :=
  if row ≤ s.rows then { s with TextYPos := row * GetRowHeight s } else s

/-- The widget after a call of a scroll bar method: the scroll bar has its new
state, and when it called `ScrollToY(y, sb)` back, the branch "our scrollbar
has set position for us" of `ScrollToY` has stored `TextYPos = y`. -/
def barResult (s : TextArea) (r : ScrollBar × Option Int) : TextArea :=
  { s with sb := some r.1
           TextYPos := match r.2 with
                       | some y => y
                       | none => s.TextYPos }

/-- `TextArea::ScrollToY(y, sender)`; `fromBar` tells whether the sender is
the scroll bar of the widget. The division is that of C, towards zero. -/
def ScrollToY (E : Env) (s : TextArea) (y : Int) (fromBar : Bool) : TextArea :=
  match s.sb with
  | some bar =>
    if fromBar = false then barResult s (E.SetPosForY bar y s.ftext.LineHeight)
    else { s with TextYPos := y }
  | none => SetRow s (Int.tdiv y s.ftext.LineHeight)

/-- The local `textHeight` of `UpdateScrollbar` when the row count is taken:
the height of the content wrapper, with the phony height added when there is a
dialog begin node and its page is lower than the widget. -/
def textHeight (E : Env) (s : TextArea) : Int :=
  match s.dialogBeginNode with
  | some n =>
    let nodeBounds := E.BoundingBoxForContent s.textContainer n
    let selectFrame := E.OptionsFrame (s.selectOptions.getD [])
    let pageH := s.ftext.LineHeight * 2 + nodeBounds.h + selectFrame.h
    if pageH < s.Height then
      (E.WrapperFrame s.textContainer s.selectOptions).h + (s.Height - pageH)
    else (E.WrapperFrame s.textContainer s.selectOptions).h
  | none => (E.WrapperFrame s.textContainer s.selectOptions).h

/-- The argument `sbMax` of `bar->SetMax` for a row count: both `visibleRows`
and `sbMax` are of type `ieWord`. -/
def sbMaxFor (s : TextArea) (rows : Int) : Nat :=
  let visibleRows : Int := toWord (Int.tdiv s.Height (GetRowHeight s))
  toWord (if rows > visibleRows then rows - visibleRows else 0)

/-- `TextArea::UpdateScrollbar`. -/
def UpdateScrollbar (E : Env) (s : TextArea) : TextArea :=
  match s.sb with
  | none => s
  | some bar =>
    let rowHeight := GetRowHeight s
    let newRows := Int.tdiv (textHeight E s + rowHeight - 1) rowHeight
    let s1 :=
      if newRows ≠ s.rows then
        barResult { s with rows := newRows } (E.SetMax bar (sbMaxFor s newRows))
      else s
    match s.dialogBeginNode with
    | some n =>
      if s.Flags.autoscroll then
        ScrollToY E s1 ((E.BoundingBoxForContent s.textContainer n).y - s.ftext.LineHeight) false
      else s1
    | none => s1

/-- `TextArea::SetScrollBar(ptr)`; `none` when the source dereferences the null
pointer (`bar->SetPos` with the autoscroll flag and no scroll bar given).
`Control::SetScrollBar(bar)` stores the pointer in `sb`. -/
def SetScrollBar (E : Env) (s : TextArea) (ptr : Option ScrollBar) : Option TextArea :=
  let s2 := UpdateScrollbar E { s with sb := ptr, rows := 0 }
  if s.Flags.autoscroll then
    match s2.sb with
    | some bar => some (barResult s2 (E.SetPos bar bar.Value))
    | none => none
  else some (ScrollToY E s2 s2.TextYPos false)

/-- The end of `AppendText`: the scroll bar refresh. -/
def afterAppend (E : Env) (s : TextArea) : TextArea :=
  match s.sb with
  | some _ =>
    let s1 := UpdateScrollbar E s
    if s.Flags.autoscroll ∧ s.selectOptions = none then
      match s1.sb with
      | some bar => barResult s1 (E.SetPos bar bar.Value)
      | none => s1
    else s1
  | none => s

/-- The whole of `TextArea::AppendText(const String&)`. -/
def Full.AppendText (E : Env) (s : TextArea) (text : List Char) : Outcome TextArea :=
  match GemRB.AppendText E s text with
  | .done s1 => .done (afterAppend E s1)
  | .assertFailed => .assertFailed
  | .outOfFuel => .outOfFuel

/-- The whole of `TextArea::ClearText`. -/
def Full.ClearText (E : Env) (s : TextArea) : TextArea :=
  UpdateScrollbar E (ScrollToY E (GemRB.ClearText s) 0 false)

/-- The whole of `TextArea::SetText`. -/
def Full.SetText (E : Env) (s : TextArea) (text : List Char) : Outcome TextArea :=
  Full.AppendText E (Full.ClearText E s) text

/-- The whole of `TextArea::ClearSelectOptions`. -/
def Full.ClearSelectOptions (E : Env) (s : TextArea) : TextArea :=
  UpdateScrollbar E (GemRB.ClearSelectOptions s)

/-- The whole of `TextArea::SetSelectOptions`. -/
def Full.SetSelectOptions (E : Env) (s : TextArea) (opts : List (Int × List Char))
    (numbered : Bool) (color hiColor selColor : Option Color) : TextArea :=
  let s1 := SetPalette E s color .OPTIONS
  let s2 := SetPalette E s1 hiColor .HOVER
  let s3 := SetPalette E s2 selColor .SELECTED
  UpdateScrollbar E (installOptions E (Full.ClearSelectOptions E s3) opts numbered)

/-- The whole of `TextArea::UpdateState`: as `UpdateState`, with the whole of
`ClearSelectOptions` in the branch without an options container. -/
def Full.UpdateState (E : Env) (s : TextArea) (VariableName : List Char) (optIdx : Nat) :
    TextArea :=
  if VariableName = [] ∨ optIdx ≥ s.OptSpans.length then s
  else if s.selectOptions = none then Full.ClearSelectOptions E s
  else GemRB.UpdateState s VariableName optIdx

/-- The whole of `TextArea::OnKeyPress`. -/
def Full.OnKeyPress (E : Env) (s : TextArea) (Key : Nat) : Bool × TextArea :=
  if s.Flags.editable then
    if Key ≥ 0x20 then (true, { s with events := s.events ++ [.TextAreaOnChange] })
    else (true, s)
  else if Key < 49 ∨ Key > 57 then (false, s)
  else
    let lookupIdx := Key - 49
    if lookupIdx < s.OptSpans.length then (true, Full.UpdateState E s s.VarName lookupIdx)
    else (true, s)

/-- `TextArea::SetupScroll`; `now` is the value of `GetTickCount()`. The
quotient is that of C; `ticks` holds it before its conversion to
`unsigned long`. -/
def SetupScroll (E : Env) (s : TextArea) (now : Nat) : TextArea :=
  let s1 := Full.ClearText E { s with ticks := Int.tdiv 2400 s.ftext.LineHeight }
  { s1 with TextYPos := -(s1.Height : Int)
            Flags := { s1.Flags with smoothscroll := true }
            starttime := now }

/-- `TextArea::NeedsDraw`; `controlNeedsDraw` is the answer of
`Control::NeedsDraw()`. -/
def NeedsDraw (E : Env) (s : TextArea) (controlNeedsDraw : Bool) : Bool :=
  if s.Flags.smoothscroll then
    if s.TextYPos > (E.ContentFrame s.textContainer).h then false else true
  else controlNeedsDraw

/-- `TextArea::DrawInternal`, as far as the state of the widget goes;
`thisTime` is the value of `GetTickCount()`. -/
def DrawInternal (s : TextArea) (thisTime : Nat) : TextArea :=
  if s.Flags.smoothscroll ∧ thisTime > s.starttime then
    { s with starttime := (thisTime + s.ticks).toNat, TextYPos := s.TextYPos + 1 }
  else s

/-! ## Mouse -/

/-- The span found under the mouse by `OnMouseOver`: the point is moved left
by the portrait and its padding and up by the part of the body that shows,
and handed to the hit test of the options container `ns`. -/
def hitSpan (E : Env) (s : TextArea) (ns : List OptNode) (x y : Nat) : Option Nat :=
  let px : Int := x - (match s.AnimPicture with
                       | some w => w + EDGE_PADDING
                       | none => 0)
  let py : Int := y - ((E.ContentFrame s.textContainer).h - s.TextYPos)
  E.ContentAtPoint ns px py

/-- `TextArea::OnMouseOver(x, y)`. -/
def OnMouseOver (E : Env) (s : TextArea) (x y : Nat) : TextArea :=
  match s.selectOptions with
  | none => s
  | some ns =>
    match hitSpan E s ns x y with
    | some a => { (ClearHover s).spanSetPalette a (s.palettes .HOVER) with hoverSpan := some a }
    | none => ClearHover s

/-- `TextArea::OnMouseLeave`. -/
def OnMouseLeave (s : TextArea) : TextArea := ClearHover s

/-- `TextArea::OnMouseUp`; `actionOrMenu` tells whether `Button` has one of the
bits `GEM_MB_ACTION` and `GEM_MB_MENU`. The index handed to `UpdateState` is
that of the first entry of `OptSpans` whose container is `hoverSpan`, or the
length of `OptSpans` when there is none. -/
def Full.OnMouseUp (E : Env) (s : TextArea) (actionOrMenu : Bool) : TextArea :=
  match s.hoverSpan with
  | some h =>
    if actionOrMenu then
      Full.UpdateState E s s.VarName (s.OptSpans.findIdx (fun e => e.2 = h))
    else s
  | none => s

/-- Conversion of an integer to an unsigned integer type of `w` bits. -/
def toUnsigned (w : Nat) (v : Int) : Int := v % 2 ^ w

/-- Conversion of an integer to a signed integer type of `w` bits (two's
complement). -/
def toSigned (w : Nat) (v : Int) : Int := (v + 2 ^ (w - 1)) % 2 ^ w - 2 ^ (w - 1)

/-- The argument `(int)fauxY` that `OnMouseWheelScroll` hands to `ScrollToY`,
where `long` has `longBits` bits: `unsigned long fauxY = TextYPos`, then
`fauxY = 0` when `(long)fauxY + y <= 0` and `fauxY += y` otherwise, then the
conversion to `int`. `none` when the signed sum `(long)fauxY + y` is outside
the range of `long` (undefined behaviour). -/
def wheelTarget (longBits : Nat) (TextYPos y : Int) : Option Int :=
  let fauxY := toUnsigned longBits TextYPos
  let sum := toSigned longBits fauxY + y
  if sum < -(2 ^ (longBits - 1)) ∨ 2 ^ (longBits - 1) ≤ sum then none
  else
    let fauxY1 :=
      if sum ≤ 0 then 0 else toUnsigned longBits (fauxY + toUnsigned longBits y)
    some (toSigned 32 fauxY1)

/-- `TextArea::OnMouseWheelScroll(x, y)`, up to its closing call of
`FakeMouseMove()` on the event manager, which is not part of the sources at
hand; `longBits` is the width of `long` on the platform. `none` when the
handler runs into undefined behaviour. -/
def OnMouseWheelScroll (E : Env) (longBits : Nat) (s : TextArea) (y : Int) : Option TextArea :=
  if s.Flags.smoothscroll = false then
    (wheelTarget longBits s.TextYPos y).map fun t => ScrollToY E s t false
  else some s

/-! ## The parse loop: measure and reachability -/

/-- The measure that decreases with every iteration of the parse loop: twice
the remaining input, plus one in state `OPEN_TAG` (the only state in which an
iteration may leave the iterator where it was). -/
def parseMeasure (c : ParseCfg) : Nat :=
  2 * c.rest.length + (if c.state = .OPEN_TAG then 1 else 0)

/-- The pair the termination argument orders lexicographically: the length of
the input not yet read, then the state of the reader, where `OPEN_TAG` (the
state whose `[` case rewinds the iterator) counts 1 and the other states 0. -/
def parseRank (c : ParseCfg) : Nat × Nat :=
  (c.rest.length, if c.state = .OPEN_TAG then 1 else 0)

/-- The configuration `c'` is met after some number of iterations from `c`. -/
def Reaches (ftext finit : Font) (back : Color) (c c' : ParseCfg) : Prop :=
  ∃ k, (step ftext finit back)^[k] c = c'

/-! ## Well-formed markup -/

/-- The six tag delimiters the reader knows; a colour tag carries the text
between `=` and `]`. -/
inductive Tag where
  | cap
  | capEnd
  | color (digits : List Char)
  | colorEnd
  | par
  | parEnd
  deriving DecidableEq, Repr

/-- The characters of a delimiter. -/
def Tag.chars : Tag → List Char
  | .cap => "[cap]".toList
  | .capEnd => "[/cap]".toList
  | .color d => "[color=".toList ++ d ++ [']']
  | .colorEnd => "[/color]".toList
  | .par => "[p]".toList
  | .parEnd => "[/p]".toList

/-- A colour tag carries exactly six hexadecimal digits. -/
def Tag.wellFormed : Tag → Bool
  | .color d => d.length = 6 ∧ d.all (fun c => (hexVal c).isSome)
  | _ => true

/-- The text `tag₁ t₁ tag₂ t₂ …` of a list of delimiters, each followed by a
stretch of text. -/
def renderPieces : List (Tag × List Char) → List Char
  | [] => []
  | p :: ps => p.1.chars ++ p.2 ++ renderPieces ps

/-- What a delimiter does to the span properties of the reader. -/
def Tag.effect (ftext finit : Font) (back : Color) (tag : Tag) (c : ParseCfg) : ParseCfg :=
  match tag with
  | .cap => { c with fnt := finit.addr }
  | .capEnd => { c with fnt := ftext.addr }
  | .color d => { c with palCol := swscanf d c.palCol,
                         pal := some { front := swscanf d c.palCol, back := back } }
  | .colorEnd => { c with pal := none }
  | .par => { c with frame := { c.frame with w := -1 } }
  | .parEnd => { c with frame := { c.frame with w := 0 } }

/-- The body container after the `TEXT` case met a `[`: the pending token has
become a span unless it is empty or a lone newline. -/
def flushOut (finit : Font) (c : ParseCfg) : Contents :=
  if c.token ≠ [] ∧ c.token ≠ ['\n'] then c.out.AppendContent (tokenSpan finit c) else c.out

/-- The configuration after a delimiter and the stretch of text behind it
were read in state `TEXT`. -/
def afterPiece (ftext finit : Font) (back : Color) (c : ParseCfg) (p : Tag × List Char)
    (more : List Char) : ParseCfg :=
  { p.1.effect ftext finit back c with
    out := flushOut finit c, token := p.2, state := .TEXT, rest := more }

/-- The configuration after a whole list of pieces was read. -/
def runPieces (ftext finit : Font) (back : Color) : ParseCfg → List (Tag × List Char) → ParseCfg
  | c, [] => c
  | c, p :: ps => runPieces ftext finit back (afterPiece ftext finit back c p (renderPieces ps)) ps

/-- Whether a colour palette is held after the given delimiters, `b` telling
whether one was held before. -/
def openColour : Bool → List Tag → Bool
  | b, [] => b
  | _, .color _ :: ts => openColour true ts
  | _, .colorEnd :: ts => openColour false ts
  | b, _ :: ts => openColour b ts

/-- The body container with which the parse loop starts: the text in front of
the first `[`, if there is any, was appended already. -/
def bodyBeforeTags (body : Contents) (first : List Char) : Contents :=
  if first.length ≠ 0 then body.AppendText first else body

/-! ## The text of a marked-up string, from the words of the specification -/

/-- Whether `l` begins with the characters `p`. -/
def startsWith : List Char → List Char → Bool
  | [], _ => true
  | _ :: _, [] => false
  | a :: p, b :: l => a = b && startsWith p l

/-- The length of the recognised tag delimiter the text begins with, if it
begins with one: `[cap]`, `[/cap]`, `[color=HHHHHH]` with six hexadecimal
digits, `[/color]`, `[p]`, `[/p]`. -/
def delimiterLength (l : List Char) : Option Nat :=
  if startsWith "[cap]".toList l then some 5
  else if startsWith "[/cap]".toList l then some 6
  else if startsWith "[/color]".toList l then some 8
  else if startsWith "[p]".toList l then some 3
  else if startsWith "[/p]".toList l then some 4
  else if startsWith "[color=".toList l ∧ ((l.drop 7).take 6).length = 6 ∧
      ((l.drop 7).take 6).all (fun c => (hexVal c).isSome) ∧ startsWith [']'] (l.drop 13) then
    some 14
  else none

/-- Copy the text, leaving out `skip` characters first and then every
recognised tag delimiter. -/
def stripTagsFrom : Nat → List Char → List Char
  | _, [] => []
  | k + 1, _ :: cs => stripTagsFrom k cs
  | 0, c :: cs =>
    match delimiterLength (c :: cs) with
    | some n => stripTagsFrom (n - 1) cs
    | none => c :: stripTagsFrom 0 cs

/-- The input with all recognised tag delimiters removed. -/
def stripTags (l : List Char) : List Char := stripTagsFrom 0 l

/-! ## Reading the state -/

/-- The body container a call leaves behind; empty when the call did not return. -/
def Outcome.body : Outcome TextArea → Contents
  | .done t => t.textContainer
  | _ => []

/-- The frame of the drop cap for the character `ch`: the size of its glyph,
made wider by `EDGE_PADDING` when the glyph is higher than a body line. -/
def capFrame (s : TextArea) (ch : Char) : Size :=
  if (s.finit.glyphSize ch).h > s.ftext.LineHeight then
    { s.finit.glyphSize ch with w := (s.finit.glyphSize ch).w + EDGE_PADDING }
  else s.finit.glyphSize ch

/-- The characters of a container in order, each with the font, the palette
and the frame hint of its run. -/
def Contents.styledChars (c : Contents) :
    List (Char × Option Nat × Option Palette × Option Size) :=
  (c.map fun r => r.text.map fun ch => (ch, r.font, r.palette, r.frame)).flatten

/-- Options are installed: there is an options container and every entry of
`OptSpans` points to an option container it owns. -/
def OptionsInstalled (s : TextArea) : Prop :=
  ∃ ns, s.selectOptions = some ns ∧ ∀ e ∈ s.OptSpans, (findBox e.2 ns).isSome = true

/-- The state `s'` is `s` but for the scroll position, the row count and the
scroll bar. -/
def ScrollOnly (s s' : TextArea) : Prop :=
  s' = { s with TextYPos := s'.TextYPos, rows := s'.rows, sb := s'.sb }

/-- The states a smooth scroll goes through: `SetupScroll` on the widget `s0`,
then calls of `AppendText` that return and draws, a draw taking place only
when `NeedsDraw` says so. -/
inductive SmoothRun (E : Env) (s0 : TextArea) : TextArea → Prop where
  | setup (now : Nat) : SmoothRun E s0 (SetupScroll E s0 now)
  | append {s s' : TextArea} (text : List Char) :
      SmoothRun E s0 s → Full.AppendText E s text = .done s' → SmoothRun E s0 s'
  | draw {s : TextArea} (controlNeedsDraw : Bool) (thisTime : Nat) :
      SmoothRun E s0 s → NeedsDraw E s controlNeedsDraw = true →
      SmoothRun E s0 (DrawInternal s thisTime)

/-- A fresh widget, as `Init` leaves it: no options container, no entry in
`OptSpans`, no hover, no selection and no dialog begin node. -/
def Fresh (s : TextArea) : Prop :=
  s.selectOptions = none ∧ s.OptSpans = [] ∧ s.hoverSpan = none ∧ s.selectedSpan = none ∧
    s.dialogBeginNode = none

/-- The states a widget reaches from a fresh one through `SetSelectOptions`,
`ClearSelectOptions`, `ClearText`, `SetText`, `AppendText`, `OnMouseOver`,
`OnMouseLeave`, `OnMouseUp`, `OnKeyPress` and `UpdateState`. -/
inductive Reachable (E : Env) : TextArea → Prop where
  | fresh {s : TextArea} : Fresh s → Reachable E s
  | setOptions {s : TextArea} (opts : List (Int × List Char)) (numbered : Bool)
      (color hiColor selColor : Option Color) :
      Reachable E s → Reachable E (Full.SetSelectOptions E s opts numbered color hiColor selColor)
  | clearOptions {s : TextArea} : Reachable E s → Reachable E (Full.ClearSelectOptions E s)
  | clearText {s : TextArea} : Reachable E s → Reachable E (Full.ClearText E s)
  | setText {s s' : TextArea} (text : List Char) :
      Reachable E s → Full.SetText E s text = .done s' → Reachable E s'
  | appendText {s s' : TextArea} (text : List Char) :
      Reachable E s → Full.AppendText E s text = .done s' → Reachable E s'
  | mouseOver {s : TextArea} (x y : Nat) : Reachable E s → Reachable E (OnMouseOver E s x y)
  | mouseLeave {s : TextArea} : Reachable E s → Reachable E (OnMouseLeave s)
  | mouseUp {s : TextArea} (actionOrMenu : Bool) :
      Reachable E s → Reachable E (Full.OnMouseUp E s actionOrMenu)
  | keyPress {s : TextArea} (Key : Nat) : Reachable E s → Reachable E (Full.OnKeyPress E s Key).2
  | updateState {s : TextArea} (VariableName : List Char) (optIdx : Nat) :
      Reachable E s → Reachable E (Full.UpdateState E s VariableName optIdx)

/-- The span pointers of the widget are in order: `hoverSpan` and
`selectedSpan` are null or the container of an entry of `OptSpans`, and so is
every option container the options container owns. -/
def SpansValid (s : TextArea) : Prop :=
  (∀ a, s.hoverSpan = some a → a ∈ s.OptSpans.map Prod.snd) ∧
  (∀ a, s.selectedSpan = some a → a ∈ s.OptSpans.map Prod.snd) ∧
  (∀ ns a, s.selectOptions = some ns → (findBox a ns).isSome = true →
    a ∈ s.OptSpans.map Prod.snd)

/-- The palettes of the option containers are in order: every option
container the options container owns carries the options palette, or is
`hoverSpan` and carries the hover palette, or is `selectedSpan` and carries
the selected palette. -/
def PalettesValid (s : TextArea) : Prop :=
  ∀ ns b, s.selectOptions = some ns → OptNode.option b ∈ ns →
    b.palette = s.palettes .OPTIONS ∨
    (s.hoverSpan = some b.addr ∧ b.palette = s.palettes .HOVER) ∨
    (s.selectedSpan = some b.addr ∧ b.palette = s.palettes .SELECTED)

/-! ## A layout that stacks the children, from the words of the specification -/

/-- A body font: line height 10, every glyph 5 by 10. -/
def bodyFont : Font :=
  { addr := 1, LineHeight := 10,
    palette := { front := ⟨255, 255, 255, 0⟩, back := ⟨0, 0, 0, 0⟩ },
    glyphSize := fun _ => { w := 5, h := 10 } }

/-- An initials font: every glyph 20 by 30, higher than a body line. -/
def capsFont : Font :=
  { addr := 2, LineHeight := 13,
    palette := { front := ⟨200, 160, 0, 0⟩, back := ⟨0, 0, 0, 0⟩ },
    glyphSize := fun _ => { w := 20, h := 30 } }

/-- A layout in which every span and every child of the options container is
one line of its own, ten pixels high, and the deletion of a top rectangle
removes the lines that lie inside it; the scroll bar counts lines. -/
def exampleEnv : Env :=
  { ContentFrame := fun c => { w := 100, h := 10 * c.length }
    DeleteContentsInRect := fun c r => c.drop (r.h / 10).toNat
    WHITESPACE_STRING := "\n\t\r ".toList
    stackColor := ⟨7, 7, 7, 7⟩
    TouchInputEnabled := false
    ColorBlack := ⟨0, 0, 0, 255⟩
    optNumOverflow := fun _ => []
    WrapperFrame := fun c o => { w := 100, h := 10 * c.length + 10 * (o.getD []).length }
    OptionsFrame := fun ns => { w := 100, h := 10 * ns.length }
    BoundingBoxForContent := fun c n => { x := 0, y := 10 * c.indexOf n, w := 100, h := 10 }
    ContentAtPoint := fun ns _ y =>
      match ns.get? (y / 10).toNat with
      | some (.option b) => if 0 ≤ y then some b.addr else none
      | _ => none
    SetMax := fun bar m => ({ bar with Value := m }, none)
    SetPos := fun bar p => ({ bar with Pos := min p bar.Value }, some (10 * (min p bar.Value : Nat)))
    SetPosForY := fun bar y lh =>
      ({ bar with Pos := min (y / lh).toNat bar.Value },
        some (lh * (min (y / lh).toNat bar.Value : Nat))) }

/-- A widget with a distinct initials font, no options and an empty body. -/
def exampleArea : TextArea :=
  { Flags := { editable := false, history := false, autoscroll := false, smoothscroll := false }
    VarName := "Selected".toList
    Value := -1
    ftext := bodyFont
    finit := capsFont
    palette := { front := ⟨200, 200, 200, 0⟩, back := ⟨10, 20, 30, 0⟩ }
    palettes := fun i =>
      match i with
      | .NORMAL => some { front := ⟨200, 200, 200, 0⟩, back := ⟨10, 20, 30, 0⟩ }
      | .INITIALS => some { front := ⟨200, 160, 0, 0⟩, back := ⟨0, 0, 0, 0⟩ }
      | _ => none
    textContainer := []
    selectOptions := none
    OptSpans := []
    hoverSpan := none
    selectedSpan := none
    nextAddr := 100
    dictionary := []
    events := []
    Height := 100
    AnimPicture := none
    TextYPos := 0
    rows := 0
    ticks := 0
    starttime := 0
    sb := none
    dialogBeginNode := none }

/-- A layout in which every span is a block of its own, 500 pixels high. -/
def tallEnv : Env :=
  { exampleEnv with
    ContentFrame := fun c => { w := 100, h := 500 * c.length }
    DeleteContentsInRect := fun c r => c.drop (r.h / 500).toNat }

/-- A widget in history mode, without a distinct initials font, whose body
holds two spans. -/
def historyArea : TextArea :=
  { exampleArea with
    Flags := { editable := false, history := true, autoscroll := false, smoothscroll := false }
    finit := bodyFont
    textContainer :=
      [{ text := "old".toList, font := none, palette := none, frame := none },
       { text := "new".toList, font := none, palette := none, frame := none }] }

/-- The widget of the option scenario: two numbered options on the example
widget. -/
def dialogArea : TextArea :=
  SetSelectOptions exampleEnv exampleArea [(42, "Yes".toList), (43, "No".toList)] true
    none none (some ⟨255, 0, 0, 0⟩)

/-- The example widget with a scroll bar attached, some text in its body and
the autoscroll flag set. -/
def scrolledArea : TextArea :=
  { exampleArea with
    Flags := { editable := false, history := false, autoscroll := true, smoothscroll := false }
    textContainer := [{ text := "Hello".toList, font := none, palette := none, frame := none }]
    TextYPos := 30
    rows := 7
    sb := some { Pos := 3, Value := 5 } }

/-- The example widget, which has no scroll bar, after `ScrollToY(-20)`. -/
def raisedArea : TextArea := ScrollToY exampleEnv exampleArea (-20) false

/-- Ten options, numbered from 1 to 10 by their values. -/
def tenOptions : List (Int × List Char) :=
  [(1, "a".toList), (2, "b".toList), (3, "c".toList), (4, "d".toList), (5, "e".toList),
   (6, "f".toList), (7, "g".toList), (8, "h".toList), (9, "i".toList), (10, "j".toList)]

/-- The example widget with two numbered options in their own colours. -/
def optionsArea : TextArea :=
  Full.SetSelectOptions exampleEnv exampleArea [(42, "Yes".toList), (43, "No".toList)] true
    (some ⟨0, 255, 0, 0⟩) (some ⟨0, 0, 255, 0⟩) (some ⟨255, 0, 0, 0⟩)

/-- The widget `optionsArea` with the mouse over its first option. -/
def hoveredArea : TextArea := OnMouseOver exampleEnv optionsArea 5 5

/-- The example widget without a distinct initials font. -/
def plainArea : TextArea := { exampleArea with finit := bodyFont }

/-- The example widget with a scroll bar attached and no distinct initials
font. -/
def barArea : TextArea :=
  { exampleArea with finit := bodyFont, sb := some { Pos := 0, Value := 0 } }

/-- The widget `barArea` in a dialog: one line of text and two options. -/
def talkArea : TextArea :=
  Full.SetSelectOptions exampleEnv
    { barArea with
      textContainer := [{ text := "Hello".toList, font := none, palette := none, frame := none }] }
    [(42, "Yes".toList), (43, "No".toList)] true none none none

/-- The example layout with a content wrapper that is always 700000 pixels
high. -/
def hugeEnv : Env :=
  { exampleEnv with WrapperFrame := fun _ _ => { w := 100, h := 700000 } }

/-- The state in which `SetScrollBar` calls `UpdateScrollbar` when a scroll
bar with maximum 5 is attached to the empty widget `plainArea`. -/
def attachedArea : TextArea :=
  { plainArea with sb := some { Pos := 0, Value := 5 }, rows := 0 }

/-- The example widget without a distinct initials font, two pixels high. -/
def lowArea : TextArea := { plainArea with Height := 2 }

/-- The widget `barArea` after its scroll bar has set the position
2147483647, the largest value of an `int`. -/
def farArea : TextArea := ScrollToY exampleEnv barArea 2147483647 true

/-- The example widget with three numbered options in their own colours, the
mouse over the first one, after the key `2`. -/
def pressedArea : TextArea :=
  (Full.OnKeyPress exampleEnv
    (OnMouseOver exampleEnv
      (Full.SetSelectOptions exampleEnv exampleArea
        [(42, "Yes".toList), (43, "No".toList), (44, "Maybe".toList)] true
        (some ⟨0, 255, 0, 0⟩) (some ⟨0, 0, 255, 0⟩) (some ⟨255, 0, 0, 0⟩)) 5 5) 50).2

/-- The example widget with two options in the default colours (no colour is
handed to `SetSelectOptions`), after the key `1`. -/
def defaultsArea : TextArea :=
  (Full.OnKeyPress exampleEnv
    (Full.SetSelectOptions exampleEnv exampleArea [(42, "Yes".toList), (43, "No".toList)] true
      none none none) 49).2

theorem step_of_rest_nil (ftext finit : Font) (back : Color) (c : ParseCfg)
    (h : c.rest = []) : step ftext finit back c = c := by
  unfold step
  rw [h]

theorem step_measure_lt (ftext finit : Font) (back : Color) (c : ParseCfg)
    (h : c.rest ≠ []) : parseMeasure (step ftext finit back c) < parseMeasure c := by
  obtain ⟨st, tok, pal, fnt, fr, pc, rest, out⟩ := c
  cases rest with
  | nil => exact absurd rfl h
  | cons ch r =>
    cases st
    · -- TEXT
      cases r with
      | nil =>
        by_cases h1 : ch = '[' <;> simp [step, parseMeasure, h1]
      | cons d r' =>
        by_cases h1 : ch = '[' <;> by_cases h2 : d = '/' <;>
          simp [step, parseMeasure, h1, h2] <;> omega
    · -- OPEN_TAG
      by_cases h1 : ch = '=' <;> by_cases h2 : ch = ']' <;> by_cases h3 : ch = '[' <;>
        simp [step, parseMeasure, h1, h2, h3] <;> (try split_ifs) <;> (try simp) <;> omega
    · -- CLOSE_TAG
      by_cases h2 : ch = ']' <;> simp [step, parseMeasure, h2]
    · -- COLOR
      by_cases h2 : ch = ']' <;> simp [step, parseMeasure, h2]

theorem iterate_step_of_rest_nil (ftext finit : Font) (back : Color) (k : Nat) (c : ParseCfg)
    (h : c.rest = []) : (step ftext finit back)^[k] c = c := by
  induction k with
  | zero => rfl
  | succ k ih => rw [Function.iterate_succ_apply, step_of_rest_nil ftext finit back c h, ih]

theorem parseLoop_eq_iterate (ftext finit : Font) (back : Color) (n : Nat) (c : ParseCfg) :
    parseLoop ftext finit back n c =
      if ((step ftext finit back)^[n] c).rest = [] then some ((step ftext finit back)^[n] c)
      else none := by
  induction n generalizing c with
  | zero => simp [parseLoop]
  | succ n ih =>
    rw [parseLoop, Function.iterate_succ_apply]
    by_cases h : c.rest = []
    · rw [step_of_rest_nil ftext finit back c h, iterate_step_of_rest_nil ftext finit back n c h]
      simp [h]
    · rw [if_neg h, ih]

theorem iterate_step_rest_nil (ftext finit : Font) (back : Color) (n : Nat) (c : ParseCfg)
    (h : parseMeasure c ≤ n) : ((step ftext finit back)^[n] c).rest = [] := by
  induction n generalizing c with
  | zero =>
    have h0 : 2 * c.rest.length = 0 := by unfold parseMeasure at h; omega
    simpa using h0
  | succ n ih =>
    rw [Function.iterate_succ_apply]
    by_cases hr : c.rest = []
    · rw [step_of_rest_nil ftext finit back c hr, iterate_step_of_rest_nil ftext finit back n c hr]
      exact hr
    · apply ih
      have := step_measure_lt ftext finit back c hr
      omega

/-- The parse loop ends within `parseMeasure` iterations. -/
theorem parseLoop_total (ftext finit : Font) (back : Color) (n : Nat) (c : ParseCfg)
    (h : parseMeasure c ≤ n) :
    parseLoop ftext finit back n c = some ((step ftext finit back)^[n] c) := by
  rw [parseLoop_eq_iterate, if_pos (iterate_step_rest_nil ftext finit back n c h)]

theorem Reaches.refl (ftext finit : Font) (back : Color) (c : ParseCfg) :
    Reaches ftext finit back c c := ⟨0, rfl⟩

theorem Reaches.trans {ftext finit : Font} {back : Color} {a b c : ParseCfg}
    (h1 : Reaches ftext finit back a b) (h2 : Reaches ftext finit back b c) :
    Reaches ftext finit back a c := by
  obtain ⟨k1, rfl⟩ := h1
  obtain ⟨k2, rfl⟩ := h2
  exact ⟨k2 + k1, by rw [Function.iterate_add_apply]⟩

theorem Reaches.one (ftext finit : Font) (back : Color) (c : ParseCfg) :
    Reaches ftext finit back c (step ftext finit back c) := ⟨1, rfl⟩

/-- A configuration at the end of the input that the loop meets is the one the
loop returns, whatever budget at least `parseMeasure` was given. -/
theorem parseLoop_of_reaches {ftext finit : Font} {back : Color} {c cf : ParseCfg} {n : Nat}
    (hr : Reaches ftext finit back c cf) (hnil : cf.rest = []) (hn : parseMeasure c ≤ n) :
    parseLoop ftext finit back n c = some cf := by
  obtain ⟨k, rfl⟩ := hr
  rw [parseLoop_total ftext finit back n c hn]
  congr 1
  rcases Nat.le_total k n with hkn | hnk
  · obtain ⟨d, rfl⟩ := Nat.exists_eq_add_of_le hkn
    rw [Nat.add_comm, Function.iterate_add_apply, iterate_step_of_rest_nil _ _ _ _ _ hnil]
  · obtain ⟨d, rfl⟩ := Nat.exists_eq_add_of_le hnk
    rw [Nat.add_comm, Function.iterate_add_apply,
      iterate_step_of_rest_nil _ _ _ _ _ (iterate_step_rest_nil ftext finit back n c hn)]

/-! ## Single iterations -/

theorem step_text_char (ftext finit : Font) (back : Color) (tok : List Char)
    (pal : Option Palette) (fnt : Nat) (fr : Size) (pc : Color) (ch : Char) (r : List Char)
    (out : Contents) (h : ch ≠ '[') :
    step ftext finit back ⟨.TEXT, tok, pal, fnt, fr, pc, ch :: r, out⟩ =
      ⟨.TEXT, tok ++ [ch], pal, fnt, fr, pc, r, out⟩ := by
  simp [step, h]

theorem step_open_char (ftext finit : Font) (back : Color) (tok : List Char)
    (pal : Option Palette) (fnt : Nat) (fr : Size) (pc : Color) (ch : Char) (r : List Char)
    (out : Contents) (h1 : ch ≠ '[') (h2 : ch ≠ ']') (h3 : ch ≠ '=') :
    step ftext finit back ⟨.OPEN_TAG, tok, pal, fnt, fr, pc, ch :: r, out⟩ =
      ⟨.OPEN_TAG, tok ++ [ch], pal, fnt, fr, pc, r, out⟩ := by
  simp [step, h1, h2, h3]

theorem step_close_char (ftext finit : Font) (back : Color) (tok : List Char)
    (pal : Option Palette) (fnt : Nat) (fr : Size) (pc : Color) (ch : Char) (r : List Char)
    (out : Contents) (h2 : ch ≠ ']') :
    step ftext finit back ⟨.CLOSE_TAG, tok, pal, fnt, fr, pc, ch :: r, out⟩ =
      ⟨.CLOSE_TAG, tok ++ [ch], pal, fnt, fr, pc, r, out⟩ := by
  simp [step, h2]

theorem step_color_char (ftext finit : Font) (back : Color) (tok : List Char)
    (pal : Option Palette) (fnt : Nat) (fr : Size) (pc : Color) (ch : Char) (r : List Char)
    (out : Contents) (h2 : ch ≠ ']') :
    step ftext finit back ⟨.COLOR, tok, pal, fnt, fr, pc, ch :: r, out⟩ =
      ⟨.COLOR, tok ++ [ch], pal, fnt, fr, pc, r, out⟩ := by
  simp [step, h2]

/-- In state `TEXT` the characters of a stretch without `[` join the token. -/
theorem reaches_text (ftext finit : Font) (back : Color) (t : List Char) (h : '[' ∉ t)
    (tok : List Char) (pal : Option Palette) (fnt : Nat) (fr : Size) (pc : Color)
    (more : List Char) (out : Contents) :
    Reaches ftext finit back ⟨.TEXT, tok, pal, fnt, fr, pc, t ++ more, out⟩
      ⟨.TEXT, tok ++ t, pal, fnt, fr, pc, more, out⟩ := by
  induction t generalizing tok with
  | nil => simpa using Reaches.refl ftext finit back _
  | cons ch t ih =>
    have h1 : ch ≠ '[' := fun e => h (by simp [e])
    have h2 : '[' ∉ t := fun e => h (by simp [e])
    have := Reaches.one ftext finit back ⟨.TEXT, tok, pal, fnt, fr, pc, ch :: (t ++ more), out⟩
    rw [step_text_char _ _ _ _ _ _ _ _ _ _ _ h1] at this
    have h3 := Reaches.trans this (ih h2 (tok ++ [ch]))
    simpa using h3

/-- In state `COLOR` the characters of a stretch without `]` join the token. -/
theorem reaches_color (ftext finit : Font) (back : Color) (t : List Char) (h : ']' ∉ t)
    (tok : List Char) (pal : Option Palette) (fnt : Nat) (fr : Size) (pc : Color)
    (more : List Char) (out : Contents) :
    Reaches ftext finit back ⟨.COLOR, tok, pal, fnt, fr, pc, t ++ more, out⟩
      ⟨.COLOR, tok ++ t, pal, fnt, fr, pc, more, out⟩ := by
  induction t generalizing tok with
  | nil => simpa using Reaches.refl ftext finit back _
  | cons ch t ih =>
    have h1 : ch ≠ ']' := fun e => h (by simp [e])
    have h2 : ']' ∉ t := fun e => h (by simp [e])
    have := Reaches.one ftext finit back ⟨.COLOR, tok, pal, fnt, fr, pc, ch :: (t ++ more), out⟩
    rw [step_color_char _ _ _ _ _ _ _ _ _ _ _ h1] at this
    have h3 := Reaches.trans this (ih h2 (tok ++ [ch]))
    simpa using h3

/-- In state `CLOSE_TAG` the characters of a stretch without `]` join the token. -/
theorem reaches_close (ftext finit : Font) (back : Color) (t : List Char) (h : ']' ∉ t)
    (tok : List Char) (pal : Option Palette) (fnt : Nat) (fr : Size) (pc : Color)
    (more : List Char) (out : Contents) :
    Reaches ftext finit back ⟨.CLOSE_TAG, tok, pal, fnt, fr, pc, t ++ more, out⟩
      ⟨.CLOSE_TAG, tok ++ t, pal, fnt, fr, pc, more, out⟩ := by
  induction t generalizing tok with
  | nil => simpa using Reaches.refl ftext finit back _
  | cons ch t ih =>
    have h1 : ch ≠ ']' := fun e => h (by simp [e])
    have h2 : ']' ∉ t := fun e => h (by simp [e])
    have := Reaches.one ftext finit back ⟨.CLOSE_TAG, tok, pal, fnt, fr, pc, ch :: (t ++ more), out⟩
    rw [step_close_char _ _ _ _ _ _ _ _ _ _ _ h1] at this
    have h3 := Reaches.trans this (ih h2 (tok ++ [ch]))
    simpa using h3

/-- In state `OPEN_TAG` the characters of a stretch without `[`, `]` and `=`
join the token. -/
theorem reaches_open (ftext finit : Font) (back : Color) (t : List Char)
    (h : '[' ∉ t ∧ ']' ∉ t ∧ '=' ∉ t)
    (tok : List Char) (pal : Option Palette) (fnt : Nat) (fr : Size) (pc : Color)
    (more : List Char) (out : Contents) :
    Reaches ftext finit back ⟨.OPEN_TAG, tok, pal, fnt, fr, pc, t ++ more, out⟩
      ⟨.OPEN_TAG, tok ++ t, pal, fnt, fr, pc, more, out⟩ := by
  induction t generalizing tok with
  | nil => simpa using Reaches.refl ftext finit back _
  | cons ch t ih =>
    obtain ⟨ha, hb, hc⟩ := h
    have h1 : ch ≠ '[' := fun e => ha (by simp [e])
    have h2 : ch ≠ ']' := fun e => hb (by simp [e])
    have h3 : ch ≠ '=' := fun e => hc (by simp [e])
    have h4 : '[' ∉ t ∧ ']' ∉ t ∧ '=' ∉ t :=
      ⟨fun e => ha (by simp [e]), fun e => hb (by simp [e]), fun e => hc (by simp [e])⟩
    have := Reaches.one ftext finit back ⟨.OPEN_TAG, tok, pal, fnt, fr, pc, ch :: (t ++ more), out⟩
    rw [step_open_char _ _ _ _ _ _ _ _ _ _ _ h1 h2 h3] at this
    have h5 := Reaches.trans this (ih h4 (tok ++ [ch]))
    simpa using h5

/-! ## Well-formed markup -/

theorem hex_ne_close (ch : Char) (h : (hexVal ch).isSome) : ch ≠ ']' := by
  rintro rfl
  revert h
  decide

theorem reaches_tag (ftext finit : Font) (back : Color) (tag : Tag)
    (hwf : tag.wellFormed = true) (tok : List Char) (pal : Option Palette) (fnt : Nat)
    (fr : Size) (pc : Color) (more : List Char) (out : Contents) :
    Reaches ftext finit back ⟨.TEXT, tok, pal, fnt, fr, pc, tag.chars ++ more, out⟩
      (afterPiece ftext finit back ⟨.TEXT, tok, pal, fnt, fr, pc, tag.chars ++ more, out⟩
        (tag, []) more) := by
  cases tag with
  | cap =>
    refine ⟨5, ?_⟩
    simp [Function.iterate_succ, step, afterPiece, Tag.effect, Tag.chars, flushOut]
  | capEnd =>
    refine ⟨5, ?_⟩
    simp [Function.iterate_succ, step, afterPiece, Tag.effect, Tag.chars, flushOut]
  | colorEnd =>
    refine ⟨7, ?_⟩
    simp [Function.iterate_succ, step, afterPiece, Tag.effect, Tag.chars, flushOut]
  | par =>
    refine ⟨3, ?_⟩
    simp [Function.iterate_succ, step, afterPiece, Tag.effect, Tag.chars, flushOut]
  | parEnd =>
    refine ⟨3, ?_⟩
    simp [Function.iterate_succ, step, afterPiece, Tag.effect, Tag.chars, flushOut]
  | color d =>
    have hd : ']' ∉ d := by
      intro hmem
      simp only [Tag.wellFormed, decide_eq_true_eq, Bool.decide_and, Bool.and_eq_true,
        List.all_eq_true] at hwf
      exact hex_ne_close _ (hwf.2 _ hmem) rfl
    have h1 : Reaches ftext finit back
        ⟨.TEXT, tok, pal, fnt, fr, pc, (Tag.color d).chars ++ more, out⟩
        ⟨.COLOR, [], pal, fnt, fr, pc, d ++ (']' :: more),
          flushOut finit ⟨.TEXT, tok, pal, fnt, fr, pc, (Tag.color d).chars ++ more, out⟩⟩ := by
      refine ⟨7, ?_⟩
      simp [Function.iterate_succ, step, Tag.chars, flushOut]
    have h2 := reaches_color ftext finit back d hd [] pal fnt fr pc (']' :: more)
      (flushOut finit ⟨.TEXT, tok, pal, fnt, fr, pc, (Tag.color d).chars ++ more, out⟩)
    have h3 := Reaches.one ftext finit back ⟨.COLOR, [] ++ d, pal, fnt, fr, pc, ']' :: more,
      flushOut finit ⟨.TEXT, tok, pal, fnt, fr, pc, (Tag.color d).chars ++ more, out⟩⟩
    have h4 := (h1.trans h2).trans h3
    simpa [step, afterPiece, Tag.effect] using h4

theorem reaches_piece (ftext finit : Font) (back : Color) (p : Tag × List Char)
    (hwf : p.1.wellFormed = true) (ht : '[' ∉ p.2) (c : ParseCfg) (more : List Char)
    (hst : c.state = .TEXT) (hrest : c.rest = p.1.chars ++ p.2 ++ more) :
    Reaches ftext finit back c (afterPiece ftext finit back c p more) := by
  obtain ⟨st, tok, pal, fnt, fr, pc, rest, out⟩ := c
  obtain ⟨tag, t⟩ := p
  simp only at hst hrest hwf ht
  subst hst
  subst hrest
  have h1 := reaches_tag ftext finit back tag hwf tok pal fnt fr pc (t ++ more) out
  have h2 : Reaches ftext finit back
      (afterPiece ftext finit back ⟨.TEXT, tok, pal, fnt, fr, pc, tag.chars ++ (t ++ more), out⟩
        (tag, []) (t ++ more))
      (afterPiece ftext finit back ⟨.TEXT, tok, pal, fnt, fr, pc, tag.chars ++ (t ++ more), out⟩
        (tag, t) more) := by
    have := reaches_text ftext finit back t ht []
      (tag.effect ftext finit back
        ⟨.TEXT, tok, pal, fnt, fr, pc, tag.chars ++ (t ++ more), out⟩).pal
      (tag.effect ftext finit back
        ⟨.TEXT, tok, pal, fnt, fr, pc, tag.chars ++ (t ++ more), out⟩).fnt
      (tag.effect ftext finit back
        ⟨.TEXT, tok, pal, fnt, fr, pc, tag.chars ++ (t ++ more), out⟩).frame
      (tag.effect ftext finit back
        ⟨.TEXT, tok, pal, fnt, fr, pc, tag.chars ++ (t ++ more), out⟩).palCol
      more
      (flushOut finit ⟨.TEXT, tok, pal, fnt, fr, pc, tag.chars ++ (t ++ more), out⟩)
    simpa [afterPiece] using this
  have h3 := h1.trans h2
  simpa [List.append_assoc] using h3

theorem afterPiece_state (ftext finit : Font) (back : Color) (c : ParseCfg)
    (p : Tag × List Char) (more : List Char) :
    (afterPiece ftext finit back c p more).state = .TEXT := rfl

theorem afterPiece_rest (ftext finit : Font) (back : Color) (c : ParseCfg)
    (p : Tag × List Char) (more : List Char) :
    (afterPiece ftext finit back c p more).rest = more := rfl

theorem afterPiece_token (ftext finit : Font) (back : Color) (c : ParseCfg)
    (p : Tag × List Char) (more : List Char) :
    (afterPiece ftext finit back c p more).token = p.2 := rfl

theorem afterPiece_out (ftext finit : Font) (back : Color) (c : ParseCfg)
    (p : Tag × List Char) (more : List Char) :
    (afterPiece ftext finit back c p more).out = flushOut finit c := rfl

/-- Reading a well-formed list of pieces from state `TEXT` leads to `runPieces`. -/
theorem reaches_runPieces (ftext finit : Font) (back : Color) (ps : List (Tag × List Char))
    (hwf : ∀ p ∈ ps, p.1.wellFormed = true ∧ '[' ∉ p.2) (c : ParseCfg)
    (hst : c.state = .TEXT) (hrest : c.rest = renderPieces ps) :
    Reaches ftext finit back c (runPieces ftext finit back c ps) := by
  induction ps generalizing c with
  | nil => exact Reaches.refl ftext finit back c
  | cons p ps ih =>
    have hp := hwf p (by simp)
    have h1 := reaches_piece ftext finit back p hp.1 hp.2 c (renderPieces ps) hst
      (by rw [hrest, renderPieces])
    have h2 := ih (fun q hq => hwf q (by simp [hq]))
      (afterPiece ftext finit back c p (renderPieces ps)) rfl rfl
    exact h1.trans h2

theorem runPieces_rest (ftext finit : Font) (back : Color) (ps : List (Tag × List Char))
    (c : ParseCfg) (hrest : c.rest = renderPieces ps) :
    (runPieces ftext finit back c ps).rest = [] := by
  induction ps generalizing c with
  | nil => simpa [runPieces, renderPieces] using hrest
  | cons p ps ih => exact ih _ rfl

theorem runPieces_state (ftext finit : Font) (back : Color) (ps : List (Tag × List Char))
    (c : ParseCfg) (hst : c.state = .TEXT) :
    (runPieces ftext finit back c ps).state = .TEXT := by
  induction ps generalizing c with
  | nil => exact hst
  | cons p ps ih => exact ih _ rfl

theorem runPieces_pal (ftext finit : Font) (back : Color) (ps : List (Tag × List Char))
    (c : ParseCfg) :
    (runPieces ftext finit back c ps).pal.isSome = openColour c.pal.isSome (ps.map Prod.fst) := by
  induction ps generalizing c with
  | nil => rfl
  | cons p ps ih =>
    obtain ⟨tag, t⟩ := p
    rw [runPieces, ih]
    cases tag <;> simp [afterPiece, Tag.effect, openColour]

theorem Contents.Text_append (a b : Contents) :
    Contents.Text (a ++ b) = Contents.Text a ++ Contents.Text b := by
  simp [Contents.Text]

theorem flushOut_text (finit : Font) (c : ParseCfg) (h : c.token ≠ ['\n']) :
    Contents.Text (flushOut finit c) = Contents.Text c.out ++ c.token := by
  unfold flushOut
  by_cases h0 : c.token = []
  · simp [h0]
  · simp [h0, h, Contents.AppendContent, Contents.Text, tokenSpan]

/-- The spans emitted so far and the pending token hold the text of the
pieces, as long as no stretch of text between two delimiters is a lone
newline. -/
theorem runPieces_text (ftext finit : Font) (back : Color) (ps : List (Tag × List Char))
    (c : ParseCfg) (h0 : ps ≠ [] → c.token ≠ ['\n'])
    (hnl : ∀ p ∈ ps.dropLast, p.2 ≠ ['\n']) :
    Contents.Text (runPieces ftext finit back c ps).out ++ (runPieces ftext finit back c ps).token
      = Contents.Text c.out ++ c.token ++ (ps.map Prod.snd).flatten := by
  induction ps generalizing c with
  | nil => simp [runPieces]
  | cons p ps ih =>
    rw [runPieces, ih]
    · rw [afterPiece_out, afterPiece_token, flushOut_text finit c (h0 (by simp))]
      simp
    · intro hps
      rw [afterPiece_token]
      apply hnl
      cases ps with
      | nil => exact absurd rfl hps
      | cons q qs => simp [List.dropLast]
    · intro q hq
      apply hnl
      cases ps with
      | nil => simp [List.dropLast] at hq
      | cons r rs => simp only [List.dropLast]; exact List.mem_cons_of_mem _ hq

/-! ## The text of a marked-up string, from the words of the specification -/

theorem stripTagsFrom_skip (xs rest : List Char) :
    stripTagsFrom xs.length (xs ++ rest) = stripTagsFrom 0 rest := by
  induction xs with
  | nil => rfl
  | cons x xs ih => simpa [stripTagsFrom] using ih

theorem delimiterLength_of_ne (c : Char) (cs : List Char) (h : c ≠ '[') :
    delimiterLength (c :: cs) = none := by
  have h' : ¬ '[' = c := fun e => h e.symm
  simp [delimiterLength, startsWith, h']

theorem stripTags_text (t rest : List Char) (h : '[' ∉ t) :
    stripTags (t ++ rest) = t ++ stripTags rest := by
  induction t with
  | nil => rfl
  | cons c t ih =>
    have h1 : c ≠ '[' := fun e => h (by simp [e])
    have h2 : '[' ∉ t := fun e => h (by simp [e])
    have := ih h2
    unfold stripTags at this ⊢
    simp [stripTagsFrom, delimiterLength_of_ne c _ h1, this]

theorem delimiterLength_tag (tag : Tag) (hwf : tag.wellFormed = true) (rest : List Char) :
    delimiterLength (tag.chars ++ rest) = some tag.chars.length := by
  cases tag with
  | color d =>
    simp only [Tag.wellFormed, decide_eq_true_eq, Bool.decide_and, Bool.and_eq_true,
      List.all_eq_true] at hwf
    obtain ⟨hl, hx⟩ := hwf
    match d, hl with
    | [d1, d2, d3, d4, d5, d6], _ =>
      have e1 := hx d1 (by simp)
      have e2 := hx d2 (by simp)
      have e3 := hx d3 (by simp)
      have e4 := hx d4 (by simp)
      have e5 := hx d5 (by simp)
      have e6 := hx d6 (by simp)
      simp [delimiterLength, startsWith, Tag.chars, e1, e2, e3, e4, e5, e6]
  | cap => simp [delimiterLength, startsWith, Tag.chars]
  | capEnd => simp [delimiterLength, startsWith, Tag.chars]
  | colorEnd => simp [delimiterLength, startsWith, Tag.chars]
  | par => simp [delimiterLength, startsWith, Tag.chars]
  | parEnd => simp [delimiterLength, startsWith, Tag.chars]

theorem Tag.chars_cons (tag : Tag) : ∃ r, tag.chars = '[' :: r := by
  cases tag <;> simp [Tag.chars]

theorem stripTags_tag (tag : Tag) (hwf : tag.wellFormed = true) (rest : List Char) :
    stripTags (tag.chars ++ rest) = stripTags rest := by
  obtain ⟨r, hr⟩ := tag.chars_cons
  have h1 := delimiterLength_tag tag hwf rest
  rw [hr] at h1 ⊢
  unfold stripTags
  simp only [List.cons_append] at h1 ⊢
  rw [stripTagsFrom, h1]
  simpa using stripTagsFrom_skip r rest

/-- Removing the delimiters from well-formed markup leaves the stretches of
text between them. -/
theorem stripTags_renderPieces (ps : List (Tag × List Char))
    (hwf : ∀ p ∈ ps, p.1.wellFormed = true ∧ '[' ∉ p.2) :
    stripTags (renderPieces ps) = (ps.map Prod.snd).flatten := by
  induction ps with
  | nil => rfl
  | cons p ps ih =>
    have hp := hwf p (by simp)
    rw [renderPieces, List.append_assoc, stripTags_tag _ hp.1, stripTags_text _ _ hp.2,
      ih (fun q hq => hwf q (by simp [hq]))]
    simp

/-! ## `AppendText` on well-formed markup -/

theorem find_first_of_append (a r : List Char) (h : '[' ∉ a) :
    find_first_of '[' (a ++ '[' :: r) = some a.length := by
  induction a with
  | nil => simp [find_first_of]
  | cons x a ih =>
    have h1 : x ≠ '[' := fun e => h (by simp [e])
    have h2 : '[' ∉ a := fun e => h (by simp [e])
    simp [find_first_of, h1, ih h2]

theorem find_first_of_none (a : List Char) (h : '[' ∉ a) : find_first_of '[' a = none := by
  induction a with
  | nil => rfl
  | cons x a ih =>
    have h1 : x ≠ '[' := fun e => h (by simp [e])
    have h2 : '[' ∉ a := fun e => h (by simp [e])
    simp [find_first_of, h1, ih h2]

theorem renderPieces_cons_bracket (ps : List (Tag × List Char)) (h : ps ≠ []) :
    ∃ r, renderPieces ps = '[' :: r := by
  cases ps with
  | nil => exact absurd rfl h
  | cons p ps =>
    obtain ⟨r, hr⟩ := p.1.chars_cons
    exact ⟨r ++ p.2 ++ renderPieces ps, by simp [renderPieces, hr]⟩

theorem flushOut_append (finit : Font) (c : ParseCfg) : ∃ runs, flushOut finit c = c.out ++ runs := by
  unfold flushOut
  split
  · exact ⟨[tokenSpan finit c], rfl⟩
  · exact ⟨[], by simp⟩

theorem runPieces_out (ftext finit : Font) (back : Color) (ps : List (Tag × List Char))
    (c : ParseCfg) : ∃ runs, (runPieces ftext finit back c ps).out = c.out ++ runs := by
  induction ps generalizing c with
  | nil => exact ⟨[], by simp [runPieces]⟩
  | cons p ps ih =>
    obtain ⟨r1, h1⟩ := flushOut_append finit c
    obtain ⟨r2, h2⟩ := ih (afterPiece ftext finit back c p (renderPieces ps))
    refine ⟨r1 ++ r2, ?_⟩
    rw [runPieces, h2, afterPiece_out, h1, List.append_assoc]

/-- The markup branch on well-formed markup whose colours are closed: the
assertion holds and the result is read off `runPieces`. -/
theorem appendMarkup_pieces (E : Env) (s : TextArea) (body : Contents) (first : List Char)
    (ps : List (Tag × List Char))
    (hwf : ∀ p ∈ ps, p.1.wellFormed = true ∧ '[' ∉ p.2)
    (hcol : openColour false (ps.map Prod.fst) = false) :
    appendMarkup E s body (first ++ renderPieces ps) first.length =
      .done (if (runPieces s.ftext s.finit s.palette.back
                  (parseStart E s (bodyBeforeTags body first) (renderPieces ps)) ps).token ≠ []
             then (runPieces s.ftext s.finit s.palette.back
                  (parseStart E s (bodyBeforeTags body first) (renderPieces ps)) ps).out.AppendText
                (runPieces s.ftext s.finit s.palette.back
                  (parseStart E s (bodyBeforeTags body first) (renderPieces ps)) ps).token
             else (runPieces s.ftext s.finit s.palette.back
                  (parseStart E s (bodyBeforeTags body first) (renderPieces ps)) ps).out) := by
  have hreach := reaches_runPieces s.ftext s.finit s.palette.back ps hwf
    (parseStart E s (bodyBeforeTags body first) (renderPieces ps)) rfl rfl
  have hnil := runPieces_rest s.ftext s.finit s.palette.back ps
    (parseStart E s (bodyBeforeTags body first) (renderPieces ps)) rfl
  have hfuel : parseMeasure (parseStart E s (bodyBeforeTags body first) (renderPieces ps)) ≤
      2 * (first ++ renderPieces ps).length + 1 := by
    simp [parseMeasure, parseStart]
    omega
  have hloop := parseLoop_of_reaches hreach hnil hfuel
  have hst := runPieces_state s.ftext s.finit s.palette.back ps
    (parseStart E s (bodyBeforeTags body first) (renderPieces ps)) rfl
  have hpal := runPieces_pal s.ftext s.finit s.palette.back ps
    (parseStart E s (bodyBeforeTags body first) (renderPieces ps))
  have hpal' : (runPieces s.ftext s.finit s.palette.back
      (parseStart E s (bodyBeforeTags body first) (renderPieces ps)) ps).pal = none := by
    have h0 : (parseStart E s (bodyBeforeTags body first) (renderPieces ps)).pal.isSome = false := rfl
    rw [h0, hcol] at hpal
    simpa using hpal
  unfold appendMarkup
  simp only [List.take_left', List.drop_left']
  have hb : (if first.length ≠ 0 then body.AppendText first else body) = bodyBeforeTags body first := rfl
  rw [hb, hloop]
  simp only [hpal', hst, and_self, if_true]

theorem AppendText_of_markup (E : Env) (s : TextArea) (first : List Char)
    (ps : List (Tag × List Char)) (hps : ps ≠ []) (hfirst : '[' ∉ first) :
    AppendText E s (first ++ renderPieces ps) =
      match appendMarkup E s (historyTrim E s) (first ++ renderPieces ps) first.length with
      | .done b => .done { s with textContainer := b }
      | .assertFailed => .assertFailed
      | .outOfFuel => .outOfFuel := by
  obtain ⟨r, hr⟩ := renderPieces_cons_bracket ps hps
  unfold AppendText
  simp only [hr, find_first_of_append first r hfirst]

/-- The budget `AppendText` gives the parse loop is never used up. -/
theorem AppendText_ne_outOfFuel (E : Env) (s : TextArea) (text : List Char) :
    AppendText E s text ≠ .outOfFuel := by
  unfold AppendText
  cases hf : find_first_of '[' text with
  | none =>
    simp only
    split <;> simp
  | some tagPos =>
    have hfuel : ∀ body : Contents, parseMeasure (parseStart E s body (text.drop tagPos)) ≤
        2 * text.length + 1 := by
      intro body
      simp [parseMeasure, parseStart]
      omega
    simp only [appendMarkup]
    rw [parseLoop_total _ _ _ _ _ (hfuel _)]
    simp only
    split_ifs <;> simp

/-! ## C1: text of the appended runs -/

/-- C1 (as amended): for every input made of a stretch of text without `[`
followed by one or more recognised tag delimiters, each followed by a stretch
of text without `[`, in which no stretch between two delimiters is a lone
newline and the last colour tag, if any, is `[/color]`, `AppendText` returns
and the runs it appended to the (history-trimmed) body container, concatenated
in order, are the input with the recognised tag delimiters removed. -/
theorem AppendText_markup_text (E : Env) (s : TextArea) (first : List Char)
    (ps : List (Tag × List Char)) (hps : ps ≠ []) (hfirst : '[' ∉ first)
    (hwf : ∀ p ∈ ps, p.1.wellFormed = true ∧ '[' ∉ p.2)
    (hnl : ∀ p ∈ ps.dropLast, p.2 ≠ ['\n'])
    (hcol : openColour false (ps.map Prod.fst) = false) :
    ∃ runs, AppendText E s (first ++ renderPieces ps) =
        .done { s with textContainer := historyTrim E s ++ runs } ∧
      Contents.Text runs = stripTags (first ++ renderPieces ps) := by
  obtain ⟨runs, hruns⟩ := runPieces_out s.ftext s.finit s.palette.back ps
    (parseStart E s (bodyBeforeTags (historyTrim E s) first) (renderPieces ps))
  have htext := runPieces_text s.ftext s.finit s.palette.back ps
    (parseStart E s (bodyBeforeTags (historyTrim E s) first) (renderPieces ps))
    (fun _ => by simp [parseStart]) hnl
  rw [AppendText_of_markup E s first ps hps hfirst, appendMarkup_pieces E s _ first ps hwf hcol]
  rw [hruns] at htext ⊢
  have hstart : (parseStart E s (bodyBeforeTags (historyTrim E s) first) (renderPieces ps)).out =
      bodyBeforeTags (historyTrim E s) first := rfl
  have htok0 : (parseStart E s (bodyBeforeTags (historyTrim E s) first) (renderPieces ps)).token =
      [] := rfl
  rw [hstart] at htext ⊢
  rw [htok0, Contents.Text_append] at htext
  simp only [List.append_nil, List.append_assoc] at htext
  have htext' := List.append_cancel_left htext
  have hfirst' : ∃ r0, bodyBeforeTags (historyTrim E s) first = historyTrim E s ++ r0 ∧
      Contents.Text r0 = first := by
    unfold bodyBeforeTags
    by_cases h0 : first = []
    · exact ⟨[], by simp [h0, Contents.Text]⟩
    · refine ⟨[{ text := first, font := none, palette := none, frame := none }], ?_, ?_⟩
      · simp [h0, Contents.AppendText]
      · simp [Contents.Text]
  obtain ⟨r0, hr0, hr0t⟩ := hfirst'
  rw [stripTags_text _ _ hfirst, stripTags_renderPieces ps hwf, ← htext', hr0]
  generalize (runPieces s.ftext s.finit s.palette.back
    (parseStart E s (historyTrim E s ++ r0) (renderPieces ps)) ps).token = tok
  by_cases hz : tok = []
  · refine ⟨r0 ++ runs, ?_, ?_⟩
    · simp [hz, List.append_assoc]
    · simp [Contents.Text_append, hr0t, hz]
  · refine ⟨r0 ++ runs ++ [{ text := tok, font := none, palette := none, frame := none }], ?_, ?_⟩
    · simp [hz, Contents.AppendText, List.append_assoc]
    · rw [Contents.Text_append, Contents.Text_append, hr0t]
      simp [Contents.Text]

theorem AppendText_markup_text_witness :
    ∃ runs, AppendText exampleEnv exampleArea
        ("x".toList ++ renderPieces [(Tag.par, "a".toList), (Tag.parEnd, "b\n".toList),
          (Tag.color "FF0000".toList, "c".toList), (Tag.colorEnd, [])]) =
        .done { exampleArea with textContainer := historyTrim exampleEnv exampleArea ++ runs } ∧
      Contents.Text runs = stripTags ("x".toList ++ renderPieces [(Tag.par, "a".toList),
        (Tag.parEnd, "b\n".toList), (Tag.color "FF0000".toList, "c".toList), (Tag.colorEnd, [])]) :=
  AppendText_markup_text exampleEnv exampleArea "x".toList
    [(Tag.par, "a".toList), (Tag.parEnd, "b\n".toList),
      (Tag.color "FF0000".toList, "c".toList), (Tag.colorEnd, [])]
    (by decide) (by decide) (by decide) (by decide) (by decide)

/-- C1 fails as stated: in `[p]a[/p]⏎[p]b[/p]` the newline between the two
paragraphs is no tag delimiter, yet the appended runs are `a` and `b`. -/
theorem AppendText_markup_text_counterexample :
    ¬ ∃ runs, AppendText exampleEnv exampleArea "[p]a[/p]\n[p]b[/p]".toList =
        .done { exampleArea with textContainer := historyTrim exampleEnv exampleArea ++ runs } ∧
      Contents.Text runs = stripTags "[p]a[/p]\n[p]b[/p]".toList := by
  rintro ⟨runs, h1, h2⟩
  have h3 := congrArg Outcome.body h1
  have h4 : (AppendText exampleEnv exampleArea "[p]a[/p]\n[p]b[/p]".toList).body =
      [{ text := ['a'], font := some 1, palette := none, frame := some { w := -1, h := 0 } },
       { text := ['b'], font := some 1, palette := none, frame := some { w := -1, h := 0 } }] := by
    decide
  rw [h4] at h3
  have h5 : runs = _ := h3.symm
  subst h5
  revert h2
  decide

/-! ## C2, C4, C5: markup that is not well formed -/

/-- C2 (the code at the failing inputs): with an unterminated tag the reader
is in state `OPEN_TAG` at the end of the input, with an unclosed colour it
still holds the palette; in both cases the assertion at the end of the loop
fails. -/
theorem AppendText_unterminated_assert (E : Env) (s : TextArea) :
    AppendText E s "[x".toList = .assertFailed ∧
    AppendText E s "[color=FF0000]x".toList = .assertFailed := by
  constructor
  · simp [AppendText, find_first_of, appendMarkup, parseLoop, step, parseStart]
  · simp [AppendText, find_first_of, appendMarkup, parseLoop, step, parseStart]

theorem step_in_tag (ftext finit : Font) (back : Color) (c : ParseCfg) (ch : Char)
    (r : List Char) (hst : c.state ≠ .TEXT) (hrest : c.rest = ch :: r)
    (h1 : ch ≠ '[') (h2 : ch ≠ ']') :
    (step ftext finit back c).rest = r ∧ (step ftext finit back c).state ≠ .TEXT := by
  obtain ⟨st, tok, pal, fnt, fr, pc, rest, out⟩ := c
  simp only at hst hrest
  subst hrest
  cases st
  · exact absurd rfl hst
  · by_cases h3 : ch = '='
    · simp only [step, h3]
      split_ifs <;> simp
    · simp [step, h1, h2, h3]
  · simp [step, h2]
  · simp [step, h2]

/-- A tag that is never closed keeps the reader out of state `TEXT`. -/
theorem reaches_in_tag (ftext finit : Font) (back : Color) (b : List Char)
    (hb : '[' ∉ b ∧ ']' ∉ b) (c : ParseCfg)
    (hst : c.state ≠ .TEXT) (hrest : c.rest = b) :
    ∃ cf, Reaches ftext finit back c cf ∧ cf.rest = [] ∧ cf.state ≠ .TEXT := by
  induction b generalizing c with
  | nil => exact ⟨c, Reaches.refl _ _ _ c, hrest, hst⟩
  | cons ch b ih =>
    have h1 : ch ≠ '[' := fun e => hb.1 (by simp [e])
    have h2 : ch ≠ ']' := fun e => hb.2 (by simp [e])
    have hb' : '[' ∉ b ∧ ']' ∉ b := ⟨fun e => hb.1 (by simp [e]), fun e => hb.2 (by simp [e])⟩
    obtain ⟨hr, hs⟩ := step_in_tag ftext finit back c ch b hst hrest h1 h2
    obtain ⟨cf, hcf, hnil, hne⟩ := ih hb' (step ftext finit back c) hs hr
    exact ⟨cf, (Reaches.one ftext finit back c).trans hcf, hnil, hne⟩

/-- C4 (the code at the failing inputs): for all `a` and `b` without `[` or
`]`, the call `AppendText(a + "[[" + b)` does not return: the second `[`
opens a tag that is never closed, the reader is not in state `TEXT` at the end
of the input and the assertion fails. -/
theorem AppendText_double_bracket_assert (E : Env) (s : TextArea) (a b : List Char)
    (ha : '[' ∉ a) (hb : '[' ∉ b ∧ ']' ∉ b) :
    AppendText E s (a ++ "[[".toList ++ b) = .assertFailed := by
  have hfind : find_first_of '[' (a ++ "[[".toList ++ b) = some a.length := by
    have := find_first_of_append a ('[' :: b) ha
    simpa using this
  have h3 : ∃ c3, Reaches s.ftext s.finit s.palette.back
      (parseStart E s (bodyBeforeTags (historyTrim E s) a) ("[[".toList ++ b)) c3 ∧
      c3.state ≠ .TEXT ∧ '[' ∉ c3.rest ∧ ']' ∉ c3.rest := by
    refine ⟨_, ⟨3, rfl⟩, ?_⟩
    cases b with
    | nil => simp [Function.iterate_succ, step, parseStart]
    | cons d b' =>
      have hd : d ≠ '[' := fun e => hb.1 (by simp [e])
      have hd' : d ≠ ']' := fun e => hb.2 (by simp [e])
      have hb1 : '[' ∉ b' := fun e => hb.1 (by simp [e])
      have hb2 : ']' ∉ b' := fun e => hb.2 (by simp [e])
      by_cases hd2 : d = '/'
      · simp [Function.iterate_succ, step, parseStart, hd2, hb1, hb2]
      · have hd3 : ¬ '[' = d := fun e => hd e.symm
        have hd4 : ¬ ']' = d := fun e => hd' e.symm
        simp [Function.iterate_succ, step, parseStart, hd, hd2, hb1, hb2, hd3, hd4]
  obtain ⟨c3, hc3, hst3, hbr3⟩ := h3
  obtain ⟨cf, hcf, hnil, hne⟩ := reaches_in_tag s.ftext s.finit s.palette.back c3.rest hbr3 c3
    hst3 rfl
  have hfuel : parseMeasure (parseStart E s (bodyBeforeTags (historyTrim E s) a)
      ("[[".toList ++ b)) ≤ 2 * (a ++ "[[".toList ++ b).length + 1 := by
    simp [parseMeasure, parseStart]
    omega
  have hloop := parseLoop_of_reaches (hc3.trans hcf) hnil hfuel
  unfold AppendText
  rw [hfind]
  unfold appendMarkup
  have htake : List.take a.length (a ++ "[[".toList ++ b) = a := by simp
  have hdrop : List.drop a.length (a ++ "[[".toList ++ b) = "[[".toList ++ b := by simp
  have hb0 : (if a.length ≠ 0 then (historyTrim E s).AppendText a else historyTrim E s) =
      bodyBeforeTags (historyTrim E s) a := rfl
  simp only [htake, hdrop, hb0, hloop]
  simp [hne]

theorem AppendText_double_bracket_assert_witness :
    AppendText exampleEnv exampleArea ("a".toList ++ "[[".toList ++ "b".toList) = .assertFailed :=
  AppendText_double_bracket_assert exampleEnv exampleArea "a".toList "b".toList
    (by decide) (by decide)

/-- Any bracketed name without `[`, `]` and `=` is read as a tag, known or
not: nothing is emitted and the token is cleared. -/
theorem reaches_any_tag (ftext finit : Font) (back : Color) (t : List Char)
    (ht : '[' ∉ t ∧ ']' ∉ t ∧ '=' ∉ t) (fnt : Nat) (fr : Size) (pc : Color)
    (more : List Char) (out : Contents) :
    ∃ fnt' fr', Reaches ftext finit back
      ⟨.TEXT, [], none, fnt, fr, pc, '[' :: (t ++ ']' :: more), out⟩
      ⟨.TEXT, [], none, fnt', fr', pc, more, out⟩ := by
  cases t with
  | nil =>
    refine ⟨fnt, fr, 2, ?_⟩
    simp [step]
  | cons d t' =>
    have hd1 : d ≠ '[' := fun e => ht.1 (by simp [e])
    have ht1 : ']' ∉ t' := fun e => ht.2.1 (by simp [e])
    by_cases hd : d = '/'
    · subst hd
      have h1 : Reaches ftext finit back
          ⟨.TEXT, [], none, fnt, fr, pc, '[' :: ('/' :: t' ++ ']' :: more), out⟩
          ⟨.CLOSE_TAG, [], none, fnt, fr, pc, t' ++ ']' :: more, out⟩ := by
        refine ⟨1, ?_⟩
        simp [step]
      have h2 := reaches_close ftext finit back t' ht1 [] none fnt fr pc (']' :: more) out
      have h3 := Reaches.one ftext finit back
        ⟨.CLOSE_TAG, [] ++ t', none, fnt, fr, pc, ']' :: more, out⟩
      have h4 := (h1.trans h2).trans h3
      have h5 : step ftext finit back
          ⟨.CLOSE_TAG, [] ++ t', none, fnt, fr, pc, ']' :: more, out⟩ =
          ⟨.TEXT, [], none,
            (step ftext finit back ⟨.CLOSE_TAG, [] ++ t', none, fnt, fr, pc, ']' :: more, out⟩).fnt,
            (step ftext finit back ⟨.CLOSE_TAG, [] ++ t', none, fnt, fr, pc, ']' :: more, out⟩).frame,
            pc, more, out⟩ := by
        simp [step]
      rw [h5] at h4
      exact ⟨_, _, h4⟩
    · have h1 : Reaches ftext finit back
          ⟨.TEXT, [], none, fnt, fr, pc, '[' :: (d :: t' ++ ']' :: more), out⟩
          ⟨.OPEN_TAG, [], none, fnt, fr, pc, (d :: t') ++ ']' :: more, out⟩ := by
        refine ⟨1, ?_⟩
        simp [step, hd]
      have h2 := reaches_open ftext finit back (d :: t') ht [] none fnt fr pc (']' :: more) out
      have h3 := Reaches.one ftext finit back
        ⟨.OPEN_TAG, [] ++ d :: t', none, fnt, fr, pc, ']' :: more, out⟩
      have h4 := (h1.trans h2).trans h3
      have h5 : step ftext finit back
          ⟨.OPEN_TAG, [] ++ d :: t', none, fnt, fr, pc, ']' :: more, out⟩ =
          ⟨.TEXT, [], none,
            (step ftext finit back
              ⟨.OPEN_TAG, [] ++ d :: t', none, fnt, fr, pc, ']' :: more, out⟩).fnt,
            (step ftext finit back
              ⟨.OPEN_TAG, [] ++ d :: t', none, fnt, fr, pc, ']' :: more, out⟩).frame,
            pc, more, out⟩ := by
        simp [step]
      rw [h5] at h4
      exact ⟨_, _, h4⟩

/-- C5 (the code at the failing inputs): for every name `t` without `[`, `]`
and `=`, known as a tag or not, and all stretches of text `x` and `y` without
`[`, the call `AppendText(x + "[" + t + "]" + y)` returns and appends `x` and
`y` only: the characters of `[t]` are in none of the appended runs. -/
theorem AppendText_tag_chars_dropped (E : Env) (s : TextArea) (x t y : List Char)
    (hx : '[' ∉ x) (ht : '[' ∉ t ∧ ']' ∉ t ∧ '=' ∉ t) (hy : '[' ∉ y) :
    AppendText E s (x ++ '[' :: (t ++ ']' :: y)) =
      .done { s with textContainer := historyTrim E s ++
        (if x = [] then [] else [{ text := x, font := none, palette := none, frame := none }]) ++
        (if y = [] then [] else [{ text := y, font := none, palette := none, frame := none }]) } := by
  have hfind := find_first_of_append x (t ++ ']' :: y) hx
  obtain ⟨fnt', fr', h1⟩ := reaches_any_tag s.ftext s.finit s.palette.back t ht s.ftext.addr
    { w := 0, h := 0 } E.stackColor y (bodyBeforeTags (historyTrim E s) x)
  have h2 := reaches_text s.ftext s.finit s.palette.back y hy [] none fnt' fr' E.stackColor []
    (bodyBeforeTags (historyTrim E s) x)
  rw [List.append_nil] at h2
  have hfuel : parseMeasure (parseStart E s (bodyBeforeTags (historyTrim E s) x)
      ('[' :: (t ++ ']' :: y))) ≤ 2 * (x ++ '[' :: (t ++ ']' :: y)).length + 1 := by
    simp [parseMeasure, parseStart]
    omega
  have hloop : parseLoop s.ftext s.finit s.palette.back
      (2 * (x ++ '[' :: (t ++ ']' :: y)).length + 1)
      (parseStart E s (bodyBeforeTags (historyTrim E s) x) ('[' :: (t ++ ']' :: y))) =
      some ⟨.TEXT, y, none, fnt', fr', E.stackColor, [], bodyBeforeTags (historyTrim E s) x⟩ :=
    parseLoop_of_reaches (h1.trans h2) rfl hfuel
  unfold AppendText
  rw [hfind]
  unfold appendMarkup
  have hb0 : (if x.length ≠ 0 then (historyTrim E s).AppendText x else historyTrim E s) =
      bodyBeforeTags (historyTrim E s) x := rfl
  simp only [List.take_left', List.drop_left', hb0, hloop]
  by_cases hx0 : x = [] <;> by_cases hy0 : y = [] <;>
    simp [hx0, hy0, bodyBeforeTags, Contents.AppendText]

theorem AppendText_tag_chars_dropped_witness :
    AppendText exampleEnv exampleArea ("say ".toList ++ '[' :: ("b".toList ++ ']' :: "x".toList)) =
      .done { exampleArea with textContainer := historyTrim exampleEnv exampleArea ++
        (if "say ".toList = [] then []
          else [{ text := "say ".toList, font := none, palette := none, frame := none }]) ++
        (if "x".toList = [] then []
          else [{ text := "x".toList, font := none, palette := none, frame := none }]) } :=
  AppendText_tag_chars_dropped exampleEnv exampleArea "say ".toList "b".toList "x".toList
    (by decide) (by decide) (by decide)

/-! ## C3: colour markup -/

/-- C3: for non-empty stretches `a`, `b`, `c` without `[` (`b` not a lone
newline) and six hexadecimal digits with values `h1 … h6`, the call
`AppendText(a + "[color=HHHHHH]" + b + "[/color]" + c)` returns (the palette
is released at `[/color]`, so the assertion holds) and appends exactly three
runs: `a` with the container defaults, `b` with the body font and a palette
whose front colour is `(16 h1 + h2, 16 h3 + h4, 16 h5 + h6)`, with the alpha
channel 0 the stores of `swscanf` leave, and whose back colour is the back
colour of the widget palette, and `c` with the container defaults. -/
theorem AppendText_color_runs (E : Env) (s : TextArea) (a b c : List Char)
    (d1 d2 d3 d4 d5 d6 : Char) (h1 h2 h3 h4 h5 h6 : Nat)
    (ha : a ≠ [] ∧ '[' ∉ a) (hb : b ≠ [] ∧ '[' ∉ b ∧ b ≠ ['\n']) (hc : c ≠ [] ∧ '[' ∉ c)
    (e1 : hexVal d1 = some h1) (e2 : hexVal d2 = some h2) (e3 : hexVal d3 = some h3)
    (e4 : hexVal d4 = some h4) (e5 : hexVal d5 = some h5) (e6 : hexVal d6 = some h6) :
    AppendText E s (a ++ "[color=".toList ++ [d1, d2, d3, d4, d5, d6] ++ "]".toList ++ b ++
        "[/color]".toList ++ c) =
      .done { s with textContainer := historyTrim E s ++
        [{ text := a, font := none, palette := none, frame := none },
         { text := b, font := some s.ftext.addr,
           palette := some { front := ⟨h1 * 16 + h2, h3 * 16 + h4, h5 * 16 + h6, 0⟩,
                             back := s.palette.back },
           frame := some { w := 0, h := 0 } },
         { text := c, font := none, palette := none, frame := none }] } := by
  have hin : a ++ "[color=".toList ++ [d1, d2, d3, d4, d5, d6] ++ "]".toList ++ b ++
      "[/color]".toList ++ c =
      a ++ renderPieces [(Tag.color [d1, d2, d3, d4, d5, d6], b), (Tag.colorEnd, c)] := by
    simp [renderPieces, Tag.chars]
  have hwf : ∀ p ∈ [(Tag.color [d1, d2, d3, d4, d5, d6], b), (Tag.colorEnd, c)],
      p.1.wellFormed = true ∧ '[' ∉ p.2 := by
    intro p hp
    simp only [List.mem_cons, List.mem_singleton, List.not_mem_nil, or_false] at hp
    rcases hp with rfl | rfl
    · exact ⟨by simp [Tag.wellFormed, e1, e2, e3, e4, e5, e6], hb.2.1⟩
    · exact ⟨rfl, hc.2⟩
  rw [hin, AppendText_of_markup E s a _ (by simp) ha.2, appendMarkup_pieces E s _ a _ hwf rfl]
  have ha0 : a.length ≠ 0 := fun e => ha.1 (List.length_eq_zero.mp e)
  simp [runPieces, afterPiece, Tag.effect, flushOut, parseStart, tokenSpan, swscanf, scanHex2,
    bodyBeforeTags, Contents.AppendText, Contents.AppendContent, renderPieces,
    e1, e2, e3, e4, e5, e6, ha0, hb.1, hb.2.2, hc.1]

theorem AppendText_color_runs_witness :
    AppendText exampleEnv exampleArea ("A".toList ++ "[color=".toList ++
        ['F', 'F', '0', '0', '0', '0'] ++ "]".toList ++ "B".toList ++ "[/color]".toList ++
        "C".toList) =
      .done { exampleArea with textContainer := historyTrim exampleEnv exampleArea ++
        [{ text := "A".toList, font := none, palette := none, frame := none },
         { text := "B".toList, font := some exampleArea.ftext.addr,
           palette := some { front := ⟨15 * 16 + 15, 0 * 16 + 0, 0 * 16 + 0, 0⟩,
                             back := exampleArea.palette.back },
           frame := some { w := 0, h := 0 } },
         { text := "C".toList, font := none, palette := none, frame := none }] } :=
  AppendText_color_runs exampleEnv exampleArea "A".toList "B".toList "C".toList
    'F' 'F' '0' '0' '0' '0' 15 15 0 0 0 0 (by decide) (by decide) (by decide)
    (by decide) (by decide) (by decide) (by decide) (by decide) (by decide)

/-! ## C7: the drop cap -/

theorem find_first_not_of_all (ws text : List Char) (h : ∀ x ∈ text, x ∈ ws) :
    find_first_not_of ws text = none := by
  induction text with
  | nil => rfl
  | cons x xs ih =>
    have hx : x ∈ ws := h x (by simp)
    simp [find_first_not_of, hx, ih (fun y hy => h y (by simp [hy]))]

theorem find_first_not_of_split (ws pre : List Char) (ch : Char) (post : List Char)
    (hpre : ∀ x ∈ pre, x ∈ ws) (hch : ch ∉ ws) :
    find_first_not_of ws (pre ++ ch :: post) = some pre.length := by
  induction pre with
  | nil => simp [find_first_not_of, hch]
  | cons x xs ih =>
    have hx : x ∈ ws := hpre x (by simp)
    simp [find_first_not_of, hx, ih (fun y hy => hpre y (by simp [hy]))]

/-- A text is all white space or splits at its first other character. -/
theorem whitespace_split (ws text : List Char) :
    (∀ x ∈ text, x ∈ ws) ∨
      ∃ pre ch post, text = pre ++ ch :: post ∧ (∀ x ∈ pre, x ∈ ws) ∧ ch ∉ ws := by
  induction text with
  | nil => exact Or.inl (by simp)
  | cons x xs ih =>
    by_cases hx : x ∈ ws
    · rcases ih with h | ⟨pre, ch, post, h1, h2, h3⟩
      · exact Or.inl (by simpa [hx] using h)
      · exact Or.inr ⟨x :: pre, ch, post, by simp [h1], by simpa [hx] using h2, h3⟩
    · exact Or.inr ⟨[], x, xs, rfl, by simp, hx⟩

/-- `AppendText` on a text without `[`. -/
theorem AppendText_plain (E : Env) (s : TextArea) (text : List Char) (hno : '[' ∉ text) :
    AppendText E s text =
      .done { s with textContainer :=
        if text = [] then historyTrim E s else appendPlain E s (historyTrim E s) text } := by
  unfold AppendText
  rw [find_first_of_none text hno]
  by_cases h : text = [] <;> simp [h]

theorem appendPlain_cap (E : Env) (s : TextArea) (body : Contents) (pre : List Char) (ch : Char)
    (post : List Char) (hfont : s.finit.addr ≠ s.ftext.addr)
    (hpre : ∀ x ∈ pre, x ∈ E.WHITESPACE_STRING) (hch : ch ∉ E.WHITESPACE_STRING) :
    appendPlain E s body (pre ++ ch :: post) =
      body ++ [{ text := [ch], font := some s.finit.addr, palette := s.palettes .INITIALS,
                 frame := some (capFrame s ch) },
               { text := post, font := none, palette := none, frame := none }] := by
  unfold appendPlain
  rw [if_pos hfont, find_first_not_of_split _ pre ch post hpre hch]
  have h1 : (pre ++ ch :: post).getD pre.length ' ' = ch := by
    induction pre with
    | nil => rfl
    | cons x xs ih => simpa [List.getD_cons_succ] using ih (fun y hy => hpre y (by simp [hy]))
  have h2 : List.drop pre.length (pre ++ ch :: post) = ch :: post := by simp
  have h3 : List.drop (pre.length + 1) (pre ++ ch :: post) = post := by
    rw [← List.drop_drop, h2]
    rfl
  simp only [h1, h2, h3]
  simp [Contents.AppendContent, Contents.AppendText, capFrame]

theorem appendPlain_blank (E : Env) (s : TextArea) (body : Contents) (text : List Char)
    (hall : ∀ x ∈ text, x ∈ E.WHITESPACE_STRING) :
    appendPlain E s body text =
      body ++ [{ text := text, font := none, palette := none, frame := none }] := by
  unfold appendPlain
  by_cases hfont : s.finit.addr ≠ s.ftext.addr
  · rw [if_pos hfont, find_first_not_of_all _ text hall]
    simp [Contents.AppendText]
  · rw [if_neg hfont]
    simp [Contents.AppendText]

theorem appendPlain_same_font (E : Env) (s : TextArea) (body : Contents) (text : List Char)
    (hfont : s.finit.addr = s.ftext.addr) :
    appendPlain E s body text =
      body ++ [{ text := text, font := none, palette := none, frame := none }] := by
  unfold appendPlain
  simp [hfont, Contents.AppendText]

/-- C7: on a widget whose initials font is not its body font, for a text
without `[`: if the text is `pre ++ ch :: post` with `pre` all white space and
`ch` not white space, `AppendText` appends the run `ch` in the initials font,
with the initials palette and the glyph size of `ch` as its frame (the width
`EDGE_PADDING = 3` larger exactly when the glyph is higher than a body line),
then `post` as a run with the container defaults, and it does not append
`pre`; if the text is all white space it is appended unchanged as one run with
the container defaults (nothing is appended for the empty text). -/
theorem AppendText_drop_cap (E : Env) (s : TextArea) (text : List Char)
    (hfont : s.finit.addr ≠ s.ftext.addr) (hno : '[' ∉ text) :
    (∀ pre ch post, text = pre ++ ch :: post → (∀ x ∈ pre, x ∈ E.WHITESPACE_STRING) →
      ch ∉ E.WHITESPACE_STRING →
      AppendText E s text = .done { s with textContainer := historyTrim E s ++
        [{ text := [ch], font := some s.finit.addr, palette := s.palettes .INITIALS,
           frame := some
             (if (s.finit.glyphSize ch).h > s.ftext.LineHeight then
                { w := (s.finit.glyphSize ch).w + 3, h := (s.finit.glyphSize ch).h }
              else s.finit.glyphSize ch) },
         { text := post, font := none, palette := none, frame := none }] }) ∧
    ((∀ x ∈ text, x ∈ E.WHITESPACE_STRING) →
      AppendText E s text = .done { s with textContainer := historyTrim E s ++
        (if text = [] then []
         else [{ text := text, font := none, palette := none, frame := none }]) }) := by
  constructor
  · intro pre ch post htext hpre hch
    rw [AppendText_plain E s text hno]
    subst htext
    rw [if_neg (by simp), appendPlain_cap E s _ pre ch post hfont hpre hch]
    rfl
  · intro hall
    rw [AppendText_plain E s text hno]
    by_cases h : text = []
    · simp [h]
    · rw [if_neg h, if_neg h, appendPlain_blank E s _ text hall]

theorem AppendText_drop_cap_witness :
    AppendText exampleEnv exampleArea "  Once".toList =
      .done { exampleArea with textContainer := historyTrim exampleEnv exampleArea ++
        [{ text := ['O'], font := some 2,
           palette := some { front := ⟨200, 160, 0, 0⟩, back := ⟨0, 0, 0, 0⟩ },
           frame := some { w := 23, h := 30 } },
         { text := "nce".toList, font := none, palette := none, frame := none }] } :=
  (AppendText_drop_cap exampleEnv exampleArea "  Once".toList (by decide) (by decide)).1
    "  ".toList 'O' "nce".toList rfl (by decide) (by decide)

/-! ## C6: `SetText` then `QueryText` -/

theorem historyTrim_empty (E : Env) (s : TextArea) (hbody : s.textContainer = [])
    (hdel : ∀ r, E.DeleteContentsInRect [] r = []) : historyTrim E s = [] := by
  unfold historyTrim
  rw [hbody]
  split_ifs <;> simp [hdel]

theorem ClearHover_selectedSpan (s : TextArea) : (ClearHover s).selectedSpan = s.selectedSpan := by
  unfold ClearHover
  split
  · split <;> rfl
  · rfl

theorem ClearHover_fonts (s : TextArea) :
    (ClearHover s).finit = s.finit ∧ (ClearHover s).ftext = s.ftext := by
  unfold ClearHover
  split
  · split <;> exact ⟨rfl, rfl⟩
  · exact ⟨rfl, rfl⟩

/-- `SetText` on a text without `[`, in a layout in which nothing can be
deleted from an empty container. -/
theorem SetText_plain (E : Env) (s : TextArea) (text : List Char) (hno : '[' ∉ text)
    (hdel : ∀ r, E.DeleteContentsInRect [] r = []) :
    SetText E s text =
      .done { ClearText s with textContainer :=
        if text = [] then [] else appendPlain E (ClearText s) [] text } := by
  unfold SetText
  rw [AppendText_plain E _ text hno, historyTrim_empty E (ClearText s) rfl hdel]

theorem dropWhile_split (ws pre : List Char) (ch : Char) (post : List Char)
    (hpre : ∀ x ∈ pre, x ∈ ws) (hch : ch ∉ ws) :
    (pre ++ ch :: post).dropWhile (fun x => decide (x ∈ ws)) = ch :: post := by
  induction pre with
  | nil => simp [List.dropWhile, hch]
  | cons x xs ih =>
    have hx : x ∈ ws := hpre x (by simp)
    simpa [List.dropWhile, hx] using ih (fun y hy => hpre y (by simp [hy]))

/-- C6 (as amended): for every text without `[` and a widget with no option
selected, `SetText` returns and `QueryText` then gives the text itself when
the initials font is the body font or the text is all white space, and
otherwise the text without its leading white space (the drop-cap run followed
by the rest). The layout is one in which nothing can be deleted from an empty
container. -/
theorem QueryText_SetText (E : Env) (s : TextArea) (text : List Char) (hno : '[' ∉ text)
    (hsel : s.selectedSpan = none) (hdel : ∀ r, E.DeleteContentsInRect [] r = []) :
    ∃ s', SetText E s text = .done s' ∧
      QueryText s' =
        if s.finit.addr = s.ftext.addr ∨ (∀ x ∈ text, x ∈ E.WHITESPACE_STRING) then text
        else text.dropWhile (fun x => decide (x ∈ E.WHITESPACE_STRING)) := by
  refine ⟨_, SetText_plain E s text hno hdel, ?_⟩
  have hq : ∀ b : Contents, QueryText { ClearText s with textContainer := b } = Contents.Text b := by
    intro b
    have : (ClearHover s).selectedSpan = none := by rw [ClearHover_selectedSpan, hsel]
    simp [QueryText, ClearText, this]
  rw [hq]
  have hfi : (ClearText s).finit = s.finit := (ClearHover_fonts s).1
  have hft : (ClearText s).ftext = s.ftext := (ClearHover_fonts s).2
  by_cases h0 : text = []
  · subst h0
    simp [Contents.Text]
  · rw [if_neg h0]
    by_cases hfont : s.finit.addr = s.ftext.addr
    · rw [appendPlain_same_font E _ _ _ (by rw [hfi, hft]; exact hfont)]
      simp [hfont, Contents.Text]
    · rcases whitespace_split E.WHITESPACE_STRING text with hall | ⟨pre, ch, post, h1, h2, h3⟩
      · rw [appendPlain_blank E _ _ _ hall, if_pos (Or.inr hall)]
        simp [Contents.Text]
      · have hnall : ¬ (∀ x ∈ text, x ∈ E.WHITESPACE_STRING) := by
          intro hall
          exact h3 (hall ch (by simp [h1]))
        rw [if_neg (by simp [hfont, hnall])]
        subst h1
        rw [appendPlain_cap E _ _ pre ch post (by rw [hfi, hft]; exact hfont) h2 h3,
          dropWhile_split _ pre ch post h2 h3]
        simp [Contents.Text]

theorem QueryText_SetText_witness :
    ∃ s', SetText exampleEnv exampleArea "  Once".toList = .done s' ∧
      QueryText s' =
        if exampleArea.finit.addr = exampleArea.ftext.addr ∨
            (∀ x ∈ "  Once".toList, x ∈ exampleEnv.WHITESPACE_STRING) then "  Once".toList
        else "  Once".toList.dropWhile (fun x => decide (x ∈ exampleEnv.WHITESPACE_STRING)) :=
  QueryText_SetText exampleEnv exampleArea "  Once".toList (by decide) rfl
    (fun _ => List.drop_nil)

/-- C6 fails as stated: with a distinct initials font, `SetText("  Once")`
leaves `Once` as the text of the widget, not `  Once`. -/
theorem QueryText_SetText_counterexample :
    ¬ ∃ s', SetText exampleEnv exampleArea "  Once".toList = .done s' ∧
      QueryText s' = "  Once".toList := by
  rintro ⟨s', h1, h2⟩
  rw [SetText_plain exampleEnv exampleArea _ (by decide) (fun _ => List.drop_nil)] at h1
  injection h1 with h1
  subst h1
  revert h2
  decide

/-! ## C8: two appends against one -/

theorem historyTrim_off (E : Env) (s : TextArea) (h : s.Flags.history = false) :
    historyTrim E s = s.textContainer := by
  simp [historyTrim, h]

theorem Contents.styledChars_append (a b : Contents) :
    Contents.styledChars (a ++ b) = Contents.styledChars a ++ Contents.styledChars b := by
  simp [Contents.styledChars]

/-- C8 (as amended): on a widget whose initials font is its body font and
whose history flag is clear, for all texts `a` and `b` without `[`, the two
calls `AppendText(a); AppendText(b)` and the single call `AppendText(a + b)`
return and leave the same characters in the body container, each with the
same font, palette and frame hint. -/
theorem AppendText_twice_chars (E : Env) (s : TextArea) (a b : List Char)
    (hfont : s.finit.addr = s.ftext.addr) (hhist : s.Flags.history = false)
    (ha : '[' ∉ a) (hb : '[' ∉ b) :
    ∃ s1 s2 s3, AppendText E s a = .done s1 ∧ AppendText E s1 b = .done s2 ∧
      AppendText E s (a ++ b) = .done s3 ∧
      Contents.styledChars s2.textContainer = Contents.styledChars s3.textContainer := by
  have hab : '[' ∉ a ++ b := by simp [ha, hb]
  refine ⟨_, _, _, AppendText_plain E s a ha, AppendText_plain E _ b hb,
    AppendText_plain E s (a ++ b) hab, ?_⟩
  have hh : ∀ c : Contents, historyTrim E { s with textContainer := c } = c :=
    fun c => historyTrim_off E { s with textContainer := c } hhist
  simp only [historyTrim_off E s hhist, hh]
  by_cases ha0 : a = [] <;> by_cases hb0 : b = []
  · simp [ha0, hb0]
  · simp [ha0, hb0, appendPlain_same_font, hfont]
  · simp [ha0, hb0, appendPlain_same_font, hfont]
  · simp [ha0, hb0, appendPlain_same_font, hfont, Contents.styledChars]

theorem AppendText_twice_chars_witness :
    ∃ s1 s2 s3, AppendText exampleEnv { exampleArea with finit := bodyFont } "ab".toList = .done s1 ∧
      AppendText exampleEnv s1 "cd".toList = .done s2 ∧
      AppendText exampleEnv { exampleArea with finit := bodyFont } ("ab".toList ++ "cd".toList) =
        .done s3 ∧
      Contents.styledChars s2.textContainer = Contents.styledChars s3.textContainer :=
  AppendText_twice_chars exampleEnv { exampleArea with finit := bodyFont } "ab".toList "cd".toList
    rfl rfl (by decide) (by decide)

/-- C8 fails as stated, in two ways. With a distinct initials font each call
makes a drop cap of its own: after `AppendText("ab"); AppendText("cd")` the
character `c` is a drop cap, after `AppendText("abcd")` it is not. In history
mode the second call trims the body first: with a body of two blocks of 500
pixels, `AppendText("ab"); AppendText("cd")` loses the first block and
`AppendText("abcd")` does not. -/
theorem AppendText_twice_chars_counterexample :
    (¬ ∃ s1 s2 s3, AppendText exampleEnv exampleArea "ab".toList = .done s1 ∧
      AppendText exampleEnv s1 "cd".toList = .done s2 ∧
      AppendText exampleEnv exampleArea ("ab".toList ++ "cd".toList) = .done s3 ∧
      Contents.styledChars s2.textContainer = Contents.styledChars s3.textContainer) ∧
    (¬ ∃ s1 s2 s3, AppendText tallEnv historyArea "ab".toList = .done s1 ∧
      AppendText tallEnv s1 "cd".toList = .done s2 ∧
      AppendText tallEnv historyArea ("ab".toList ++ "cd".toList) = .done s3 ∧
      Contents.styledChars s2.textContainer = Contents.styledChars s3.textContainer) := by
  constructor
  · rintro ⟨s1, s2, s3, h1, h2, h3, h4⟩
    rw [AppendText_plain _ _ _ (by decide)] at h1
    injection h1 with h1
    subst h1
    rw [AppendText_plain _ _ _ (by decide)] at h2 h3
    injection h2 with h2
    injection h3 with h3
    subst h2
    subst h3
    revert h4
    decide
  · rintro ⟨s1, s2, s3, h1, h2, h3, h4⟩
    rw [AppendText_plain _ _ _ (by decide)] at h1
    injection h1 with h1
    subst h1
    rw [AppendText_plain _ _ _ (by decide)] at h2 h3
    injection h2 with h2
    injection h3 with h3
    subst h2
    subst h3
    revert h4
    decide

/-! ## C9, C10: selecting an option -/

theorem findBox_setBoxPalette (x y : Nat) (q : Option Palette) (ns : List OptNode) :
    findBox x (setBoxPalette y q ns) =
      if x = y then (findBox x ns).map (fun b => { b with palette := q }) else findBox x ns := by
  induction ns with
  | nil => simp [findBox, setBoxPalette]
  | cons n ns ih =>
    cases n with
    | text t => simpa [findBox, setBoxPalette] using ih
    | option b =>
      by_cases hxy : x = y
      · subst hxy
        by_cases hb : b.addr = x
        · simp [findBox, setBoxPalette, hb]
        · simpa [findBox, setBoxPalette, hb] using ih
      · by_cases hb : b.addr = y
        · have hyx : ¬ y = x := fun e => hxy e.symm
          simp only [hxy, if_false] at ih
          subst hb
          simp [findBox, setBoxPalette, hyx, hxy, ih]
        · by_cases hbx : b.addr = x
          · simp [findBox, setBoxPalette, hb, hbx, hxy]
          · simpa [findBox, setBoxPalette, hb, hbx, hxy] using ih

theorem findBox_append_text (x : Nat) (l1 l2 : List OptNode)
    (h : ∀ n ∈ l1, ∃ t, n = OptNode.text t) : findBox x (l1 ++ l2) = findBox x l2 := by
  induction l1 with
  | nil => rfl
  | cons n l1 ih1 =>
    obtain ⟨t, rfl⟩ := h n (by simp)
    simpa [findBox] using ih1 (fun m hm => h m (by simp [hm]))

theorem buildOptions_spans (E : Env) (s : TextArea) (numbered : Bool) (a i : Nat)
    (opts : List (Int × List Char)) :
    (buildOptions E s numbered a i opts).2 =
      (List.range opts.length).map (fun j => ((opts.getD j (0, [])).1, a + j)) := by
  induction opts generalizing a i with
  | nil => rfl
  | cons o os ih =>
    rw [buildOptions]
    simp only [ih, List.length_cons, List.range_succ_eq_map, List.map_cons, List.map_map]
    refine congrArg₂ List.cons (by simp) ?_
    apply List.map_congr_left
    intro j _
    simp [Nat.add_assoc, Nat.add_comm 1 j]

theorem buildOptions_findBox (E : Env) (s : TextArea) (numbered : Bool) (a i : Nat)
    (opts : List (Int × List Char)) (j : Nat) (hj : j < opts.length) :
    findBox (a + j) (buildOptions E s numbered a i opts).1 =
      some (makeOption E s numbered (a + j) (i + j) (opts.getD j (0, [])).2) := by
  induction opts generalizing a i j with
  | nil => simp at hj
  | cons o os ih =>
    rw [buildOptions]
    cases j with
    | zero => simp [findBox, makeOption]
    | succ j =>
      have hne : ¬ a = a + (j + 1) := by omega
      have hrec := ih (a + 1) (i + 1) j (by simpa using hj)
      have e1 : a + 1 + j = a + (j + 1) := by omega
      have e2 : i + 1 + j = i + (j + 1) := by omega
      rw [e1, e2] at hrec
      simp only [findBox, makeOption, hne, if_false]
      rw [findBox_append_text _ _ _ (by intro n hn; split at hn <;> simp at hn; exact ⟨_, hn⟩)]
      simpa [makeOption] using hrec

/-- `SetSelectOptions` installs its options: `OptSpans` lists the values in
input order, option `j` at the address `nextAddr + j`. -/
theorem SetSelectOptions_installed (E : Env) (s : TextArea) (opts : List (Int × List Char))
    (numbered : Bool) (color hiColor selColor : Option Color) :
    OptionsInstalled (SetSelectOptions E s opts numbered color hiColor selColor) ∧
    (SetSelectOptions E s opts numbered color hiColor selColor).OptSpans =
      (List.range opts.length).map (fun j => ((opts.getD j (0, [])).1, s.nextAddr + j)) := by
  have hsp := buildOptions_spans E
    (ClearSelectOptions (SetPalette E (SetPalette E (SetPalette E s color .OPTIONS) hiColor .HOVER)
      selColor .SELECTED)) numbered s.nextAddr 0 opts
  have hna : ∀ (t : TextArea) (c : Option Color) (i : PALETTE_TYPE),
      (SetPalette E t c i).nextAddr = t.nextAddr := by
    intro t c i
    unfold SetPalette
    split
    · rfl
    · split <;> rfl
  have hn : (ClearSelectOptions (SetPalette E (SetPalette E (SetPalette E s color .OPTIONS)
      hiColor .HOVER) selColor .SELECTED)).nextAddr = s.nextAddr := by
    simp [ClearSelectOptions, hna]
  refine ⟨⟨_, rfl, ?_⟩, ?_⟩
  · intro e he
    simp only [SetSelectOptions, installOptions, hn, hsp, List.mem_map, List.mem_range] at he
    obtain ⟨j, hj, rfl⟩ := he
    simp only [SetSelectOptions, installOptions, hn]
    rw [findBox_append_text _ _ _ (by intro n hn; split at hn <;> simp at hn; exact ⟨_, hn⟩),
      buildOptions_findBox _ _ _ _ _ _ j hj]
    rfl
  · simp only [SetSelectOptions, installOptions, hn, hsp]

/-- C9: on a widget that is not editable, has a non-empty variable name and
has options installed, the key with code `48 + k` (`'1'` … `'9'` for
`k = 1 … 9`) does the following. If `k` is at most the number of options, with
`(v, a)` the entry `k - 1` of `OptSpans`: the value of the widget is `v`, the
dictionary receives `v` under the variable name, `selectedSpan` is `a`, the
container at `a` carries the selected palette, a different previous selection
carries the options palette, and the select handler is run once more. If `k`
is larger, the state is unchanged: nothing is selected and the dictionary is
not written. -/
theorem OnKeyPress_digit (s : TextArea) (k : Nat) (hk : 1 ≤ k ∧ k ≤ 9)
    (hedit : s.Flags.editable = false) (hvar : s.VarName ≠ []) (hinst : OptionsInstalled s) :
    (k ≤ s.OptSpans.length →
      (OnKeyPress s (48 + k)).1 = true ∧
      ∃ v a, s.OptSpans[k - 1]? = some (v, a) ∧
        (OnKeyPress s (48 + k)).2.Value = v ∧
        (OnKeyPress s (48 + k)).2.dictionary = (s.VarName, v) :: s.dictionary ∧
        dictLookup (OnKeyPress s (48 + k)).2.dictionary s.VarName = some v ∧
        (OnKeyPress s (48 + k)).2.selectedSpan = some a ∧
        (OnKeyPress s (48 + k)).2.spanPalette a = some (s.palettes .SELECTED) ∧
        (∀ p, s.selectedSpan = some p → p ≠ a → (s.spanPalette p).isSome = true →
          (OnKeyPress s (48 + k)).2.spanPalette p = some (s.palettes .OPTIONS)) ∧
        (OnKeyPress s (48 + k)).2.events = s.events ++ [.TextAreaOnSelect] ∧
        (OnKeyPress s (48 + k)).2.OptSpans = s.OptSpans) ∧
    (s.OptSpans.length < k → OnKeyPress s (48 + k) = (true, s)) := by
  obtain ⟨ns, hns, hbox⟩ := hinst
  have hkey1 : ¬ (48 + k < 49 ∨ 48 + k > 57) := by omega
  have hidx : 48 + k - 49 = k - 1 := by omega
  constructor
  · intro hle
    have hlt : k - 1 < s.OptSpans.length := by omega
    have hget : s.OptSpans[k - 1]? = some (s.OptSpans.getD (k - 1) (0, 0)) := by
      simp [List.getD_eq_getElem?_getD, List.getElem?_eq_getElem hlt]
    have hmem : s.OptSpans.getD (k - 1) (0, 0) ∈ s.OptSpans := by
      simp [List.getD_eq_getElem?_getD, List.getElem?_eq_getElem hlt]
    have hb := hbox _ hmem
    have hguard : ¬ (s.VarName = [] ∨ k - 1 ≥ s.OptSpans.length) := by
      intro h
      rcases h with h | h
      · exact hvar h
      · omega
    have hsome : ¬ s.selectOptions = none := by simp [hns]
    generalize hva : s.OptSpans.getD (k - 1) (0, 0) = e at hget hmem hb
    obtain ⟨v, a⟩ := e
    have hupd : OnKeyPress s (48 + k) = (true, UpdateState s s.VarName (k - 1)) := by
      simp [OnKeyPress, hedit, hkey1, hidx, hlt]
    rw [hupd]
    refine ⟨rfl, v, a, hget, ?_⟩
    simp only [UpdateState, hguard, hsome, if_false, hva]
    refine ⟨trivial, trivial, by simp [dictLookup], trivial, ?_, ?_, trivial, ?_⟩
    · cases hsel : s.selectedSpan with
      | none =>
        simp [TextArea.spanPalette, TextArea.spanSetPalette, hns, findBox_setBoxPalette]
        simpa [Option.isSome_iff_exists] using hb
      | some p =>
        by_cases hpa : p = a
        · simp [TextArea.spanPalette, TextArea.spanSetPalette, hns, findBox_setBoxPalette, hpa]
          simpa [Option.isSome_iff_exists] using hb
        · have hap : ¬ a = p := fun e => hpa e.symm
          simp [TextArea.spanPalette, TextArea.spanSetPalette, hns, findBox_setBoxPalette, hpa,
            hap]
          simpa [Option.isSome_iff_exists] using hb
    · intro p hsel hpa hp
      simp only [TextArea.spanPalette, hns, Option.isSome_map'] at hp
      simp [hsel, TextArea.spanPalette, TextArea.spanSetPalette, hns, findBox_setBoxPalette, hpa]
      simpa [Option.isSome_iff_exists] using hp
    · cases hsel : s.selectedSpan with
      | none => rfl
      | some p => by_cases hpa : p = a <;> simp [TextArea.spanSetPalette, hpa]
  · intro hgt
    have hlt : ¬ k - 1 < s.OptSpans.length := by omega
    simp [OnKeyPress, hedit, hkey1, hidx, hlt]

theorem OnKeyPress_digit_witness :
    (OnKeyPress dialogArea 50).2.Value = 43 ∧
    dictLookup (OnKeyPress dialogArea 50).2.dictionary "Selected".toList = some 43 ∧
    (OnKeyPress dialogArea 50).2.selectedSpan = some 101 ∧
    dialogArea.OptSpans = [(42, 100), (43, 101)] ∧
    (OnKeyPress dialogArea 50).2.events = [.TextAreaOnSelect] ∧
    (OnKeyPress dialogArea 51) = (true, dialogArea) := by
  have h := OnKeyPress_digit dialogArea 2 (by decide) rfl (by decide)
    (SetSelectOptions_installed exampleEnv exampleArea _ true none none _).1
  have h3 := OnKeyPress_digit dialogArea 3 (by decide) rfl (by decide)
    (SetSelectOptions_installed exampleEnv exampleArea _ true none none _).1
  obtain ⟨_, v, a, h1, h2, _, h4, h5, _, _, h8, _⟩ := h.1 (by decide)
  have hva : (v, a) = (43, 101) := by
    have : dialogArea.OptSpans[2 - 1]? = some (43, 101) := by decide
    rw [this] at h1
    exact (Option.some.inj h1).symm
  obtain ⟨rfl, rfl⟩ := Prod.mk.inj hva
  exact ⟨h2, h4, h5, by decide, h8, h3.2 (by decide)⟩

/-! ### C10 -/

/-- C10: for every index that is at least the number of installed options (so
for every index when there are none), `UpdateState` leaves the state as it
is: value, selection, hover, the palettes of the options and the dictionary
are unchanged and no handler is run. -/
theorem UpdateState_out_of_range (s : TextArea) (VariableName : List Char) (optIdx : Nat)
    (h : s.OptSpans.length ≤ optIdx) : UpdateState s VariableName optIdx = s := by
  unfold UpdateState
  rw [if_pos (Or.inr h)]

theorem UpdateState_out_of_range_witness :
    UpdateState dialogArea "Selected".toList 2 = dialogArea ∧
    UpdateState exampleArea "Selected".toList 0 = exampleArea :=
  ⟨UpdateState_out_of_range dialogArea "Selected".toList 2 (by decide),
   UpdateState_out_of_range exampleArea "Selected".toList 0 (by decide)⟩

/-! ## Scrolling leaves the rest of the state alone -/

theorem ScrollOnly.same (s : TextArea) : ScrollOnly s s := rfl

theorem ScrollOnly.andThen {a b c : TextArea} (h1 : ScrollOnly a b) (h2 : ScrollOnly b c) :
    ScrollOnly a c := by
  unfold ScrollOnly at *
  rw [h2, h1]

theorem ScrollOnly.symm {a b : TextArea} (h : ScrollOnly a b) : ScrollOnly b a := by
  unfold ScrollOnly at *
  rw [h]

theorem ScrollOnly.of_fields (s : TextArea) (y r : Int) (b : Option ScrollBar) :
    ScrollOnly s { s with TextYPos := y, rows := r, sb := b } := rfl

theorem SetRow_scrollOnly (s : TextArea) (row : Int) : ScrollOnly s (SetRow s row) := by
  unfold SetRow
  split
  · rfl
  · rfl

theorem barResult_scrollOnly (s : TextArea) (r : ScrollBar × Option Int) :
    ScrollOnly s (barResult s r) := rfl

theorem ScrollToY_scrollOnly (E : Env) (s : TextArea) (y : Int) (fromBar : Bool) :
    ScrollOnly s (ScrollToY E s y fromBar) := by
  unfold ScrollToY
  split
  · split
    · exact barResult_scrollOnly _ _
    · rfl
  · exact SetRow_scrollOnly _ _

theorem UpdateScrollbar_scrollOnly (E : Env) (s : TextArea) :
    ScrollOnly s (UpdateScrollbar E s) := by
  unfold UpdateScrollbar
  split
  · rfl
  · rename_i bar hbar
    have h1 : ScrollOnly s
        (if Int.tdiv (textHeight E s + GetRowHeight s - 1) (GetRowHeight s) ≠ s.rows then
          barResult { s with rows := Int.tdiv (textHeight E s + GetRowHeight s - 1) (GetRowHeight s) }
            (E.SetMax bar (sbMaxFor s (Int.tdiv (textHeight E s + GetRowHeight s - 1)
              (GetRowHeight s))))
         else s) := by
      split
      · rfl
      · rfl
    simp only
    split
    · split
      · exact h1.andThen (ScrollToY_scrollOnly _ _ _ _)
      · exact h1
    · exact h1

theorem afterAppend_scrollOnly (E : Env) (s : TextArea) : ScrollOnly s (afterAppend E s) := by
  unfold afterAppend
  split
  · simp only
    split
    · split
      · exact (UpdateScrollbar_scrollOnly E s).andThen (barResult_scrollOnly _ _)
      · exact UpdateScrollbar_scrollOnly E s
    · exact UpdateScrollbar_scrollOnly E s
  · rfl

theorem fullClearText_scrollOnly (E : Env) (s : TextArea) :
    ScrollOnly (ClearText s) (Full.ClearText E s) :=
  (ScrollToY_scrollOnly E _ 0 false).andThen (UpdateScrollbar_scrollOnly E _)

theorem fullClearSelectOptions_scrollOnly (E : Env) (s : TextArea) :
    ScrollOnly (ClearSelectOptions s) (Full.ClearSelectOptions E s) :=
  UpdateScrollbar_scrollOnly E _

theorem SetPalette_scroll (E : Env) (a b : TextArea) (c : Option Color) (i : PALETTE_TYPE)
    (h : ScrollOnly a b) : ScrollOnly (SetPalette E a c i) (SetPalette E b c i) := by
  unfold ScrollOnly at h
  rw [h]
  unfold SetPalette
  cases c with
  | some col => rfl
  | none =>
    simp only
    split
    · rfl
    · rfl

theorem buildOptions_congr (E : Env) (a b : TextArea) (numbered : Bool) (x i : Nat)
    (opts : List (Int × List Char)) (h : a.palettes = b.palettes) :
    buildOptions E a numbered x i opts = buildOptions E b numbered x i opts := by
  induction opts generalizing x i with
  | nil => rfl
  | cons o os ih => simp only [buildOptions, makeOption, h, ih]

theorem installOptions_scroll (E : Env) (a b : TextArea) (opts : List (Int × List Char))
    (numbered : Bool) (h : ScrollOnly a b) :
    ScrollOnly (installOptions E a opts numbered) (installOptions E b opts numbered) := by
  have key : ∀ (y r : Int) (v : Option ScrollBar),
      installOptions E { a with TextYPos := y, rows := r, sb := v } opts numbered =
        { installOptions E a opts numbered with TextYPos := y, rows := r, sb := v } := by
    intro y r v
    have hb := buildOptions_congr E { a with TextYPos := y, rows := r, sb := v } a numbered
      a.nextAddr 0 opts rfl
    unfold installOptions
    simp only [hb]
  have e : installOptions E b opts numbered =
      { installOptions E a opts numbered with TextYPos := b.TextYPos, rows := b.rows,
                                               sb := b.sb } := by
    unfold ScrollOnly at h
    conv_lhs => rw [h]
    exact key _ _ _
  rw [e]
  exact ScrollOnly.of_fields _ _ _ _

theorem ClearSelectOptions_scroll (a b : TextArea) (h : ScrollOnly a b) :
    ScrollOnly (ClearSelectOptions a) (ClearSelectOptions b) := by
  unfold ScrollOnly at h
  rw [h]
  rfl

/-- The whole of `SetSelectOptions` differs from `SetSelectOptions` in the
scroll position, the row count and the scroll bar only. -/
theorem fullSetSelectOptions_scrollOnly (E : Env) (s : TextArea)
    (opts : List (Int × List Char)) (numbered : Bool) (color hiColor selColor : Option Color) :
    ScrollOnly (SetSelectOptions E s opts numbered color hiColor selColor)
      (Full.SetSelectOptions E s opts numbered color hiColor selColor) := by
  unfold SetSelectOptions Full.SetSelectOptions
  exact (installOptions_scroll E _ _ opts numbered
    (fullClearSelectOptions_scrollOnly E _)).andThen (UpdateScrollbar_scrollOnly E _)

theorem fullUpdateState_scrollOnly (E : Env) (s : TextArea) (VariableName : List Char)
    (optIdx : Nat) :
    ScrollOnly (UpdateState s VariableName optIdx) (Full.UpdateState E s VariableName optIdx) := by
  unfold Full.UpdateState
  by_cases h1 : VariableName = [] ∨ optIdx ≥ s.OptSpans.length
  · rw [if_pos h1]
    unfold UpdateState
    rw [if_pos h1]
    exact ScrollOnly.same s
  · rw [if_neg h1]
    by_cases h2 : s.selectOptions = none
    · rw [if_pos h2]
      unfold UpdateState
      rw [if_neg h1, if_pos h2]
      exact fullClearSelectOptions_scrollOnly E s
    · rw [if_neg h2]
      exact ScrollOnly.same _

theorem fullOnKeyPress_scrollOnly (E : Env) (s : TextArea) (Key : Nat) :
    (Full.OnKeyPress E s Key).1 = (OnKeyPress s Key).1 ∧
      ScrollOnly (OnKeyPress s Key).2 (Full.OnKeyPress E s Key).2 := by
  unfold Full.OnKeyPress OnKeyPress
  split
  · split <;> exact ⟨rfl, ScrollOnly.same _⟩
  · split
    · exact ⟨rfl, ScrollOnly.same _⟩
    · simp only
      split
      · exact ⟨rfl, fullUpdateState_scrollOnly E s _ _⟩
      · exact ⟨rfl, ScrollOnly.same _⟩

theorem fullAppendText_done (E : Env) (s s1 : TextArea) (text : List Char)
    (h : AppendText E s text = .done s1) :
    Full.AppendText E s text = .done (afterAppend E s1) := by
  unfold Full.AppendText
  rw [h]

theorem fullAppendText_inv (E : Env) (s s' : TextArea) (text : List Char)
    (h : Full.AppendText E s text = .done s') :
    ∃ s1, AppendText E s text = .done s1 ∧ s' = afterAppend E s1 := by
  unfold Full.AppendText at h
  cases h1 : AppendText E s text with
  | done s1 =>
    rw [h1] at h
    exact ⟨s1, rfl, (Outcome.done.inj h).symm⟩
  | assertFailed => rw [h1] at h; cases h
  | outOfFuel => rw [h1] at h; cases h

/-! ## C20: `SetupScroll` -/

theorem ClearHover_eq (s : TextArea) :
    ClearHover s =
      { s with selectOptions := (ClearHover s).selectOptions, hoverSpan := none } := by
  unfold ClearHover
  split
  · rename_i h hh
    split <;> rfl
  · rename_i hh
    cases s
    simp only at hh
    subst hh
    rfl

theorem ClearText_eq (s : TextArea) :
    ClearText s =
      { s with selectOptions := (ClearHover s).selectOptions, hoverSpan := none,
               textContainer := [] } := by
  unfold ClearText
  rw [ClearHover_eq]

/-- C20: for every widget with a positive line height, after `SetupScroll`
the smooth-scroll flag is set, `ticks` is `2400 / LineHeight`, the body
container is empty and `TextYPos` is minus the height of the widget, whatever
the scroll position, the flags and the scroll bar were before. -/
theorem SetupScroll_state (E : Env) (s : TextArea) (now : Nat)
    (hlh : 0 < s.ftext.LineHeight) :
    (SetupScroll E s now).Flags.smoothscroll = true ∧
    (SetupScroll E s now).ticks = 2400 / s.ftext.LineHeight ∧
    (SetupScroll E s now).textContainer = [] ∧
    (SetupScroll E s now).TextYPos = -(s.Height : Int) := by
  have h := fullClearText_scrollOnly E { s with ticks := Int.tdiv 2400 s.ftext.LineHeight }
  unfold ScrollOnly at h
  rw [ClearText_eq] at h
  have hticks := congrArg TextArea.ticks h
  have hbody := congrArg TextArea.textContainer h
  have hheight := congrArg TextArea.Height h
  simp only at hticks hbody hheight
  refine ⟨rfl, ?_, ?_, ?_⟩
  · show (Full.ClearText E { s with ticks := Int.tdiv 2400 s.ftext.LineHeight }).ticks = _
    rw [hticks, Int.tdiv_eq_ediv (by decide) (le_of_lt hlh)]
  · exact hbody
  · show -((Full.ClearText E { s with ticks := Int.tdiv 2400 s.ftext.LineHeight }).Height : Int) = _
    rw [hheight]

theorem SetupScroll_state_witness :
    (SetupScroll exampleEnv scrolledArea 1000).Flags.smoothscroll = true ∧
    (SetupScroll exampleEnv scrolledArea 1000).ticks = 2400 / scrolledArea.ftext.LineHeight ∧
    (SetupScroll exampleEnv scrolledArea 1000).textContainer = [] ∧
    (SetupScroll exampleEnv scrolledArea 1000).TextYPos = -(scrolledArea.Height : Int) :=
  SetupScroll_state exampleEnv scrolledArea 1000 (by decide)

/-! ## C15: `ScrollToY` without a scroll bar -/

/-- C15 (as amended): on a widget without a scroll bar, for every integer
`y`, with `row = y / LineHeight` (the quotient of C), `ScrollToY(y)` stores
`TextYPos = row * LineHeight` when `row ≤ rows` and leaves the state as it is
when `row > rows`. -/
theorem ScrollToY_without_scrollbar (E : Env) (s : TextArea) (y : Int) (fromBar : Bool)
    (hsb : s.sb = none) :
    ScrollToY E s y fromBar =
      if Int.tdiv y s.ftext.LineHeight ≤ s.rows then
        { s with TextYPos := Int.tdiv y s.ftext.LineHeight * s.ftext.LineHeight }
      else s := by
  unfold ScrollToY
  split
  · rename_i bar hbar
    rw [hsb] at hbar
    cases hbar
  · rfl

theorem ScrollToY_without_scrollbar_witness :
    ScrollToY exampleEnv exampleArea (-25) false =
      if Int.tdiv (-25) exampleArea.ftext.LineHeight ≤ exampleArea.rows then
        { exampleArea with
          TextYPos := Int.tdiv (-25) exampleArea.ftext.LineHeight * exampleArea.ftext.LineHeight }
      else exampleArea :=
  ScrollToY_without_scrollbar exampleEnv exampleArea (-25) false rfl

/-- C15 fails as stated: the widget `raisedArea` has no scroll bar, `rows = 0`
and `TextYPos = -20`; `ScrollToY(50)` asks for row 5, which is above `rows`,
and `TextYPos` stays `-20` instead of becoming `rows * LineHeight = 0`. -/
theorem ScrollToY_without_scrollbar_counterexample :
    raisedArea.sb = none ∧ raisedArea.rows = 0 ∧ raisedArea.ftext.LineHeight = 10 ∧
    Int.tdiv 50 raisedArea.ftext.LineHeight > raisedArea.rows ∧
    (ScrollToY exampleEnv raisedArea 50 false).TextYPos = -20 ∧
    (ScrollToY exampleEnv raisedArea 50 false).TextYPos ≠
      raisedArea.rows * raisedArea.ftext.LineHeight := by
  decide

/-! ## C18: numbered options -/

theorem SetPalette_nextAddr (E : Env) (t : TextArea) (c : Option Color) (i : PALETTE_TYPE) :
    (SetPalette E t c i).nextAddr = t.nextAddr := by
  unfold SetPalette
  split
  · rfl
  · split <;> rfl

/-- The container `SetSelectOptions` builds for option `j`. -/
theorem SetSelectOptions_findBox (E : Env) (s : TextArea) (opts : List (Int × List Char))
    (numbered : Bool) (color hiColor selColor : Option Color) (j : Nat) (hj : j < opts.length) :
    ∃ ns, (SetSelectOptions E s opts numbered color hiColor selColor).selectOptions = some ns ∧
      findBox (s.nextAddr + j) ns =
        some (makeOption E
          (ClearSelectOptions (SetPalette E (SetPalette E (SetPalette E s color .OPTIONS)
            hiColor .HOVER) selColor .SELECTED))
          numbered (s.nextAddr + j) j (opts.getD j (0, [])).2) := by
  have hn : (ClearSelectOptions (SetPalette E (SetPalette E (SetPalette E s color .OPTIONS)
      hiColor .HOVER) selColor .SELECTED)).nextAddr = s.nextAddr := by
    simp [ClearSelectOptions, SetPalette_nextAddr]
  refine ⟨_, rfl, ?_⟩
  simp only [hn]
  rw [findBox_append_text _ _ _ (by intro n hn; split at hn <;> simp at hn; exact ⟨_, hn⟩)]
  have := buildOptions_findBox E
    (ClearSelectOptions (SetPalette E (SetPalette E (SetPalette E s color .OPTIONS)
      hiColor .HOVER) selColor .SELECTED)) numbered s.nextAddr 0 opts j hj
  simpa using this

/-- C18 (the code at the failing inputs): with ten or more numbered options,
whatever the buffer of six characters holds after the `swprintf` that did not
fit (as long as it is a string inside the buffer, of fewer than six
characters), the first run of the container of the tenth option is that
string and not `10. - `. -/
theorem SetSelectOptions_tenth_number (E : Env) (s : TextArea) (opts : List (Int × List Char))
    (color hiColor selColor : Option Color) (h10 : 10 ≤ opts.length)
    (hfit : (E.optNumOverflow 10).length < 6) :
    ∃ ns b, (Full.SetSelectOptions E s opts true color hiColor selColor).selectOptions = some ns ∧
      (Full.SetSelectOptions E s opts true color hiColor selColor).OptSpans[9]? =
        some ((opts.getD 9 (0, [])).1, s.nextAddr + 9) ∧
      findBox (s.nextAddr + 9) ns = some b ∧
      (b.contents.map TextSpan.text).head? = some (E.optNumOverflow 10) ∧
      (b.contents.map TextSpan.text).head? ≠ some "10. - ".toList := by
  have hso := fullSetSelectOptions_scrollOnly E s opts true color hiColor selColor
  unfold ScrollOnly at hso
  have hsel := congrArg TextArea.selectOptions hso
  have hspans := congrArg TextArea.OptSpans hso
  simp only at hsel hspans
  obtain ⟨ns, hns, hbox⟩ := SetSelectOptions_findBox E s opts true color hiColor selColor 9
    (by omega)
  have hnum : optNumText E 10 = E.optNumOverflow 10 := by
    have : ¬ ((Nat.repr 10).toList ++ ". - ".toList).length < 6 := by decide
    simp only [optNumText, this, if_false]
  have hhead : ((makeOption E
      (ClearSelectOptions (SetPalette E (SetPalette E (SetPalette E s color .OPTIONS)
        hiColor .HOVER) selColor .SELECTED))
      true (s.nextAddr + 9) 9 (opts.getD 9 (0, [])).2).contents.map TextSpan.text).head? =
      some (E.optNumOverflow 10) := by
    simp [makeOption, hnum]
  refine ⟨ns, _, hsel.trans hns, ?_, hbox, hhead, ?_⟩
  · rw [hspans, (SetSelectOptions_installed E s opts true color hiColor selColor).2]
    simp [List.getElem?_map, List.getElem?_range (by omega : 9 < opts.length)]
  · rw [hhead]
    intro h
    have h2 := congrArg List.length (Option.some.inj h)
    have h3 : "10. - ".toList.length = 6 := by decide
    omega

theorem SetSelectOptions_tenth_number_witness :
    ∃ ns b, (Full.SetSelectOptions exampleEnv exampleArea tenOptions true none none
        none).selectOptions = some ns ∧
      (Full.SetSelectOptions exampleEnv exampleArea tenOptions true none none none).OptSpans[9]? =
        some ((tenOptions.getD 9 (0, [])).1, exampleArea.nextAddr + 9) ∧
      findBox (exampleArea.nextAddr + 9) ns = some b ∧
      (b.contents.map TextSpan.text).head? = some (exampleEnv.optNumOverflow 10) ∧
      (b.contents.map TextSpan.text).head? ≠ some "10. - ".toList :=
  SetSelectOptions_tenth_number exampleEnv exampleArea tenOptions none none none
    (by decide) (by decide)

/-! ## C17: the mouse over no span -/

theorem ClearHover_spanPalette (s : TextArea) (a : Nat) :
    (ClearHover s).spanPalette a =
      if s.hoverSpan = some a then
        (s.spanPalette a).map
          (fun _ => if s.hoverSpan = s.selectedSpan then s.palettes .SELECTED
                    else s.palettes .OPTIONS)
      else s.spanPalette a := by
  unfold ClearHover
  cases hh : s.hoverSpan with
  | none => simp
  | some h =>
    simp only
    cases hns : s.selectOptions with
    | none => split <;> split <;> simp [TextArea.spanPalette, TextArea.spanSetPalette, hns]
    | some ns =>
      by_cases hsel : some h = s.selectedSpan
      · by_cases ha : h = a
        · subst ha
          simp only [TextArea.spanPalette, TextArea.spanSetPalette, hns, hsel, if_true,
            Option.map_some', findBox_setBoxPalette]
          cases findBox h ns <;> simp
        · have ha' : ¬ a = h := fun e => ha e.symm
          have ha2 : ¬ some h = some a := fun e => ha (Option.some.inj e)
          simp only [TextArea.spanPalette, TextArea.spanSetPalette, hns, hsel, if_true,
            Option.map_some', findBox_setBoxPalette, ha', if_false]
          rw [← hsel, if_neg ha2]
      · by_cases ha : h = a
        · subst ha
          simp only [TextArea.spanPalette, TextArea.spanSetPalette, hns, hsel, if_true,
            if_false, Option.map_some', findBox_setBoxPalette]
          cases findBox h ns <;> simp
        · have ha' : ¬ a = h := fun e => ha e.symm
          have ha2 : ¬ some h = some a := fun e => ha (Option.some.inj e)
          simp only [TextArea.spanPalette, TextArea.spanSetPalette, hns, hsel, if_false,
            Option.map_some', findBox_setBoxPalette, ha', ha2]

/-- C17 (as amended): for every mouse-over at a point where the hit test of
the options container finds no span, no handler is run and the dictionary is
not written, `hoverSpan` is null afterwards and `selectedSpan` is as before;
the palette of every option container other than the one hovered before is
unchanged, and the one hovered before carries the selected palette if it is
`selectedSpan`, else the options palette. -/
theorem OnMouseOver_no_span (E : Env) (s : TextArea) (ns : List OptNode) (x y : Nat)
    (hns : s.selectOptions = some ns) (hmiss : hitSpan E s ns x y = none) :
    (OnMouseOver E s x y).events = s.events ∧
    (OnMouseOver E s x y).dictionary = s.dictionary ∧
    (OnMouseOver E s x y).hoverSpan = none ∧
    (OnMouseOver E s x y).selectedSpan = s.selectedSpan ∧
    (∀ a, s.hoverSpan ≠ some a → (OnMouseOver E s x y).spanPalette a = s.spanPalette a) ∧
    (∀ h b, s.hoverSpan = some h → findBox h ns = some b →
      (OnMouseOver E s x y).spanPalette h =
        some (if s.selectedSpan = some h then s.palettes .SELECTED else s.palettes .OPTIONS)) := by
  have hover : OnMouseOver E s x y = ClearHover s := by
    unfold OnMouseOver
    rw [hns]
    simp only [hmiss]
  rw [hover]
  have heq := ClearHover_eq s
  refine ⟨by rw [heq], by rw [heq], by rw [heq], by rw [heq], ?_, ?_⟩
  · intro a ha
    rw [ClearHover_spanPalette, if_neg ha]
  · intro h b hh hb
    rw [ClearHover_spanPalette, if_pos hh]
    have hp : s.spanPalette h = some b.palette := by simp [TextArea.spanPalette, hns, hb]
    rw [hp, hh]
    by_cases hsel : s.selectedSpan = some h
    · simp [hsel]
    · have hsel' : ¬ some h = s.selectedSpan := fun e => hsel e.symm
      simp [hsel, hsel']

theorem OnMouseOver_no_span_witness :
    (OnMouseOver exampleEnv hoveredArea 5 500).events = hoveredArea.events ∧
    (OnMouseOver exampleEnv hoveredArea 5 500).hoverSpan = none ∧
    hoveredArea.hoverSpan = some 100 ∧
    (OnMouseOver exampleEnv hoveredArea 5 500).spanPalette 100 =
      some (if hoveredArea.selectedSpan = some 100 then hoveredArea.palettes .SELECTED
            else hoveredArea.palettes .OPTIONS) := by
  have h := OnMouseOver_no_span exampleEnv hoveredArea
    (hoveredArea.selectOptions.getD []) 5 500 (by decide) (by decide)
  obtain ⟨h1, _, h3, _, _, h6⟩ := h
  have hb : (findBox 100 (hoveredArea.selectOptions.getD [])).isSome = true := by decide
  obtain ⟨b, hb⟩ := Option.isSome_iff_exists.mp hb
  exact ⟨h1, h3, by decide, h6 100 b (by decide) hb⟩

/-- C17 fails as stated: in `hoveredArea` the mouse is over the first option,
which carries the hover palette; a mouse-over at a point where the hit test
finds nothing gives that option the options palette back. -/
theorem OnMouseOver_no_span_counterexample :
    hitSpan exampleEnv hoveredArea (hoveredArea.selectOptions.getD []) 5 500 = none ∧
    hoveredArea.spanPalette 100 = some (some { front := ⟨0, 0, 255, 0⟩, back := ⟨0, 0, 0, 255⟩ }) ∧
    (OnMouseOver exampleEnv hoveredArea 5 500).spanPalette 100 =
      some (some { front := ⟨0, 255, 0, 0⟩, back := ⟨0, 0, 0, 255⟩ }) ∧
    (OnMouseOver exampleEnv hoveredArea 5 500).spanPalette 100 ≠ hoveredArea.spanPalette 100 := by
  decide

/-! ## C14, C19: the row count and the maximum of the scroll bar -/

theorem textHeight_scroll (E : Env) (a b : TextArea) (h : ScrollOnly a b) :
    textHeight E b = textHeight E a := by
  unfold ScrollOnly at h
  rw [h]
  rfl

theorem ScrollToY_rows_of_bar (E : Env) (s : TextArea) (y : Int) (fromBar : Bool)
    (bar : ScrollBar) (h : s.sb = some bar) :
    (ScrollToY E s y fromBar).rows = s.rows ∧ ∃ bar', (ScrollToY E s y fromBar).sb = some bar' := by
  unfold ScrollToY
  rw [h]
  simp only
  split
  · exact ⟨rfl, _, rfl⟩
  · exact ⟨rfl, bar, rfl⟩

/-- With a scroll bar attached, `UpdateScrollbar` leaves the row count of the
current content in `rows`. -/
theorem UpdateScrollbar_rows (E : Env) (s : TextArea) (bar : ScrollBar) (h : s.sb = some bar) :
    (UpdateScrollbar E s).rows =
      Int.tdiv (textHeight E s + s.ftext.LineHeight - 1) s.ftext.LineHeight ∧
    ∃ bar', (UpdateScrollbar E s).sb = some bar' := by
  have h1 : ∀ t : TextArea,
      t = (if Int.tdiv (textHeight E s + GetRowHeight s - 1) (GetRowHeight s) ≠ s.rows then
          barResult { s with rows := Int.tdiv (textHeight E s + GetRowHeight s - 1) (GetRowHeight s) }
            (E.SetMax bar (sbMaxFor s (Int.tdiv (textHeight E s + GetRowHeight s - 1)
              (GetRowHeight s))))
         else s) →
      t.rows = Int.tdiv (textHeight E s + s.ftext.LineHeight - 1) s.ftext.LineHeight ∧
        ∃ bar', t.sb = some bar' := by
    intro t ht
    by_cases hr : Int.tdiv (textHeight E s + GetRowHeight s - 1) (GetRowHeight s) ≠ s.rows
    · rw [if_pos hr] at ht
      rw [ht]
      exact ⟨rfl, _, rfl⟩
    · rw [if_neg hr] at ht
      rw [ht]
      exact ⟨(not_not.mp hr).symm, bar, h⟩
  unfold UpdateScrollbar
  rw [h]
  simp only
  obtain ⟨hrows, bar1, hbar1⟩ := h1 _ rfl
  split
  · split
    · obtain ⟨hr2, hb2⟩ := ScrollToY_rows_of_bar E _ _ false bar1 hbar1
      exact ⟨hr2.trans hrows, hb2⟩
    · exact ⟨hrows, bar1, hbar1⟩
  · exact ⟨hrows, bar1, hbar1⟩

theorem UpdateScrollbar_no_bar (E : Env) (s : TextArea) (h : s.sb = none) :
    UpdateScrollbar E s = s := by
  unfold UpdateScrollbar
  rw [h]

theorem afterAppend_rows (E : Env) (s : TextArea) :
    (s.sb = none → afterAppend E s = s) ∧
    (∀ bar, s.sb = some bar →
      (afterAppend E s).rows =
        Int.tdiv (textHeight E s + s.ftext.LineHeight - 1) s.ftext.LineHeight) := by
  constructor
  · intro h
    unfold afterAppend
    rw [h]
  · intro bar h
    obtain ⟨hr, bar1, hb1⟩ := UpdateScrollbar_rows E s bar h
    unfold afterAppend
    rw [h]
    simp only
    split
    · rw [hb1]
      exact hr
    · exact hr

/-- The quotient by which the source rounds up is the ceiling. -/
theorem tdiv_round_up (H lh : Int) (hH : 0 ≤ H) (hlh : 0 < lh) :
    Int.tdiv (H + lh - 1) lh = ⌈(H : ℚ) / (lh : ℚ)⌉ := by
  rw [Int.tdiv_eq_ediv (by omega) (le_of_lt hlh)]
  symm
  rw [Int.ceil_eq_iff]
  have hq : (0 : ℚ) < (lh : ℚ) := by exact_mod_cast hlh
  have h1 := Int.ediv_add_emod (H + lh - 1) lh
  have h2 := Int.emod_nonneg (H + lh - 1) (ne_of_gt hlh)
  have h3 := Int.emod_lt_of_pos (H + lh - 1) hlh
  constructor
  · rw [lt_div_iff₀ hq]
    have : ((H + lh - 1) / lh - 1) * lh < H := by nlinarith
    exact_mod_cast this
  · rw [div_le_iff₀ hq]
    have : H ≤ ((H + lh - 1) / lh) * lh := by nlinarith
    exact_mod_cast this

theorem AppendText_done_eq (E : Env) (s s1 : TextArea) (text : List Char)
    (h : AppendText E s text = .done s1) : s1 = { s with textContainer := s1.textContainer } := by
  unfold AppendText at h
  simp only at h
  split at h
  · split at h
    · rw [← Outcome.done.inj h]
    · cases h
    · cases h
  · split at h <;> rw [← Outcome.done.inj h]

/-- C14 (as amended): when `AppendText` returns on a widget without a scroll
bar, `rows` is what it was; when it returns on a widget with a scroll bar
(positive line height, content height not negative), `rows` is
`ceil(H / LineHeight)` where `H` is the height of the content wrapper, with
the height of the widget less the page height added when a dialog begin node
is set and its page (two lines, the node and the options) is lower than the
widget. -/
theorem fullAppendText_rows (E : Env) (s s' : TextArea) (text : List Char)
    (h : Full.AppendText E s text = .done s') :
    (s.sb = none → s'.rows = s.rows) ∧
    (∀ bar, s.sb = some bar → 0 < s.ftext.LineHeight → 0 ≤ textHeight E s' →
      s'.rows = ⌈(textHeight E s' : ℚ) / (s.ftext.LineHeight : ℚ)⌉) := by
  obtain ⟨s1, h1, rfl⟩ := fullAppendText_inv E s s' text h
  have he := AppendText_done_eq E s s1 text h1
  have hsb : s1.sb = s.sb := by rw [he]
  have hrows : s1.rows = s.rows := by rw [he]
  have hft : s1.ftext = s.ftext := by rw [he]
  have hth := textHeight_scroll E s1 (afterAppend E s1) (afterAppend_scrollOnly E s1)
  constructor
  · intro hn
    rw [(afterAppend_rows E s1).1 (hsb.trans hn), hrows]
  · intro bar hb hlh hH
    rw [(afterAppend_rows E s1).2 bar (hsb.trans hb), hth, hft]
    rw [hth] at hH
    exact tdiv_round_up _ _ hH hlh

theorem fullAppendText_rows_witness :
    ∃ s', Full.AppendText exampleEnv barArea "Hello".toList = .done s' ∧ s'.rows = 1 ∧
      s'.rows = ⌈(textHeight exampleEnv s' : ℚ) / (barArea.ftext.LineHeight : ℚ)⌉ := by
  have hd := fullAppendText_done exampleEnv barArea _ "Hello".toList
    (AppendText_plain exampleEnv barArea "Hello".toList (by decide))
  exact ⟨_, hd, by decide,
    (fullAppendText_rows exampleEnv barArea _ "Hello".toList hd).2 _ rfl (by decide) (by decide)⟩

/-- C14 fails as stated, in two ways. Without a scroll bar `rows` is not
touched: after `AppendText("Hello")` on `plainArea` the content is one line of
ten pixels and `rows` is still 0. With a scroll bar and a dialog begin node
whose page is lower than the widget the phony height is counted: after
`AppendText("x")` on `talkArea` the content is 50 pixels high and `rows` is
9. -/
theorem fullAppendText_rows_counterexample :
    (∃ s', Full.AppendText exampleEnv plainArea "Hello".toList = .done s' ∧ s'.rows = 0 ∧
      ⌈((exampleEnv.WrapperFrame s'.textContainer s'.selectOptions).h : ℚ) /
        (s'.ftext.LineHeight : ℚ)⌉ = 1) ∧
    (∃ s', Full.AppendText exampleEnv talkArea "x".toList = .done s' ∧ s'.rows = 9 ∧
      ⌈((exampleEnv.WrapperFrame s'.textContainer s'.selectOptions).h : ℚ) /
        (s'.ftext.LineHeight : ℚ)⌉ = 5) := by
  constructor
  · refine ⟨_, fullAppendText_done exampleEnv plainArea _ "Hello".toList
      (AppendText_plain exampleEnv plainArea "Hello".toList (by decide)), by decide, ?_⟩
    show ⌈((10 : Int) : ℚ) / ((10 : Int) : ℚ)⌉ = 1
    norm_num
  · refine ⟨_, fullAppendText_done exampleEnv talkArea _ "x".toList
      (AppendText_plain exampleEnv talkArea "x".toList (by decide)), by decide, ?_⟩
    show ⌈((50 : Int) : ℚ) / ((10 : Int) : ℚ)⌉ = 5
    norm_num

theorem toWord_cast (v : Int) : ((toWord v : Nat) : Int) = v % 65536 := by
  unfold toWord
  exact Int.toNat_of_nonneg (Int.emod_nonneg _ (by decide))

theorem sbMaxFor_eq (s : TextArea) (r : Int) (hlh : 0 < s.ftext.LineHeight) :
    ((sbMaxFor s r : Nat) : Int) =
      (max 0 (r - ((s.Height : Int) / s.ftext.LineHeight) % 65536)) % 65536 := by
  unfold sbMaxFor GetRowHeight
  simp only [toWord_cast]
  rw [Int.tdiv_eq_ediv (Int.ofNat_nonneg _) (le_of_lt hlh)]
  by_cases h : r > ((s.Height : Int) / s.ftext.LineHeight) % 65536
  · rw [if_pos h, max_eq_right (by omega)]
  · rw [if_neg h, max_eq_left (by omega)]

theorem ScrollToY_value (E : Env) (s : TextArea) (y : Int) (b : ScrollBar)
    (hsb : s.sb = some b) (hposy : ∀ b y l, (E.SetPosForY b y l).1.Value = b.Value) :
    ∃ b', (ScrollToY E s y false).sb = some b' ∧ b'.Value = b.Value := by
  unfold ScrollToY
  rw [hsb]
  exact ⟨_, rfl, hposy _ _ _⟩

/-- C19 (as amended): on a widget with a scroll bar attached and a positive
line height, with a scroll bar whose `SetMax` stores the maximum it is given
and whose `SetPosForY` leaves the maximum alone: when `UpdateScrollbar` finds
a row count other than the cached one, the maximum of the scroll bar is
afterwards `max(0, rows - visibleRows)` reduced to sixteen bits (so equal to
it when that is below 65536), with `visibleRows = Height / LineHeight`
reduced to sixteen bits and `rows` the new row count; when the row count is
the cached one, the maximum of the scroll bar is what it was. -/
theorem UpdateScrollbar_max (E : Env) (s : TextArea) (bar : ScrollBar) (hsb : s.sb = some bar)
    (hlh : 0 < s.ftext.LineHeight) (hmax : ∀ b m, (E.SetMax b m).1.Value = m)
    (hposy : ∀ b y l, (E.SetPosForY b y l).1.Value = b.Value) :
    ∃ bar', (UpdateScrollbar E s).sb = some bar' ∧
      ((UpdateScrollbar E s).rows ≠ s.rows →
        (bar'.Value : Int) =
          (max 0 ((UpdateScrollbar E s).rows -
            ((s.Height : Int) / s.ftext.LineHeight) % 65536)) % 65536 ∧
        (max 0 ((UpdateScrollbar E s).rows -
            ((s.Height : Int) / s.ftext.LineHeight) % 65536) < 65536 →
          (bar'.Value : Int) =
            max 0 ((UpdateScrollbar E s).rows -
              ((s.Height : Int) / s.ftext.LineHeight) % 65536))) ∧
      ((UpdateScrollbar E s).rows = s.rows → bar'.Value = bar.Value) := by
  have hrows := (UpdateScrollbar_rows E s bar hsb).1
  have h1 : ∃ b1, (if Int.tdiv (textHeight E s + GetRowHeight s - 1) (GetRowHeight s) ≠ s.rows then
          barResult { s with rows := Int.tdiv (textHeight E s + GetRowHeight s - 1) (GetRowHeight s) }
            (E.SetMax bar (sbMaxFor s (Int.tdiv (textHeight E s + GetRowHeight s - 1)
              (GetRowHeight s))))
         else s).sb = some b1 ∧
      b1.Value = if Int.tdiv (textHeight E s + GetRowHeight s - 1) (GetRowHeight s) ≠ s.rows then
          sbMaxFor s (Int.tdiv (textHeight E s + GetRowHeight s - 1) (GetRowHeight s))
        else bar.Value := by
    by_cases hr : Int.tdiv (textHeight E s + GetRowHeight s - 1) (GetRowHeight s) ≠ s.rows
    · rw [if_pos hr, if_pos hr]
      exact ⟨_, rfl, hmax _ _⟩
    · rw [if_neg hr, if_neg hr]
      exact ⟨bar, hsb, rfl⟩
  obtain ⟨b1, hb1, hv1⟩ := h1
  have h2 : ∃ bar', (UpdateScrollbar E s).sb = some bar' ∧ bar'.Value = b1.Value := by
    unfold UpdateScrollbar
    rw [hsb]
    simp only
    split
    · split
      · exact ScrollToY_value E _ _ b1 hb1 hposy
      · exact ⟨b1, hb1, rfl⟩
    · exact ⟨b1, hb1, rfl⟩
  obtain ⟨bar', hbar', hv'⟩ := h2
  refine ⟨bar', hbar', ?_, ?_⟩
  · intro hne
    rw [hrows] at hne ⊢
    have hne' : Int.tdiv (textHeight E s + GetRowHeight s - 1) (GetRowHeight s) ≠ s.rows := hne
    rw [if_pos hne'] at hv1
    have hval : (bar'.Value : Int) =
        (max 0 (Int.tdiv (textHeight E s + s.ftext.LineHeight - 1) s.ftext.LineHeight -
          ((s.Height : Int) / s.ftext.LineHeight) % 65536)) % 65536 := by
      rw [hv', hv1]
      exact sbMaxFor_eq s _ hlh
    refine ⟨hval, ?_⟩
    intro hlt
    rw [hval]
    exact Int.emod_eq_of_lt (le_max_left _ _) hlt
  · intro heq
    rw [hrows] at heq
    have heq' : ¬ Int.tdiv (textHeight E s + GetRowHeight s - 1) (GetRowHeight s) ≠ s.rows :=
      not_not.mpr heq
    rw [if_neg heq'] at hv1
    rw [hv', hv1]

theorem UpdateScrollbar_max_witness :
    ∃ bar', (UpdateScrollbar exampleEnv talkArea).sb = some bar' ∧
      ((UpdateScrollbar exampleEnv talkArea).rows = talkArea.rows → bar'.Value = 0) ∧
      ∃ bar'', (UpdateScrollbar hugeEnv talkArea).sb = some bar'' ∧
        ((UpdateScrollbar hugeEnv talkArea).rows ≠ talkArea.rows → (bar''.Value : Int) =
          (max 0 ((UpdateScrollbar hugeEnv talkArea).rows -
            ((talkArea.Height : Int) / talkArea.ftext.LineHeight) % 65536)) % 65536) := by
  obtain ⟨b1, h1, _, h3⟩ := UpdateScrollbar_max exampleEnv talkArea ⟨0, 0⟩ (by decide) (by decide)
    (fun _ _ => rfl) (fun _ _ _ => rfl)
  obtain ⟨b2, h4, h5, _⟩ := UpdateScrollbar_max hugeEnv talkArea ⟨0, 0⟩ (by decide) (by decide)
    (fun _ _ => rfl) (fun _ _ _ => rfl)
  exact ⟨b1, h1, h3, b2, h4, fun hne => (h5 hne).1⟩

/-- C19 fails as stated, in two ways. When a scroll bar with maximum 5 is
attached to the empty widget `plainArea`, `SetScrollBar` resets `rows` to 0,
`UpdateScrollbar` finds 0 rows again and does not call `SetMax`: the maximum
stays 5, while `max(0, rows - visibleRows)` is 0. With a content of 700000
pixels there are 70000 rows and 10 visible ones; the maximum is stored in
sixteen bits and is 4454 instead of 69990. -/
theorem UpdateScrollbar_max_counterexample :
    ((SetScrollBar exampleEnv plainArea (some { Pos := 0, Value := 5 })).map
        (fun t => (t.sb, t.rows)) = some (some { Pos := 0, Value := 5 }, 0) ∧
      (UpdateScrollbar exampleEnv attachedArea).sb = some { Pos := 0, Value := 5 } ∧
      (UpdateScrollbar exampleEnv attachedArea).rows = 0 ∧
      max 0 ((UpdateScrollbar exampleEnv attachedArea).rows -
        (attachedArea.Height : Int) / attachedArea.ftext.LineHeight) = 0) ∧
    ((UpdateScrollbar hugeEnv attachedArea).sb = some { Pos := 0, Value := 4454 } ∧
      (UpdateScrollbar hugeEnv attachedArea).rows = 70000 ∧
      max 0 ((UpdateScrollbar hugeEnv attachedArea).rows -
        (attachedArea.Height : Int) / attachedArea.ftext.LineHeight) = 69990) := by
  decide

/-! ## C12: the height of the body in history mode -/

theorem step_out (ftext finit : Font) (back : Color) (c : ParseCfg) :
    ∃ r, (step ftext finit back c).out = c.out ++ r := by
  obtain ⟨st, tok, pal, fnt, fr, pc, rest, out⟩ := c
  cases rest with
  | nil => exact ⟨[], by simp [step]⟩
  | cons ch r =>
    cases st
    · -- TEXT
      by_cases h1 : ch = '['
      · by_cases h2 : tok ≠ [] ∧ tok ≠ ['\n']
        · refine ⟨[tokenSpan finit ⟨.TEXT, tok, pal, fnt, fr, pc, ch :: r, out⟩], ?_⟩
          cases r with
          | nil => simp [step, h1, h2, Contents.AppendContent]
          | cons d r' => by_cases h3 : d = '/' <;> simp [step, h1, h2, h3, Contents.AppendContent]
        · refine ⟨[], ?_⟩
          cases r with
          | nil => simp [step, h1, h2]
          | cons d r' => by_cases h3 : d = '/' <;> simp [step, h1, h2, h3]
      · exact ⟨[], by simp [step, h1]⟩
    · -- OPEN_TAG
      refine ⟨[], ?_⟩
      by_cases h1 : ch = '=' <;> by_cases h2 : ch = ']' <;> by_cases h3 : ch = '[' <;>
        simp [step, h1, h2, h3] <;> split_ifs <;> simp
    · -- CLOSE_TAG
      refine ⟨[], ?_⟩
      by_cases h2 : ch = ']' <;> simp [step, h2]
    · -- COLOR
      refine ⟨[], ?_⟩
      by_cases h2 : ch = ']' <;> simp [step, h2]

theorem iterate_step_out (ftext finit : Font) (back : Color) (n : Nat) (c : ParseCfg) :
    ∃ r, ((step ftext finit back)^[n] c).out = c.out ++ r := by
  induction n generalizing c with
  | zero => exact ⟨[], by simp⟩
  | succ n ih =>
    obtain ⟨r1, h1⟩ := step_out ftext finit back c
    obtain ⟨r2, h2⟩ := ih (step ftext finit back c)
    exact ⟨r1 ++ r2, by rw [Function.iterate_succ_apply, h2, h1, List.append_assoc]⟩

theorem appendMarkup_appends (E : Env) (s : TextArea) (body b : Contents) (text : List Char)
    (tagPos : Nat) (h : appendMarkup E s body text tagPos = .done b) : ∃ r, b = body ++ r := by
  have hstart : ∃ r0, (if tagPos ≠ 0 then body.AppendText (text.take tagPos) else body) =
      body ++ r0 := by
    by_cases h0 : tagPos ≠ 0
    · exact ⟨[{ text := text.take tagPos, font := none, palette := none, frame := none }],
        by rw [if_pos h0]; rfl⟩
    · exact ⟨[], by rw [if_neg h0, List.append_nil]⟩
  obtain ⟨r0, hr0⟩ := hstart
  unfold appendMarkup at h
  simp only at h
  rw [hr0, parseLoop_eq_iterate] at h
  obtain ⟨r, hr⟩ := iterate_step_out s.ftext s.finit s.palette.back (2 * text.length + 1)
    (parseStart E s (body ++ r0) (List.drop tagPos text))
  have hout : (parseStart E s (body ++ r0) (List.drop tagPos text)).out = body ++ r0 := rfl
  rw [hout] at hr
  generalize (step s.ftext s.finit s.palette.back)^[2 * text.length + 1]
    (parseStart E s (body ++ r0) (List.drop tagPos text)) = cf at h hr
  by_cases hnil : cf.rest = []
  · rw [if_pos hnil] at h
    simp only at h
    by_cases ha : cf.pal = none ∧ cf.state = .TEXT
    · rw [if_pos ha] at h
      have hb := Outcome.done.inj h
      rw [← hb, hr]
      by_cases ht : cf.token ≠ []
      · rw [if_pos ht]
        exact ⟨r0 ++ r ++ [{ text := cf.token, font := none, palette := none, frame := none }],
          by simp [Contents.AppendText, List.append_assoc]⟩
      · rw [if_neg ht]
        exact ⟨r0 ++ r, by rw [List.append_assoc]⟩
    · rw [if_neg ha] at h
      cases h
  · rw [if_neg hnil] at h
    cases h

theorem appendPlain_appends (E : Env) (s : TextArea) (body : Contents) (text : List Char) :
    ∃ r, appendPlain E s body text = body ++ r := by
  unfold appendPlain
  split
  · split
    · exact ⟨_, List.append_assoc _ _ _⟩
    · exact ⟨_, rfl⟩
  · exact ⟨_, rfl⟩

/-- Whatever the text is, a call of `AppendText` that returns leaves the
trimmed body followed by the runs it appended. -/
theorem AppendText_appends (E : Env) (s s1 : TextArea) (text : List Char)
    (h : AppendText E s text = .done s1) :
    ∃ runs, s1.textContainer = historyTrim E s ++ runs := by
  unfold AppendText at h
  simp only at h
  cases hfind : find_first_of '[' text with
  | some tagPos =>
    rw [hfind] at h
    simp only at h
    cases hm : appendMarkup E s (historyTrim E s) text tagPos with
    | done b =>
      rw [hm] at h
      rw [← Outcome.done.inj h]
      exact appendMarkup_appends E s _ b text tagPos hm
    | assertFailed => rw [hm] at h; cases h
    | outOfFuel => rw [hm] at h; cases h
  | none =>
    rw [hfind] at h
    simp only at h
    by_cases ht : text ≠ []
    · rw [if_pos ht] at h
      rw [← Outcome.done.inj h]
      exact appendPlain_appends E s _ text
    · rw [if_neg ht] at h
      rw [← Outcome.done.inj h]
      exact ⟨[], by simp⟩

theorem ClearText_dialogBeginNode (s : TextArea) :
    (ClearText s).dialogBeginNode = s.dialogBeginNode ∧ (ClearText s).textContainer = [] := by
  rw [ClearText_eq]
  exact ⟨rfl, rfl⟩

/-- C13 (the code at the failing inputs): `ClearText` replaces the body
container by an empty one and leaves `dialogBeginNode` as it is, and a call of
`AppendText` that returns leaves `dialogBeginNode` as it is, whatever its
history trim removed. So after `AppendText("Hello")`, `SetSelectOptions` and
`ClearText` on a widget with a scroll bar, `dialogBeginNode` still is the run
`Hello` while the body is empty. -/
theorem dialogBeginNode_not_cleared :
    (∀ (E : Env) (s : TextArea),
      (Full.ClearText E s).dialogBeginNode = s.dialogBeginNode ∧
      (Full.ClearText E s).textContainer = []) ∧
    (∀ (E : Env) (s s' : TextArea) (text : List Char),
      Full.AppendText E s text = .done s' → s'.dialogBeginNode = s.dialogBeginNode) ∧
    (∃ s1, Full.AppendText exampleEnv barArea "Hello".toList = .done s1 ∧
      (Full.ClearText exampleEnv
        (Full.SetSelectOptions exampleEnv s1 [(42, "Yes".toList), (43, "No".toList)] true
          none none none)).dialogBeginNode =
        some { text := "Hello".toList, font := none, palette := none, frame := none } ∧
      (Full.ClearText exampleEnv
        (Full.SetSelectOptions exampleEnv s1 [(42, "Yes".toList), (43, "No".toList)] true
          none none none)).textContainer = []) := by
  refine ⟨?_, ?_, ?_⟩
  · intro E s
    have h := fullClearText_scrollOnly E s
    unfold ScrollOnly at h
    have h1 := congrArg TextArea.dialogBeginNode h
    have h2 := congrArg TextArea.textContainer h
    simp only at h1 h2
    rw [h1, h2]
    exact ClearText_dialogBeginNode s
  · intro E s s' text h
    obtain ⟨s1, h1, rfl⟩ := fullAppendText_inv E s s' text h
    have h2 := afterAppend_scrollOnly E s1
    unfold ScrollOnly at h2
    have h3 := congrArg TextArea.dialogBeginNode h2
    simp only at h3
    rw [h3, AppendText_done_eq E s s1 text h1]
  · exact ⟨_, fullAppendText_done exampleEnv barArea _ "Hello".toList
      (AppendText_plain exampleEnv barArea "Hello".toList (by decide)), by decide, by decide⟩

/-! ## C16: the scroll position in smooth-scroll mode -/

theorem ScrollToY_no_bar (E : Env) (s : TextArea) (y : Int) (fromBar : Bool)
    (h : s.sb = none) : ScrollToY E s y fromBar = SetRow s (Int.tdiv y s.ftext.LineHeight) := by
  unfold ScrollToY
  split
  · rename_i bar hbar
    rw [h] at hbar
    cases hbar
  · rfl

theorem SetRow_sb (s : TextArea) (row : Int) : (SetRow s row).sb = s.sb := by
  unfold SetRow
  split <;> rfl

theorem fullClearText_no_bar (E : Env) (s : TextArea) (h : s.sb = none) :
    Full.ClearText E s = SetRow (ClearText s) (Int.tdiv 0 (ClearText s).ftext.LineHeight) := by
  have h1 : (ClearText s).sb = none := by rw [ClearText_eq]; exact h
  unfold Full.ClearText
  rw [ScrollToY_no_bar E _ _ _ h1, UpdateScrollbar_no_bar E _ ((SetRow_sb _ _).trans h1)]

theorem SetRow_eq (s : TextArea) (row : Int) :
    SetRow s row = { s with TextYPos := (SetRow s row).TextYPos } := by
  unfold SetRow
  split <;> rfl

/-- C16 (as amended): on a widget without a scroll bar and with the history
flag clear, in a layout in which content heights are not negative and do not
shrink when runs are appended, in every state a smooth scroll goes through
(`SetupScroll`, then calls of `AppendText` and draws, a draw only when
`NeedsDraw` holds) `TextYPos` is at least minus the height of the widget and
at most the content height of the body plus one. -/
theorem SmoothRun_bounds (E : Env) (s0 s : TextArea) (hsb : s0.sb = none)
    (hhist : s0.Flags.history = false) (h0 : 0 ≤ (E.ContentFrame []).h)
    (hmono : ∀ c r : Contents, (E.ContentFrame c).h ≤ (E.ContentFrame (c ++ r)).h)
    (hrun : SmoothRun E s0 s) :
    -(s0.Height : Int) ≤ s.TextYPos ∧ s.TextYPos ≤ (E.ContentFrame s.textContainer).h + 1 := by
  have key : s.sb = none ∧ s.Flags.history = false ∧ s.Flags.smoothscroll = true ∧
      -(s0.Height : Int) ≤ s.TextYPos ∧
      s.TextYPos ≤ (E.ContentFrame s.textContainer).h + 1 := by
    induction hrun with
    | setup now =>
      have hc := fullClearText_no_bar E { s0 with ticks := Int.tdiv 2400 s0.ftext.LineHeight } hsb
      have hsbX : (Full.ClearText E { s0 with ticks := Int.tdiv 2400 s0.ftext.LineHeight }).sb =
          none := by
        rw [hc, SetRow_sb, ClearText_eq]
        exact hsb
      have hfl : (Full.ClearText E { s0 with ticks := Int.tdiv 2400 s0.ftext.LineHeight }).Flags =
          s0.Flags := by
        rw [hc, SetRow_eq, ClearText_eq]
      have hht : (Full.ClearText E { s0 with ticks := Int.tdiv 2400 s0.ftext.LineHeight }).Height =
          s0.Height := by
        rw [hc, SetRow_eq, ClearText_eq]
      have hbd : (Full.ClearText E
          { s0 with ticks := Int.tdiv 2400 s0.ftext.LineHeight }).textContainer = [] := by
        rw [hc, SetRow_eq, ClearText_eq]
      have hnn : (0 : Int) ≤ (s0.Height : Int) := Int.ofNat_nonneg _
      refine ⟨hsbX, ?_, rfl, ?_, ?_⟩
      · show (Full.ClearText E
          { s0 with ticks := Int.tdiv 2400 s0.ftext.LineHeight }).Flags.history = false
        rw [hfl]
        exact hhist
      · show -(s0.Height : Int) ≤ -((Full.ClearText E
          { s0 with ticks := Int.tdiv 2400 s0.ftext.LineHeight }).Height : Int)
        rw [hht]
      · show -((Full.ClearText E
          { s0 with ticks := Int.tdiv 2400 s0.ftext.LineHeight }).Height : Int) ≤
          (E.ContentFrame (Full.ClearText E
            { s0 with ticks := Int.tdiv 2400 s0.ftext.LineHeight }).textContainer).h + 1
        rw [hht, hbd]
        omega
    | @append s s' text _ happ ih =>
      obtain ⟨hsb1, hh1, hs1, hlo, hhi⟩ := ih
      obtain ⟨s1, h1, rfl⟩ := fullAppendText_inv E s s' text happ
      have he := AppendText_done_eq E s s1 text h1
      obtain ⟨runs, hruns⟩ := AppendText_appends E s s1 text h1
      have hsb2 : s1.sb = none := by rw [he]; exact hsb1
      rw [(afterAppend_rows E s1).1 hsb2]
      have hy : s1.TextYPos = s.TextYPos := by rw [he]
      have hf : s1.Flags = s.Flags := by rw [he]
      rw [hy, hf, hruns, historyTrim_off E s hh1]
      exact ⟨hsb2, hh1, hs1, hlo, le_trans hhi (by have := hmono s.textContainer runs; omega)⟩
    | @draw s b thisTime _ hneed ih =>
      obtain ⟨hsb1, hh1, hs1, hlo, hhi⟩ := ih
      have hle : s.TextYPos ≤ (E.ContentFrame s.textContainer).h := by
        unfold NeedsDraw at hneed
        rw [if_pos hs1] at hneed
        by_cases hgt : s.TextYPos > (E.ContentFrame s.textContainer).h
        · rw [if_pos hgt] at hneed
          cases hneed
        · exact not_lt.mp hgt
      unfold DrawInternal
      split
      · exact ⟨hsb1, hh1, hs1, by show -(s0.Height : Int) ≤ s.TextYPos + 1; omega,
          by show s.TextYPos + 1 ≤ (E.ContentFrame s.textContainer).h + 1; omega⟩
      · exact ⟨hsb1, hh1, hs1, hlo, hhi⟩
  exact ⟨key.2.2.2.1, key.2.2.2.2⟩

theorem smoothRun_three_draws :
    SmoothRun exampleEnv lowArea
      (DrawInternal (DrawInternal (DrawInternal (SetupScroll exampleEnv lowArea 0) 1) 242) 483) :=
  SmoothRun.draw true 483
    (SmoothRun.draw true 242
      (SmoothRun.draw true 1 (SmoothRun.setup 0) (by decide)) (by decide)) (by decide)

theorem SmoothRun_bounds_witness :
    -(lowArea.Height : Int) ≤
      (DrawInternal (DrawInternal (DrawInternal (SetupScroll exampleEnv lowArea 0) 1) 242)
        483).TextYPos ∧
    (DrawInternal (DrawInternal (DrawInternal (SetupScroll exampleEnv lowArea 0) 1) 242)
        483).TextYPos ≤
      (exampleEnv.ContentFrame
        (DrawInternal (DrawInternal (DrawInternal (SetupScroll exampleEnv lowArea 0) 1) 242)
          483).textContainer).h + 1 :=
  SmoothRun_bounds exampleEnv lowArea _ rfl rfl (by decide)
    (fun c r => by
      show (10 : Int) * (c.length : Int) ≤ 10 * ((c ++ r).length : Int)
      rw [List.length_append]
      omega)
    smoothRun_three_draws

/-- C16 fails as stated: after `SetupScroll` on a widget two pixels high with
an empty body, three draws (each allowed by `NeedsDraw`) take `TextYPos` from
-2 to 1, above the content height 0: the draw that `NeedsDraw` allows at
`TextYPos = content height` moves the text one pixel further. -/
theorem SmoothRun_bounds_counterexample :
    SmoothRun exampleEnv lowArea
      (DrawInternal (DrawInternal (DrawInternal (SetupScroll exampleEnv lowArea 0) 1) 242) 483) ∧
    (DrawInternal (DrawInternal (DrawInternal (SetupScroll exampleEnv lowArea 0) 1) 242)
      483).TextYPos = 1 ∧
    (exampleEnv.ContentFrame
      (DrawInternal (DrawInternal (DrawInternal (SetupScroll exampleEnv lowArea 0) 1) 242)
        483).textContainer).h = 0 ∧
    ¬ (DrawInternal (DrawInternal (DrawInternal (SetupScroll exampleEnv lowArea 0) 1) 242)
      483).TextYPos ≤
      (exampleEnv.ContentFrame
        (DrawInternal (DrawInternal (DrawInternal (SetupScroll exampleEnv lowArea 0) 1) 242)
          483).textContainer).h :=
  ⟨smoothRun_three_draws, by decide, by decide, by decide⟩

/-! ## C11: the span pointers -/

theorem SpansValid.congr {a b : TextArea} (h1 : b.hoverSpan = a.hoverSpan)
    (h2 : b.selectedSpan = a.selectedSpan) (h3 : b.OptSpans = a.OptSpans)
    (h4 : b.selectOptions = a.selectOptions) (h : SpansValid a) : SpansValid b := by
  unfold SpansValid at *
  rw [h1, h2, h3, h4]
  exact h

theorem SpansValid.scroll {a b : TextArea} (hs : ScrollOnly a b) (h : SpansValid a) :
    SpansValid b := by
  unfold ScrollOnly at hs
  exact SpansValid.congr (by rw [hs]) (by rw [hs]) (by rw [hs]) (by rw [hs]) h

theorem findBox_setBoxPalette_isSome (x y : Nat) (q : Option Palette) (ns : List OptNode) :
    (findBox x (setBoxPalette y q ns)).isSome = (findBox x ns).isSome := by
  rw [findBox_setBoxPalette]
  split
  · cases findBox x ns <;> rfl
  · rfl

theorem SpansValid.spanSetPalette {s : TextArea} (a : Nat) (p : Option Palette)
    (h : SpansValid s) : SpansValid (s.spanSetPalette a p) := by
  obtain ⟨h1, h2, h3⟩ := h
  refine ⟨h1, h2, ?_⟩
  intro ns x hns hx
  cases hso : s.selectOptions with
  | none => simp [TextArea.spanSetPalette, hso] at hns
  | some ms =>
    have : ns = setBoxPalette a p ms := by
      simp only [TextArea.spanSetPalette, hso, Option.map_some', Option.some.injEq] at hns
      exact hns.symm
    subst this
    rw [findBox_setBoxPalette_isSome] at hx
    exact h3 ms x hso hx

theorem SpansValid.hover_none {s : TextArea} (h : SpansValid s) :
    SpansValid { s with hoverSpan := none } := by
  obtain ⟨_, h2, h3⟩ := h
  exact And.intro (fun a ha => by cases ha) (And.intro h2 h3)

theorem SpansValid.ClearHover {s : TextArea} (h : SpansValid s) : SpansValid (ClearHover s) := by
  unfold GemRB.ClearHover
  split
  · split
    · exact (h.spanSetPalette _ _).hover_none
    · exact (h.spanSetPalette _ _).hover_none
  · exact h

theorem SpansValid.ClearText {s : TextArea} (h : SpansValid s) : SpansValid (ClearText s) := by
  unfold GemRB.ClearText
  exact SpansValid.congr rfl rfl rfl rfl h.ClearHover

theorem SpansValid.ClearSelectOptions (s : TextArea) : SpansValid (ClearSelectOptions s) := by
  unfold GemRB.ClearSelectOptions
  exact And.intro (fun a ha => by cases ha)
    (And.intro (fun a ha => by cases ha) (fun ns a hns => by cases hns))

theorem ite_text_only (p : Prop) [Decidable p] (t : TextSpan) :
    ∀ n ∈ (if p then [OptNode.text t] else []), ∃ t', n = OptNode.text t' := by
  intro n hn
  split at hn
  · simp only [List.mem_singleton] at hn
    exact ⟨t, hn⟩
  · cases hn

theorem buildOptions_boxes (E : Env) (s : TextArea) (numbered : Bool) (a i : Nat)
    (opts : List (Int × List Char)) (x : Nat)
    (hx : (findBox x (buildOptions E s numbered a i opts).1).isSome = true) :
    x ∈ (buildOptions E s numbered a i opts).2.map Prod.snd := by
  induction opts generalizing a i with
  | nil => simp [buildOptions, findBox] at hx
  | cons o os ih =>
    rw [buildOptions] at hx ⊢
    simp only [findBox, makeOption] at hx
    by_cases hax : a = x
    · simp [hax]
    · rw [if_neg hax, findBox_append_text _ _ _ (ite_text_only _ _)] at hx
      simp only [List.map_cons, List.mem_cons]
      exact Or.inr (ih (a + 1) (i + 1) hx)

theorem SpansValid.installOptions (E : Env) (s : TextArea) (opts : List (Int × List Char))
    (numbered : Bool) (hh : s.hoverSpan = none) (hs : s.selectedSpan = none) :
    SpansValid (installOptions E s opts numbered) := by
  unfold GemRB.installOptions
  refine ⟨fun a ha => ?_, fun a ha => ?_, fun ns a hns ha => ?_⟩
  · simp only [hh] at ha
    cases ha
  · simp only [hs] at ha
    cases ha
  · simp only [Option.some.injEq] at hns
    subst hns
    rw [findBox_append_text _ _ _ (ite_text_only _ _)] at ha
    exact buildOptions_boxes E s numbered s.nextAddr 0 opts a ha

theorem SpansValid.fullSetSelectOptions (E : Env) (s : TextArea) (opts : List (Int × List Char))
    (numbered : Bool) (color hiColor selColor : Option Color) :
    SpansValid (Full.SetSelectOptions E s opts numbered color hiColor selColor) := by
  apply SpansValid.scroll (fullSetSelectOptions_scrollOnly E s opts numbered color hiColor selColor)
  unfold SetSelectOptions
  exact SpansValid.installOptions E _ opts numbered rfl rfl

theorem SpansValid.select {s : TextArea} (a : Nat) (v : Int) (d : List (List Char × Int))
    (e : List ControlEvent) (h : SpansValid s) (ha : a ∈ s.OptSpans.map Prod.snd) :
    SpansValid { s with Value := v, selectedSpan := some a, dictionary := d, events := e } := by
  obtain ⟨h1, _, h3⟩ := h
  refine ⟨h1, ?_, h3⟩
  intro x hx
  simp only [Option.some.injEq] at hx
  subst hx
  exact ha

theorem SpansValid.UpdateState {s : TextArea} (VariableName : List Char) (optIdx : Nat)
    (h : SpansValid s) : SpansValid (UpdateState s VariableName optIdx) := by
  unfold GemRB.UpdateState
  split
  · exact h
  · rename_i hguard
    split
    · exact SpansValid.ClearSelectOptions s
    · have hlt : optIdx < s.OptSpans.length := by
        by_contra hc
        exact hguard (Or.inr (not_lt.mp hc))
      have hmem : (s.OptSpans.getD optIdx (0, 0)).2 ∈ s.OptSpans.map Prod.snd := by
        rw [List.getD_eq_getElem?_getD, List.getElem?_eq_getElem hlt]
        exact List.mem_map_of_mem _ (List.getElem_mem hlt)
      simp only
      cases hsel : s.selectedSpan with
      | none =>
        simp only
        exact SpansValid.select _ _ _ _ (h.spanSetPalette _ _) hmem
      | some sel =>
        simp only
        split
        · exact SpansValid.select _ _ _ _ ((h.spanSetPalette _ _).spanSetPalette _ _) hmem
        · exact SpansValid.select _ _ _ _ (h.spanSetPalette _ _) hmem

theorem SpansValid.OnKeyPress {s : TextArea} (Key : Nat) (h : SpansValid s) :
    SpansValid (OnKeyPress s Key).2 := by
  unfold GemRB.OnKeyPress
  split
  · split
    · exact SpansValid.congr rfl rfl rfl rfl h
    · exact h
  · split
    · exact h
    · simp only
      split
      · exact h.UpdateState _ _
      · exact h

theorem SpansValid.hover_some {s : TextArea} (a : Nat) (h : SpansValid s)
    (ha : a ∈ s.OptSpans.map Prod.snd) : SpansValid { s with hoverSpan := some a } := by
  obtain ⟨_, h2, h3⟩ := h
  refine And.intro ?_ (And.intro h2 h3)
  intro x hx
  simp only [Option.some.injEq] at hx
  subst hx
  exact ha

theorem SpansValid.OnMouseOver (E : Env)
    (hhit : ∀ ns px py a, E.ContentAtPoint ns px py = some a → (findBox a ns).isSome = true)
    {s : TextArea} (x y : Nat) (h : SpansValid s) : SpansValid (OnMouseOver E s x y) := by
  unfold GemRB.OnMouseOver
  cases hns : s.selectOptions with
  | none => exact h
  | some ns =>
    simp only
    cases hh : hitSpan E s ns x y with
    | none => exact h.ClearHover
    | some a =>
      simp only
      have ha : a ∈ s.OptSpans.map Prod.snd := h.2.2 ns a hns (hhit ns _ _ a hh)
      have ho : ((GemRB.ClearHover s).spanSetPalette a (s.palettes .HOVER)).OptSpans = s.OptSpans := by
        rw [ClearHover_eq]
        rfl
      exact SpansValid.hover_some a (h.ClearHover.spanSetPalette _ _) (by rw [ho]; exact ha)

theorem SpansValid.fullAppendText (E : Env) {s s' : TextArea} (text : List Char)
    (happ : Full.AppendText E s text = .done s') (h : SpansValid s) : SpansValid s' := by
  obtain ⟨s1, h1, rfl⟩ := fullAppendText_inv E s s' text happ
  have he := AppendText_done_eq E s s1 text h1
  apply SpansValid.scroll (afterAppend_scrollOnly E s1)
  exact SpansValid.congr (by rw [he]) (by rw [he]) (by rw [he]) (by rw [he]) h

/-- Every reachable state has its span pointers in order, when the hit test
of the options container finds nothing but option containers it owns. -/
theorem Reachable.spansValid (E : Env)
    (hhit : ∀ ns px py a, E.ContentAtPoint ns px py = some a → (findBox a ns).isSome = true)
    {s : TextArea} (hr : Reachable E s) : SpansValid s := by
  induction hr with
  | fresh hf =>
    obtain ⟨h1, _, h3, h4, _⟩ := hf
    refine And.intro ?_ (And.intro ?_ ?_)
    · intro a ha
      rw [h3] at ha
      cases ha
    · intro a ha
      rw [h4] at ha
      cases ha
    · intro ns a hns
      rw [h1] at hns
      cases hns
  | setOptions opts numbered color hiColor selColor _ _ =>
    exact SpansValid.fullSetSelectOptions E _ opts numbered color hiColor selColor
  | clearOptions _ _ =>
    exact SpansValid.scroll (fullClearSelectOptions_scrollOnly E _) (SpansValid.ClearSelectOptions _)
  | clearText _ ih => exact SpansValid.scroll (fullClearText_scrollOnly E _) ih.ClearText
  | setText text _ hset ih =>
    exact SpansValid.fullAppendText E text hset
      (SpansValid.scroll (fullClearText_scrollOnly E _) ih.ClearText)
  | appendText text _ happ ih => exact SpansValid.fullAppendText E text happ ih
  | mouseOver x y _ ih => exact SpansValid.OnMouseOver E hhit x y ih
  | mouseLeave _ ih => exact ih.ClearHover
  | mouseUp actionOrMenu _ ih =>
    unfold Full.OnMouseUp
    split
    · split
      · exact SpansValid.scroll (fullUpdateState_scrollOnly E _ _ _) (ih.UpdateState _ _)
      · exact ih
    · exact ih
  | keyPress Key _ ih =>
    exact SpansValid.scroll (fullOnKeyPress_scrollOnly E _ Key).2 (ih.OnKeyPress Key)
  | updateState VariableName optIdx _ ih =>
    exact SpansValid.scroll (fullUpdateState_scrollOnly E _ _ _) (ih.UpdateState _ _)

/-- C11: in every state reachable from a fresh widget through
`SetSelectOptions`, `ClearSelectOptions`, `ClearText`, `SetText`,
`AppendText`, `OnMouseOver`, `OnMouseLeave`, `OnMouseUp`, `OnKeyPress` and
`UpdateState`, each of `hoverSpan` and `selectedSpan` is null or the container
of an entry of `OptSpans`, provided that the hit test of the options container
returns null or one of the option containers it owns. -/
theorem Reachable_span_pointers (E : Env)
    (hhit : ∀ ns px py a, E.ContentAtPoint ns px py = some a → (findBox a ns).isSome = true)
    (s : TextArea) (hr : Reachable E s) :
    (s.hoverSpan = none ∨ ∃ e ∈ s.OptSpans, s.hoverSpan = some e.2) ∧
    (s.selectedSpan = none ∨ ∃ e ∈ s.OptSpans, s.selectedSpan = some e.2) := by
  obtain ⟨h1, h2, _⟩ := Reachable.spansValid E hhit hr
  constructor
  · cases hh : s.hoverSpan with
    | none => exact Or.inl rfl
    | some a =>
      obtain ⟨e, he, hea⟩ := List.mem_map.mp (h1 a hh)
      exact Or.inr ⟨e, he, by rw [hea]⟩
  · cases hh : s.selectedSpan with
    | none => exact Or.inl rfl
    | some a =>
      obtain ⟨e, he, hea⟩ := List.mem_map.mp (h2 a hh)
      exact Or.inr ⟨e, he, by rw [hea]⟩

theorem findBox_of_mem (b : OptionBox) (ns : List OptNode) (h : OptNode.option b ∈ ns) :
    (findBox b.addr ns).isSome = true := by
  induction ns with
  | nil => cases h
  | cons n ns ih =>
    cases n with
    | text t =>
      simp only [List.mem_cons] at h
      rcases h with h | h
      · cases h
      · simpa [findBox] using ih h
    | option c =>
      by_cases hc : c.addr = b.addr
      · simp [findBox, hc]
      · simp only [List.mem_cons, OptNode.option.injEq] at h
        rcases h with h | h
        · exact absurd (by rw [h]) hc
        · simpa [findBox, hc] using ih h

theorem exampleEnv_hit (ns : List OptNode) (px py : Int) (a : Nat)
    (h : exampleEnv.ContentAtPoint ns px py = some a) : (findBox a ns).isSome = true := by
  simp only [exampleEnv] at h
  split at h
  · rename_i b hb
    split at h
    · rw [← Option.some.inj h]
      exact findBox_of_mem b ns (List.get?_mem hb)
    · cases h
  · cases h

theorem Reachable_span_pointers_witness :
    ((Full.OnKeyPress exampleEnv hoveredArea 50).2.hoverSpan = none ∨
      ∃ e ∈ (Full.OnKeyPress exampleEnv hoveredArea 50).2.OptSpans,
        (Full.OnKeyPress exampleEnv hoveredArea 50).2.hoverSpan = some e.2) ∧
    ((Full.OnKeyPress exampleEnv hoveredArea 50).2.selectedSpan = none ∨
      ∃ e ∈ (Full.OnKeyPress exampleEnv hoveredArea 50).2.OptSpans,
        (Full.OnKeyPress exampleEnv hoveredArea 50).2.selectedSpan = some e.2) :=
  Reachable_span_pointers exampleEnv exampleEnv_hit _
    (Reachable.keyPress 50
      (Reachable.mouseOver 5 5
        (Reachable.setOptions [(42, "Yes".toList), (43, "No".toList)] true
          (some ⟨0, 255, 0, 0⟩) (some ⟨0, 0, 255, 0⟩) (some ⟨255, 0, 0, 0⟩)
          (Reachable.fresh ⟨rfl, rfl, rfl, rfl, rfl⟩))))


/-! ## C21: the parse loop terminates -/

theorem step_rest_le (ftext finit : Font) (back : Color) (c : ParseCfg) :
    (step ftext finit back c).rest.length ≤ c.rest.length := by
  obtain ⟨st, tok, pal, fnt, fr, pc, rest, out⟩ := c
  cases rest with
  | nil => simp [step]
  | cons ch r =>
    cases st
    · cases r with
      | nil => by_cases h1 : ch = '[' <;> simp [step, h1]
      | cons d r' =>
        by_cases h1 : ch = '['
        · by_cases h2 : d = '/'
          · simp only [step, h1, h2, if_true]
            exact Nat.le_succ_of_le (Nat.le_succ _)
          · simp [step, h1, h2]
        · simp [step, h1]
    · by_cases h1 : ch = '=' <;> by_cases h2 : ch = ']' <;> by_cases h3 : ch = '[' <;>
        simp [step, h1, h2, h3] <;> (try split_ifs) <;> simp
    · by_cases h2 : ch = ']' <;> simp [step, h2]
    · by_cases h2 : ch = ']' <;> simp [step, h2]

/-- An iteration that leaves the iterator where it was is the case `OPEN_TAG`
on `[`, and it ends in state `TEXT`. -/
theorem step_rewind (ftext finit : Font) (back : Color) (c : ParseCfg) (h : c.rest ≠ [])
    (hsame : (step ftext finit back c).rest.length = c.rest.length) :
    c.state = .OPEN_TAG ∧ c.rest.head? = some '[' ∧ (step ftext finit back c).state = .TEXT := by
  obtain ⟨st, tok, pal, fnt, fr, pc, rest, out⟩ := c
  cases rest with
  | nil => exact absurd rfl h
  | cons ch r =>
    cases st
    · cases r with
      | nil => by_cases h1 : ch = '[' <;> simp [step, h1] at hsame
      | cons d r' =>
        by_cases h1 : ch = '['
        · by_cases h2 : d = '/'
          · simp only [step, h1, h2, if_true, List.length_cons] at hsame
            omega
          · simp [step, h1, h2] at hsame
        · simp [step, h1] at hsame
    · by_cases h3 : ch = '['
      · subst h3
        simp [step]
      · by_cases h1 : ch = '=' <;> by_cases h2 : ch = ']' <;>
          simp [step, h1, h2, h3] at hsame <;> (try split_ifs at hsame) <;> simp at hsame
    · by_cases h2 : ch = ']' <;> simp [step, h2] at hsame
    · by_cases h2 : ch = ']' <;> simp [step, h2] at hsame

/-- In state `TEXT` every iteration moves the iterator forward, the look at
the character behind a `[` included. -/
theorem step_text_consumes (ftext finit : Font) (back : Color) (c : ParseCfg) (h : c.rest ≠ [])
    (hst : c.state = .TEXT) : (step ftext finit back c).rest.length < c.rest.length := by
  obtain ⟨st, tok, pal, fnt, fr, pc, rest, out⟩ := c
  simp only at hst
  subst hst
  cases rest with
  | nil => exact absurd rfl h
  | cons ch r =>
    cases r with
    | nil => by_cases h1 : ch = '[' <;> simp [step, h1]
    | cons d r' =>
      by_cases h1 : ch = '['
      · by_cases h2 : d = '/'
        · simp only [step, h1, h2, if_true, List.length_cons]
          omega
        · simp [step, h1, h2]
      · simp [step, h1]

theorem step_rank_lt (ftext finit : Font) (back : Color) (c : ParseCfg) (h : c.rest ≠ []) :
    Prod.Lex (· < ·) (· < ·) (parseRank (step ftext finit back c)) (parseRank c) := by
  have hle := step_rest_le ftext finit back c
  rcases Nat.lt_or_ge (step ftext finit back c).rest.length c.rest.length with hlt | hge
  · exact Prod.Lex.left _ _ hlt
  · have hsame : (step ftext finit back c).rest.length = c.rest.length := Nat.le_antisymm hle hge
    obtain ⟨h1, _, h3⟩ := step_rewind ftext finit back c h hsame
    unfold parseRank
    rw [hsame, h1, h3]
    exact Prod.Lex.right _ (by decide)

/-- C21: for every input string (every configuration `c` the loop is started
in, so every remaining input `c.rest`) the parse loop terminates: run for at
least `2 * |rest| + 1` iterations it returns a configuration at the end of the
input. An iteration never moves the iterator backwards; the one case that
leaves it where it was (`OPEN_TAG` on `[`, which rewinds) changes the state to
`TEXT`, and in state `TEXT` every iteration consumes input, the one that looks
ahead behind a `[` and steps back included; so the pair (remaining input,
parser state) decreases in the lexicographic order with every iteration. The
budget of iterations `AppendText` gives the loop is never used up. -/
theorem parseLoop_terminates (ftext finit : Font) (back : Color) (c : ParseCfg) (n : Nat)
    (hn : 2 * c.rest.length + 1 ≤ n) :
    (∃ c', parseLoop ftext finit back n c = some c' ∧ c'.rest = []) ∧
    (∀ d : ParseCfg, d.rest ≠ [] →
      Prod.Lex (· < ·) (· < ·) (parseRank (step ftext finit back d)) (parseRank d)) ∧
    (∀ d : ParseCfg, d.rest ≠ [] →
      (step ftext finit back d).rest.length = d.rest.length →
        d.state = .OPEN_TAG ∧ d.rest.head? = some '[' ∧
          (step ftext finit back d).state = .TEXT) ∧
    (∀ d : ParseCfg, d.rest ≠ [] → d.state = .TEXT →
      (step ftext finit back d).rest.length < d.rest.length) ∧
    (∀ (E : Env) (s : TextArea) (text : List Char), AppendText E s text ≠ .outOfFuel) := by
  have hm : parseMeasure c ≤ n := by
    unfold parseMeasure
    split <;> omega
  refine ⟨⟨_, parseLoop_total ftext finit back n c hm, ?_⟩, ?_, ?_, ?_,
    AppendText_ne_outOfFuel⟩
  · exact iterate_step_rest_nil ftext finit back n c hm
  · exact fun d hd => step_rank_lt ftext finit back d hd
  · exact fun d hd hs => step_rewind ftext finit back d hd hs
  · exact fun d hd hs => step_text_consumes ftext finit back d hd hs

theorem parseLoop_terminates_witness :
    (∃ c', parseLoop bodyFont capsFont ⟨0, 0, 0, 0⟩ 9
        (parseStart exampleEnv exampleArea [] "a[[b".toList) = some c' ∧ c'.rest = []) ∧
    (parseLoop bodyFont capsFont ⟨0, 0, 0, 0⟩ 9
        (parseStart exampleEnv exampleArea [] "a[[b".toList)).map ParseCfg.state =
      some .OPEN_TAG :=
  ⟨(parseLoop_terminates bodyFont capsFont ⟨0, 0, 0, 0⟩
      (parseStart exampleEnv exampleArea [] "a[[b".toList) 9 (by decide)).1, by decide⟩


/-! ## C23: the mouse wheel -/

theorem wheelTarget_eq (longBits : Nat) (t y : Int) (hbits : longBits = 32 ∨ longBits = 64)
    (ht : -2 ^ 31 ≤ t ∧ t < 2 ^ 31) (hy : -2 ^ 15 ≤ y ∧ y < 2 ^ 15) (hhi : t + y < 2 ^ 31)
    (hlo : longBits = 32 → -2 ^ 31 ≤ t + y) :
    wheelTarget longBits t y = some (max 0 (t + y)) := by
  obtain ⟨ht1, ht2⟩ := ht
  obtain ⟨hy1, hy2⟩ := hy
  rcases hbits with rfl | rfl
  · have hlo2 := hlo rfl
    simp only [wheelTarget, toUnsigned, toSigned]
    norm_num at *
    split_ifs <;> omega
  · simp only [wheelTarget, toUnsigned, toSigned]
    norm_num at *
    split_ifs <;> omega

/-- C23 (as amended): with the smooth-scroll flag set the handler leaves the
widget as it is. With the flag clear, where `long` has 32 or 64 bits, for
every `TextYPos` in the range of a 32 bit `int` and every wheel delta `y` in
the range of a 16 bit `short` such that `TextYPos + y` is at most `2^31 - 1`
(and, where `long` has 32 bits, at least `-2^31`), the handler calls
`ScrollToY` with exactly `max(0, TextYPos + y)`. -/
theorem OnMouseWheelScroll_target (E : Env) (longBits : Nat) (s : TextArea) (y : Int) :
    (s.Flags.smoothscroll = true → OnMouseWheelScroll E longBits s y = some s) ∧
    (s.Flags.smoothscroll = false → (longBits = 32 ∨ longBits = 64) →
      (-2 ^ 31 ≤ s.TextYPos ∧ s.TextYPos < 2 ^ 31) → (-2 ^ 15 ≤ y ∧ y < 2 ^ 15) →
      s.TextYPos + y < 2 ^ 31 → (longBits = 32 → -2 ^ 31 ≤ s.TextYPos + y) →
      wheelTarget longBits s.TextYPos y = some (max 0 (s.TextYPos + y)) ∧
      OnMouseWheelScroll E longBits s y =
        some (ScrollToY E s (max 0 (s.TextYPos + y)) false)) := by
  constructor
  · intro hsm
    unfold OnMouseWheelScroll
    rw [hsm]
    rfl
  · intro hsm hbits ht hy hhi hlo
    have hw := wheelTarget_eq longBits s.TextYPos y hbits ht hy hhi hlo
    refine ⟨hw, ?_⟩
    unfold OnMouseWheelScroll
    rw [if_pos hsm, hw]
    rfl

theorem OnMouseWheelScroll_target_witness :
    (wheelTarget 64 raisedArea.TextYPos 5 = some (max 0 (raisedArea.TextYPos + 5)) ∧
      OnMouseWheelScroll exampleEnv 64 raisedArea 5 =
        some (ScrollToY exampleEnv raisedArea (max 0 (raisedArea.TextYPos + 5)) false)) ∧
    raisedArea.TextYPos = -20 ∧ max 0 (raisedArea.TextYPos + 5) = 0 :=
  ⟨(OnMouseWheelScroll_target exampleEnv 64 raisedArea 5).2 (by decide) (by decide)
      (by decide) (by decide) (by decide) (by decide), by decide, by decide⟩

/-- C23 fails as stated: in `farArea` the scroll bar has set `TextYPos` to
2147483647; with a wheel delta of 1 and a `long` of 64 bits the sum 2147483648
is kept in `fauxY` and its conversion to `int` wraps: the handler calls
`ScrollToY` with -2147483648, a negative target, and not with
`max(0, TextYPos + y)`. With a `long` of 32 bits the signed sum overflows. -/
theorem OnMouseWheelScroll_target_counterexample :
    farArea.Flags.smoothscroll = false ∧ farArea.TextYPos = 2147483647 ∧
    wheelTarget 64 farArea.TextYPos 1 = some (-2147483648) ∧
    wheelTarget 64 farArea.TextYPos 1 ≠ some (max 0 (farArea.TextYPos + 1)) ∧
    (OnMouseWheelScroll exampleEnv 64 farArea 1).map TextArea.TextYPos =
      some (ScrollToY exampleEnv farArea (-2147483648) false).TextYPos ∧
    wheelTarget 32 farArea.TextYPos 1 = none := by
  decide


/-! ## C22: the palettes of the option containers -/

theorem mem_setBoxPalette (a : Nat) (p : Option Palette) (ns : List OptNode) (b' : OptionBox)
    (h : OptNode.option b' ∈ setBoxPalette a p ns) :
    ∃ b, OptNode.option b ∈ ns ∧ b'.addr = b.addr ∧
      ((b.addr = a ∧ b'.palette = p) ∨ (b.addr ≠ a ∧ b' = b)) := by
  induction ns with
  | nil => simp [setBoxPalette] at h
  | cons n ns ih =>
    cases n with
    | text t =>
      simp only [setBoxPalette, List.mem_cons] at h
      rcases h with h | h
      · cases h
      · obtain ⟨b, hb, hrest⟩ := ih h
        exact ⟨b, List.mem_cons_of_mem _ hb, hrest⟩
    | option c =>
      simp only [setBoxPalette, List.mem_cons] at h
      rcases h with h | h
      · by_cases hc : c.addr = a
        · rw [if_pos hc] at h
          injection h with h
          subst h
          exact ⟨c, List.mem_cons_self _ _, rfl, Or.inl ⟨hc, rfl⟩⟩
        · rw [if_neg hc] at h
          injection h with h
          subst h
          exact ⟨b', List.mem_cons_self _ _, rfl, Or.inr ⟨hc, rfl⟩⟩
      · obtain ⟨b, hb, hrest⟩ := ih h
        exact ⟨b, List.mem_cons_of_mem _ hb, hrest⟩

theorem palettesValid_congr {a b : TextArea} (h1 : b.hoverSpan = a.hoverSpan)
    (h2 : b.selectedSpan = a.selectedSpan) (h3 : b.palettes = a.palettes)
    (h4 : b.selectOptions = a.selectOptions) (h : PalettesValid a) : PalettesValid b := by
  unfold PalettesValid at *
  rw [h1, h2, h3, h4]
  exact h

theorem palettesValid_scroll {a b : TextArea} (hs : ScrollOnly a b) (h : PalettesValid a) :
    PalettesValid b := by
  unfold ScrollOnly at hs
  exact palettesValid_congr (by rw [hs]) (by rw [hs]) (by rw [hs]) (by rw [hs]) h

/-- A state without an options container has its palettes in order. -/
theorem palettesValid_of_none {s : TextArea} (h : s.selectOptions = none) : PalettesValid s := by
  intro ns b hns
  rw [h] at hns
  cases hns

/-- One call of `SetPalette` on the option container at address `a` keeps the
palettes in order, when the palette fits the new state of `a` and the other
containers that are under the mouse or selected stay so. -/
theorem palettesValid_paint {s t : TextArea} (a : Nat) (p : Option Palette)
    (hso : t.selectOptions = s.selectOptions.map (setBoxPalette a p))
    (hpal : t.palettes = s.palettes)
    (hp : p = s.palettes .OPTIONS ∨ (t.hoverSpan = some a ∧ p = s.palettes .HOVER) ∨
      (t.selectedSpan = some a ∧ p = s.palettes .SELECTED))
    (hh : ∀ x, x ≠ a → s.hoverSpan = some x → t.hoverSpan = some x)
    (hs : ∀ x, x ≠ a → s.selectedSpan = some x → t.selectedSpan = some x)
    (h : PalettesValid s) : PalettesValid t := by
  intro ns b' hns hb'
  rw [hso] at hns
  cases hms : s.selectOptions with
  | none =>
    rw [hms] at hns
    cases hns
  | some ms =>
    rw [hms] at hns
    simp only [Option.map_some', Option.some.injEq] at hns
    subst hns
    obtain ⟨b, hb, haddr, hcase⟩ := mem_setBoxPalette a p ms b' hb'
    rw [hpal]
    rcases hcase with ⟨hba, hpp⟩ | ⟨hba, rfl⟩
    · rw [haddr, hba, hpp]
      exact hp
    · rcases h ms b' hms hb with h1 | ⟨h2, h3⟩ | ⟨h2, h3⟩
      · exact Or.inl h1
      · exact Or.inr (Or.inl ⟨hh _ hba h2, h3⟩)
      · exact Or.inr (Or.inr ⟨hs _ hba h2, h3⟩)

theorem palettesValid_ClearHover {s : TextArea} (h : PalettesValid s) :
    PalettesValid (ClearHover s) := by
  unfold ClearHover
  cases hh : s.hoverSpan with
  | none => exact h
  | some a =>
    simp only
    split
    · rename_i heq
      refine palettesValid_paint a (s.palettes .SELECTED) rfl rfl
        (Or.inr (Or.inr ⟨?_, rfl⟩)) ?_ (fun x _ hx => hx) h
      · show s.selectedSpan = some a
        rw [← heq]
      · intro x hxa hx
        rw [hh] at hx
        exact absurd (Option.some.inj hx).symm hxa
    · refine palettesValid_paint a (s.palettes .OPTIONS) rfl rfl (Or.inl rfl) ?_
        (fun x _ hx => hx) h
      intro x hxa hx
      rw [hh] at hx
      exact absurd (Option.some.inj hx).symm hxa

theorem palettesValid_select {s : TextArea} (a : Nat) (v : Int) (d : List (List Char × Int))
    (e : List ControlEvent) (h : PalettesValid s)
    (hsel : ∀ x, s.selectedSpan = some x → x = a) :
    PalettesValid
      { s.spanSetPalette a (s.palettes .SELECTED) with
        Value := v, selectedSpan := some a, dictionary := d, events := e } := by
  refine palettesValid_paint a (s.palettes .SELECTED) rfl rfl (Or.inr (Or.inr ⟨rfl, rfl⟩))
    (fun x _ hx => hx) ?_ h
  intro x hxa hx
  exact absurd (hsel x hx) hxa

theorem palettesValid_UpdateState {s : TextArea} (VariableName : List Char) (optIdx : Nat)
    (h : PalettesValid s) : PalettesValid (UpdateState s VariableName optIdx) := by
  unfold UpdateState
  split
  · exact h
  · split
    · exact palettesValid_of_none rfl
    · simp only
      cases hsel : s.selectedSpan with
      | none =>
        simp only
        refine palettesValid_select _ _ _ _ h ?_
        intro x hx
        rw [hsel] at hx
        cases hx
      | some sel =>
        simp only
        split
        · rename_i hne
          have h1 : PalettesValid
              { s.spanSetPalette sel (s.palettes .OPTIONS) with selectedSpan := none } := by
            refine palettesValid_paint sel (s.palettes .OPTIONS) rfl rfl (Or.inl rfl)
              (fun x _ hx => hx) ?_ h
            intro x hxa hx
            rw [hsel] at hx
            exact absurd (Option.some.inj hx).symm hxa
          refine palettesValid_paint (s.OptSpans.getD optIdx (0, 0)).2 (s.palettes .SELECTED)
            ?_ ?_ ?_ ?_ ?_ h1
          · rfl
          · rfl
          · exact Or.inr (Or.inr ⟨rfl, rfl⟩)
          · exact fun x _ hx => hx
          · intro x _ hx
            exact absurd hx (by simp)
        · rename_i heq
          refine palettesValid_select _ _ _ _ h ?_
          intro x hx
          rw [hsel] at hx
          rw [← Option.some.inj hx]
          exact not_not.mp heq

theorem palettesValid_OnKeyPress {s : TextArea} (Key : Nat) (h : PalettesValid s) :
    PalettesValid (OnKeyPress s Key).2 := by
  unfold OnKeyPress
  split
  · split
    · exact palettesValid_congr rfl rfl rfl rfl h
    · exact h
  · split
    · exact h
    · simp only
      split
      · exact palettesValid_UpdateState _ _ h
      · exact h

theorem palettesValid_OnMouseOver (E : Env) {s : TextArea} (x y : Nat) (h : PalettesValid s) :
    PalettesValid (OnMouseOver E s x y) := by
  unfold OnMouseOver
  cases hns : s.selectOptions with
  | none => exact h
  | some ns =>
    simp only
    cases hh : hitSpan E s ns x y with
    | none => exact palettesValid_ClearHover h
    | some a =>
      simp only
      have hc := palettesValid_ClearHover h
      have hpal : (ClearHover s).palettes = s.palettes := by
        rw [ClearHover_eq]
      have hhov : (ClearHover s).hoverSpan = none := by
        rw [ClearHover_eq]
      refine palettesValid_paint a (s.palettes .HOVER) rfl rfl
        (Or.inr (Or.inl ⟨rfl, by rw [hpal]⟩)) ?_ (fun x _ hx => hx) hc
      intro x _ hx
      rw [hhov] at hx
      cases hx

theorem buildOptions_palette (E : Env) (s : TextArea) (numbered : Bool) (a i : Nat)
    (opts : List (Int × List Char)) (b : OptionBox)
    (hb : OptNode.option b ∈ (buildOptions E s numbered a i opts).1) :
    b.palette = s.palettes .OPTIONS := by
  induction opts generalizing a i with
  | nil => simp [buildOptions] at hb
  | cons o os ih =>
    rw [buildOptions] at hb
    simp only [List.mem_cons, List.mem_append] at hb
    rcases hb with hb | hb | hb
    · injection hb with hb
      rw [hb]
      rfl
    · obtain ⟨t, ht⟩ := ite_text_only _ _ _ hb
      cases ht
    · exact ih (a + 1) (i + 1) hb

theorem palettesValid_installOptions (E : Env) (s : TextArea) (opts : List (Int × List Char))
    (numbered : Bool) : PalettesValid (installOptions E s opts numbered) := by
  unfold installOptions
  intro ns b hns hb
  simp only [Option.some.injEq] at hns
  subst hns
  left
  rcases List.mem_append.mp hb with hb | hb
  · obtain ⟨t, ht⟩ := ite_text_only _ _ _ hb
    cases ht
  · exact buildOptions_palette E s numbered s.nextAddr 0 opts b hb

theorem palettesValid_fullAppendText (E : Env) {s s' : TextArea} (text : List Char)
    (happ : Full.AppendText E s text = .done s') (h : PalettesValid s) : PalettesValid s' := by
  obtain ⟨s1, h1, rfl⟩ := fullAppendText_inv E s s' text happ
  have he := AppendText_done_eq E s s1 text h1
  apply palettesValid_scroll (afterAppend_scrollOnly E s1)
  exact palettesValid_congr (by rw [he]) (by rw [he]) (by rw [he]) (by rw [he]) h

theorem palettesValid_fullClearText (E : Env) {s : TextArea} (h : PalettesValid s) :
    PalettesValid (Full.ClearText E s) := by
  apply palettesValid_scroll (fullClearText_scrollOnly E s)
  unfold ClearText
  exact palettesValid_congr rfl rfl rfl rfl (palettesValid_ClearHover h)

/-- Every reachable state has the palettes of its option containers in
order. -/
theorem reachable_palettesValid (E : Env) {s : TextArea} (hr : Reachable E s) :
    PalettesValid s := by
  induction hr with
  | fresh hf => exact palettesValid_of_none hf.1
  | setOptions opts numbered color hiColor selColor _ _ =>
    apply palettesValid_scroll
      (fullSetSelectOptions_scrollOnly E _ opts numbered color hiColor selColor)
    unfold SetSelectOptions
    exact palettesValid_installOptions E _ opts numbered
  | clearOptions _ _ =>
    exact palettesValid_scroll (fullClearSelectOptions_scrollOnly E _)
      (palettesValid_of_none rfl)
  | clearText _ ih => exact palettesValid_fullClearText E ih
  | setText text _ hset ih =>
    exact palettesValid_fullAppendText E text hset (palettesValid_fullClearText E ih)
  | appendText text _ happ ih => exact palettesValid_fullAppendText E text happ ih
  | mouseOver x y _ ih => exact palettesValid_OnMouseOver E x y ih
  | mouseLeave _ ih => exact palettesValid_ClearHover ih
  | mouseUp actionOrMenu _ ih =>
    unfold Full.OnMouseUp
    split
    · split
      · exact palettesValid_scroll (fullUpdateState_scrollOnly E _ _ _)
          (palettesValid_UpdateState _ _ ih)
      · exact ih
    · exact ih
  | keyPress Key _ ih =>
    exact palettesValid_scroll (fullOnKeyPress_scrollOnly E _ Key).2
      (palettesValid_OnKeyPress Key ih)
  | updateState VariableName optIdx _ ih =>
    exact palettesValid_scroll (fullUpdateState_scrollOnly E _ _ _)
      (palettesValid_UpdateState _ _ ih)

/-- C22 (as amended): in every state reachable through `SetSelectOptions`,
`OnMouseOver`, `OnMouseLeave`, `OnMouseUp`, key presses and `UpdateState` (and
the text operations), every option container that is neither `hoverSpan` nor
`selectedSpan` carries the options palette; and when the selected palette
differs from the options palette and from the hover palette, every option
container that carries the selected palette is `selectedSpan`, so that all
containers shown as selected are one and the same. -/
theorem Reachable_option_palettes (E : Env) (s : TextArea) (ns : List OptNode)
    (hr : Reachable E s) (hns : s.selectOptions = some ns) :
    (∀ b, OptNode.option b ∈ ns → s.hoverSpan ≠ some b.addr → s.selectedSpan ≠ some b.addr →
      b.palette = s.palettes .OPTIONS) ∧
    (s.palettes .SELECTED ≠ s.palettes .OPTIONS → s.palettes .SELECTED ≠ s.palettes .HOVER →
      (∀ b, OptNode.option b ∈ ns → b.palette = s.palettes .SELECTED →
        s.selectedSpan = some b.addr) ∧
      (∀ b b', OptNode.option b ∈ ns → OptNode.option b' ∈ ns →
        b.palette = s.palettes .SELECTED → b'.palette = s.palettes .SELECTED →
        b.addr = b'.addr)) := by
  have hv := reachable_palettesValid E hr
  have key : s.palettes .SELECTED ≠ s.palettes .OPTIONS →
      s.palettes .SELECTED ≠ s.palettes .HOVER →
      ∀ b, OptNode.option b ∈ ns → b.palette = s.palettes .SELECTED →
        s.selectedSpan = some b.addr := by
    intro h1 h2 b hb hp
    rcases hv ns b hns hb with h | ⟨_, h⟩ | ⟨h, _⟩
    · exact absurd (hp.symm.trans h) h1
    · exact absurd (hp.symm.trans h) h2
    · exact h
  refine ⟨?_, fun h1 h2 => ⟨key h1 h2, ?_⟩⟩
  · intro b hb hh hs
    rcases hv ns b hns hb with h | ⟨h, _⟩ | ⟨h, _⟩
    · exact h
    · exact absurd h hh
    · exact absurd h hs
  · intro b b' hb hb' hp hp'
    have e1 := key h1 h2 b hb hp
    have e2 := key h1 h2 b' hb' hp'
    rw [e1] at e2
    exact Option.some.inj e2

theorem pressedArea_reachable : Reachable exampleEnv pressedArea :=
  Reachable.keyPress 50
    (Reachable.mouseOver 5 5
      (Reachable.setOptions [(42, "Yes".toList), (43, "No".toList), (44, "Maybe".toList)] true
        (some ⟨0, 255, 0, 0⟩) (some ⟨0, 0, 255, 0⟩) (some ⟨255, 0, 0, 0⟩)
        (Reachable.fresh ⟨rfl, rfl, rfl, rfl, rfl⟩)))

theorem Reachable_option_palettes_witness :
    pressedArea.hoverSpan = some 100 ∧ pressedArea.selectedSpan = some 101 ∧
    pressedArea.spanPalette 102 = some (pressedArea.palettes .OPTIONS) ∧
    pressedArea.palettes .SELECTED ≠ pressedArea.palettes .OPTIONS ∧
    pressedArea.palettes .SELECTED ≠ pressedArea.palettes .HOVER ∧
    ((∀ b, OptNode.option b ∈ pressedArea.selectOptions.getD [] →
        pressedArea.hoverSpan ≠ some b.addr → pressedArea.selectedSpan ≠ some b.addr →
        b.palette = pressedArea.palettes .OPTIONS) ∧
      (pressedArea.palettes .SELECTED ≠ pressedArea.palettes .OPTIONS →
        pressedArea.palettes .SELECTED ≠ pressedArea.palettes .HOVER →
        (∀ b, OptNode.option b ∈ pressedArea.selectOptions.getD [] →
          b.palette = pressedArea.palettes .SELECTED →
          pressedArea.selectedSpan = some b.addr) ∧
        (∀ b b', OptNode.option b ∈ pressedArea.selectOptions.getD [] →
          OptNode.option b' ∈ pressedArea.selectOptions.getD [] →
          b.palette = pressedArea.palettes .SELECTED →
          b'.palette = pressedArea.palettes .SELECTED → b.addr = b'.addr))) :=
  ⟨by decide, by decide, by decide, by decide, by decide,
    Reachable_option_palettes exampleEnv pressedArea (pressedArea.selectOptions.getD [])
      pressedArea_reachable (by decide)⟩

/-- C22 fails as stated: when no colour is handed to `SetSelectOptions`, the
options, hover and selected palettes all are the normal palette. After the
key `1` on two such options the first one (address 100) is `selectedSpan` and
nothing is under the mouse; the second one (address 101) is not selected and
carries the selected palette all the same. -/
theorem Reachable_option_palettes_counterexample :
    Reachable exampleEnv defaultsArea ∧
    defaultsArea.selectedSpan = some 100 ∧ defaultsArea.hoverSpan = none ∧
    defaultsArea.spanPalette 101 = some (defaultsArea.palettes .SELECTED) ∧
    defaultsArea.spanPalette 100 = some (defaultsArea.palettes .SELECTED) :=
  ⟨Reachable.keyPress 49
      (Reachable.setOptions [(42, "Yes".toList), (43, "No".toList)] true none none none
        (Reachable.fresh ⟨rfl, rfl, rfl, rfl, rfl⟩)),
    by decide, by decide, by decide, by decide⟩

end GemRB
